import Mathlib

/-!
Exception unwinding (`hphp/runtime/vm/unwind.cpp`)

A shallow embedding of the unwinder of the VM: the fault chain builder
(`chainFaultObjects`), the exception-table lookup (`findCatchHandler`), the
frame teardown protocol (`tearDownFrame`) and the unwind driver (`unwindVM`),
followed by the properties proved about them.

Part I: fault objects and `chainFaultObjects`

Objects are addressed by `Fin n`: a heap of `n` objects, every pointer valid.
Only what `chainFaultObjects` touches is kept of an object: the declared
property at slot `s_previousIdx`, whether the object is an instance of
`Throwable`, and its reference count.
-/

namespace HPHP

/-- The content of a property slot, as far as the walk inspects it: `null`,
an object pointer, or a value of any other (non-object) type. -/
inductive PropValue (n : Nat) where
  | null : PropValue n
  | obj (p : Fin n) : PropValue n
  | other : PropValue n
  deriving DecidableEq, Repr

/-- A heap of `n` objects. `previous o` is the slot `s_previousIdx` of `o`,
`throwable o` is `o->instanceof(SystemLib::s_ThrowableClass)`, and
`refCount o` is the reference count of `o`. -/
structure Heap (n : Nat) where
  previous : Fin n → PropValue n
  throwable : Fin n → Bool
  refCount : Fin n → Int

/-- Decrement of the reference count of an object (`decRefObj`). What happens
when the count reaches zero (destructor, deallocation) belongs to the heap
object model and is not part of this development. -/
def decRefObj {n : Nat} (h : Heap n) (o : Fin n) : Heap n :=
  { h with refCount := fun x => if x = o then h.refCount x - 1 else h.refCount x }

/-- Release of a value (`tvDecRefGen`): an object loses one reference, any
other value modelled here is not reference counted. -/
def tvDecRefGen {n : Nat} (h : Heap n) (v : PropValue n) : Heap n :=
  match v with
  | .obj p => decRefObj h p
  | _ => h

/-- Move of a value into the slot `s_previousIdx` of `slot` (`tvMove`): the
new value is stored without taking a reference, the old value is released. -/
def tvMove {n : Nat} (h : Heap n) (v : PropValue n) (slot : Fin n) : Heap n :=
  let old := h.previous slot
  tvDecRefGen
    { h with previous := fun x => if x = slot then v else h.previous x } old

/-- The lambda `findAcyclicPrev` of `chainFaultObjects`, one loop iteration per
unit of fuel. The state of the lambda is the captured set `seen` and `head`.
The result is `none` when the fuel is used up, and otherwise the set `seen`
as the walk leaves it together with the returned lval: `none` for the null
lval `tv_lval()` (a repeated identity), `some o` for the slot `s_previousIdx`
of object `o`. -/
def findAcyclicPrev {n : Nat} (h : Heap n) :
    Nat → List (Fin n) → Fin n → Option (List (Fin n) × Option (Fin n))
  | 0, _, _ => none
  | fuel + 1, seen, head =>
    if head ∈ seen then some (seen, none)
    else
      match h.previous head with
      | .obj p =>
        if h.throwable p then findAcyclicPrev h fuel (head :: seen) p
        else some (head :: seen, some head)
      | _ => some (head :: seen, some head)

/-- The function `chainFaultObjects(top, prev)`. Both walks share the set
`seen`; each walk is given `n + 1` iterations, one more than there are
objects. The result is `none` only if a walk used up its fuel. -/
def chainFaultObjects {n : Nat} (h : Heap n) (top prev : Fin n) : Option (Heap n) :=
  match findAcyclicPrev h (n + 1) [] top with
  | none => none
  | some (_, none) => some (decRefObj h prev)
  | some (seen, some prevLval) =>
    match findAcyclicPrev h (n + 1) seen prev with
    | none => none
    | some (_, none) => some (decRefObj h prev)
    | some (_, some _) => some (tvMove h (.obj prev) prevLval)

/-- The link the walk follows from `o`: the object in the slot
`s_previousIdx` of `o` when it is a throwable object, `none` otherwise. -/
def nextFault {n : Nat} (h : Heap n) (o : Fin n) : Option (Fin n) :=
  match h.previous o with
  | .obj p => if h.throwable p then some p else none
  | _ => none

/-- The list `l` is the chain of previous links of `o`: it starts at `o`,
follows the links, and ends at an object whose slot holds no throwable
object. -/
inductive IsChain {n : Nat} (h : Heap n) : Fin n → List (Fin n) → Prop where
  | last (o : Fin n) : nextFault h o = none → IsChain h o [o]
  | step (o p : Fin n) (l : List (Fin n)) :
      nextFault h o = some p → IsChain h p l → IsChain h o (o :: l)

/-- The chain of previous links of `o` is acyclic: it ends in a slot that
holds no throwable object. -/
def Acyclic {n : Nat} (h : Heap n) (o : Fin n) : Prop := ∃ l, IsChain h o l

/-- Object `b` is reachable from `a` through previous links. -/
inductive Reach {n : Nat} (h : Heap n) : Fin n → Fin n → Prop where
  | refl (a : Fin n) : Reach h a a
  | step (a p b : Fin n) : nextFault h a = some p → Reach h p b → Reach h a b

/-!
Part II: exception-table lookup

`Func::findEH` and the constant `kInvalidOffset` are declared outside this
file; `findCatchHandler` is the function of this file.
-/

/-- A bytecode offset (`Offset`). -/
abbrev Offset := Int

/-- An entry of the exception table: the protected range
`[m_base, m_past)` and the offset `m_handler` of its handler. -/
structure EHEnt where
  m_base : Offset
  m_past : Offset
  m_handler : Offset
  deriving DecidableEq, Repr

/-- The range of `e` contains the offset `o`. -/
def EHEnt.covers (e : EHEnt) (o : Offset) : Bool :=
  decide (e.m_base ≤ o) && decide (o < e.m_past)

/-- The range of `a` is nested in the range of `b`. -/
def EHEnt.within (a b : EHEnt) : Bool :=
  decide (b.m_base ≤ a.m_base) && decide (a.m_past ≤ b.m_past)

/-- One step of the scan of `findEH`: a containing entry replaces the
candidate when there is none yet or when its range is nested in the range of
the candidate. -/
def findEHStep (o : Offset) (best : Option EHEnt) (e : EHEnt) : Option EHEnt :=
  if e.covers o then
    match best with
    | none => some e
    | some b => if e.within b then some e else some b
  else best

/-- Modelled from the spec: `Func::findEH` is not in this file. The spec has
it select the innermost protected range containing the offset (ranges may
nest; innermost wins), and none when no range contains it. The table is
scanned once; a containing entry replaces the candidate when its range is
nested in the range of the candidate. -/
def findEH (ehtab : List EHEnt) (o : Offset) : Option EHEnt :=
  ehtab.foldl (findEHStep o) none

/-!
Part III: frames, stack and registers

Addresses are counted in cells (`TypedValue`). A frame pointer is the address
of an activation record; a frame that is not resumed lives on the evaluation
stack, which grows towards lower addresses.
-/

/-- An object pointer (`ObjectData*`). -/
abbrev ObjId := Nat

/-- A typed value, as far as the unwinder distinguishes them. -/
inductive TypedValue where
  | uninit : TypedValue
  | null : TypedValue
  | int (i : Int) : TypedValue
  | obj (o : ObjId) : TypedValue
  deriving DecidableEq, Repr

/-- A stack cell: a value and the auxiliary field `m_aux` that carries
`u_asyncEagerReturnFlag`. -/
structure Cell where
  val : TypedValue
  aux : Nat
  deriving DecidableEq, Repr

/-- Modelled from the spec: the closed tag of the function kind. The
predicates `isAsyncFunction`, `isAsyncGenerator` and `isNonAsyncGenerator` of
`Func` are declared outside this file. -/
inductive FuncKind where
  | plain
  | asyncFunction
  | asyncGenerator
  | generator
  deriving DecidableEq, Repr

/-- A unit of bytecode, reduced to the address `entry` of its offset 0. -/
structure Unit where
  entry : Int
  deriving DecidableEq, Repr

/-- The address of the offset `off` (`Unit::at`). -/
def Unit.at (u : Unit) (off : Offset) : Int := u.entry + off

/-- The offset of the address `pc` (`Unit::offsetOf`). -/
def Unit.offsetOf (u : Unit) (pc : Int) : Offset := pc - u.entry

/-- The metadata of a function (`Func`) the unwinder reads. -/
structure Func where
  kind : FuncKind
  isMemoizeImpl : Bool
  numLocals : Nat
  numSlotsInFrame : Nat
  takesInOutParams : Bool
  isInOut : Nat → Bool
  base : Offset
  unit : Unit
  ehtab : List EHEnt

/-- The predicate `Func::isAsyncFunction`. -/
def Func.isAsyncFunction (f : Func) : Bool := f.kind == FuncKind.asyncFunction

/-- The predicate `Func::isAsyncGenerator`. -/
def Func.isAsyncGenerator (f : Func) : Bool := f.kind == FuncKind.asyncGenerator

/-- The predicate `Func::isNonAsyncGenerator`. -/
def Func.isNonAsyncGenerator (f : Func) : Bool := f.kind == FuncKind.generator

/-- The method `Func::findEH` on the exception table of the function. -/
def Func.findEH (f : Func) (o : Offset) : Option EHEnt := HPHP.findEH f.ehtab o

/-- The function `findCatchHandler`. The constant `kInvalidOffset` is
declared outside this file and is a parameter here. -/
def findCatchHandler (kInvalidOffset : Offset) (func : Func) (raiseOffset : Offset) :
    Offset :=
  match func.findEH raiseOffset with
  | none => kInvalidOffset
  | some eh => eh.m_handler

/-- The resumable object a resumed frame is embedded in: the wait handle of
an async function (`frame_afwh`), the async generator
(`frame_async_generator`) or the generator (`frame_generator`). The three
fields after `obj` are the answers of that collaborator to the queries the
unwinder makes: `isRunning` for `waitHandle->isRunning()` and
`gen->getWaitHandle()->isRunning()`, `isEagerlyExecuted` for
`gen->isEagerlyExecuted()`, `failResult` for the value `gen->fail(exception)`
returns. -/
structure Resumable where
  obj : ObjId
  isRunning : Bool
  isEagerlyExecuted : Bool
  failResult : Option ObjId
  deriving DecidableEq, Repr

/-- An activation record (`ActRec`). `sfp` is the caller link, `resumed` is
`isResumed(fp)`, `locals` are the values of the local slots of the frame, and
`resumableStackBase` is `Stack::resumableStackBase(fp)` of a resumed frame. -/
structure ActRec where
  func : Func
  sfp : Option Int
  callOffset : Offset
  numArgs : Nat
  localsDecRefd : Bool
  isAsyncEagerReturn : Bool
  resumed : Bool
  locals : List TypedValue
  resumable : Resumable
  resumableStackBase : Int

/-- The evaluation stack (`Stack`): the address of its top cell and its
memory. -/
structure Stack where
  top : Int
  mem : Int → Cell

/-- Opcodes, by the classes the unwinder distinguishes: the constructor call
`FCallCtor`, the member instructions (`isMemberDimOp`, `isMemberFinalOp`),
and every other opcode. -/
inductive Op where
  | FCallCtor
  | MemberDim
  | MemberFinal
  | Other
  deriving DecidableEq, Repr

/-- The predicate `isMemberDimOp`. -/
def isMemberDimOp (op : Op) : Bool := op == Op.MemberDim

/-- The predicate `isMemberFinalOp`. -/
def isMemberFinalOp (op : Op) : Bool := op == Op.MemberFinal

/-- What the rest of the runtime fixes and this file only reads: the size
`kNumActRecCells` of an activation record in cells, the bytecode (the opcode
at an address for `peek_op` and `decode_op`, the length of the instruction
there for `skipCall`, the flag `lockWhileUnwinding` of the call arguments
decoded there), and the object `c_StaticWaitHandle::CreateFailed` returns for
an exception. -/
structure Env where
  kNumActRecCells : Nat
  op : Int → Op
  instrLen : Int → Nat
  lockWhileUnwinding : Int → Bool
  createFailed : ObjId → ObjId

/-- The calls the unwinder makes to its collaborators and the reference
count operations it performs itself, in the order they happen. -/
inductive Event where
  | tearDownFrame (fp : Int)
  | frame_free_locals_unwind (fp : Int) (numLocals : Nat) (exc : Option ObjId)
  | popTV (addr : Int)
  | CreateFailed (exc wh : ObjId)
  | afwhFail (wh exc : ObjId)
  | afwhFailCpp (wh : ObjId)
  | asyncGenFail (gen exc : ObjId)
  | asyncGenFailCpp (gen : ObjId)
  | generatorFail (gen : ObjId)
  | incRefCount (o : ObjId)
  | decRefCount (o : ObjId)
  | decRefObj (o : ObjId)
  | lockObject (v : TypedValue)
  | debuggerExceptionHandlerHook
  deriving DecidableEq, Repr

/-- The state the unwinder works on: the registers `vmfp()`, `vmpc()` and
`vmStack()`, the activation records, the reference counts of the objects,
whether `RequestInfo::s_requestInfo->m_pendingException` is set, the two
member-instruction registers of `vmMInstrState()`, whether a debugger is
attached, and the log of events (latest last). -/
structure VMState where
  fp : Option Int
  pc : Option Int
  stack : Stack
  frames : Int → ActRec
  refCount : ObjId → Int
  pendingException : Bool
  tvRef : TypedValue
  tvRef2 : TypedValue
  debuggerAttached : Bool
  log : List Event

/-- A fault (`Either<ObjectData*, Exception*>`, never null): a language-level
exception object or a host-level exception. -/
inductive Fault where
  | php (o : ObjId)
  | cpp (e : Nat)
  deriving DecidableEq, Repr

/-- The accessor `Either::left`: null for a host-level exception. -/
def Fault.left : Fault → Option ObjId
  | .php o => some o
  | .cpp _ => none

/-- Modelled from the spec: the flags of `UnwinderResult` are declared outside
this file; they are combinable bit flags. -/
def UnwindNone : Nat := 0

/-- The flag `UnwindReachedGoal`. -/
def UnwindReachedGoal : Nat := 1

/-- The flag `UnwindSkipCall`. -/
def UnwindSkipCall : Nat := 2

/-- The flag `UnwindFSWH`. -/
def UnwindFSWH : Nat := 4

/-- How a call of `unwindVM` ends: it returns a result, it rethrows the
host-level exception (`throwException`), it throws the exception object
(`throw_object`), or its behaviour is undefined (a null pointer is
dereferenced or `not_reached()` is reached). -/
inductive UnwindOutcome where
  | returned (r : Nat)
  | throwException (e : Nat)
  | throw_object (o : ObjId)
  | undefined
  deriving DecidableEq, Repr

/-- Appends an event to the log. -/
def VMState.emit (s : VMState) (e : Event) : VMState :=
  { s with log := s.log ++ [e] }

/-- Adds `d` to the reference count of `o`. -/
def VMState.addRef (s : VMState) (o : ObjId) (d : Int) : VMState :=
  { s with refCount := fun x => if x = o then s.refCount x + d else s.refCount x }

/-- The method `ObjectData::incRefCount`. -/
def VMState.incRefCount (s : VMState) (o : ObjId) : VMState :=
  (s.addRef o 1).emit (.incRefCount o)

/-- The method `ObjectData::decRefCount`. -/
def VMState.decRefCount (s : VMState) (o : ObjId) : VMState :=
  (s.addRef o (-1)).emit (.decRefCount o)

/-- The function `decRefObj` on an object of the VM. What happens when the
count reaches zero belongs to the heap object model. -/
def VMState.decRefObj (s : VMState) (o : ObjId) : VMState :=
  (s.addRef o (-1)).emit (.decRefObj o)

/-- Release of a value (`tvDecRefGen`): an object loses one reference. -/
def VMState.tvDecRefGen (s : VMState) (v : TypedValue) : VMState :=
  match v with
  | .obj o => s.addRef o (-1)
  | _ => s

/-- The method `Stack::popTV`: the top cell is released and discarded. -/
def VMState.popTV (s : VMState) : VMState :=
  let s1 := (s.tvDecRefGen (s.stack.mem s.stack.top).val).emit (.popTV s.stack.top)
  { s1 with stack := { s1.stack with top := s1.stack.top + 1 } }

/-- The method `Stack::ndiscard`: `n` cells are discarded, not released. -/
def VMState.ndiscard (s : VMState) (n : Nat) : VMState :=
  { s with stack := { s.stack with top := s.stack.top + n } }

/-- The method `Stack::discardAR`: the cells of an activation record are
discarded. -/
def VMState.discardAR (env : Env) (s : VMState) : VMState :=
  { s with stack := { s.stack with top := s.stack.top + env.kNumActRecCells } }

/-- The method `Stack::ret`: the cells of an activation record are discarded
but the last one, which holds the return value. -/
def VMState.ret (env : Env) (s : VMState) : VMState :=
  { s with stack := { s.stack with top := s.stack.top + env.kNumActRecCells - 1 } }

/-- The method `Stack::pushObjectNoRc`: the object is pushed without taking a
reference. -/
def VMState.pushObjectNoRc (s : VMState) (o : ObjId) : VMState :=
  { s with stack :=
      { top := s.stack.top - 1,
        mem := fun a =>
          if a = s.stack.top - 1 then { val := .obj o, aux := (s.stack.mem a).aux }
          else s.stack.mem a } }

/-- The address of the return slot of a frame (`ActRec::retSlot`): the last
cell of the activation record. -/
def retSlot (env : Env) (fp : Int) : Int := fp + env.kNumActRecCells - 1

/-- Modelled from the spec: the declared base of the evaluation stack of a
frame, where `visitStackElems` (not in this file) stops. Below the slots of
the frame when the frame is on the stack, `Stack::resumableStackBase` when it
is resumed. -/
def VMState.frameStackBase (s : VMState) (fp : Int) : Int :=
  if (s.frames fp).resumed then (s.frames fp).resumableStackBase
  else fp - (s.frames fp).func.numSlotsInFrame

/-- Pops `k` cells, top first. -/
def VMState.popTVs : Nat → VMState → VMState
  | 0, s => s
  | k + 1, s => VMState.popTVs k s.popTV

/-- The function `discardStackTemps`: every cell above the base of the frame
is popped and released, top first, until the top of the stack is the base. -/
def discardStackTemps (s : VMState) (fp : Int) : VMState :=
  VMState.popTVs (s.frameStackBase fp - s.stack.top).toNat s

/-- The function `discardMemberTVRefs`. -/
def discardMemberTVRefs (env : Env) (s : VMState) (pc : Int) : VMState :=
  let throwOp := env.op pc
  if isMemberDimOp throwOp || isMemberFinalOp throwOp then
    let s1 := { s.tvDecRefGen s.tvRef with tvRef := TypedValue.uninit }
    { s1.tvDecRefGen s1.tvRef2 with tvRef2 := TypedValue.uninit }
  else s

/-- Releases a list of values, first to last. -/
def VMState.releaseAll : List TypedValue → VMState → VMState
  | [], s => s
  | v :: vs, s => VMState.releaseAll vs (s.tvDecRefGen v)

/-- Modelled from the spec: `frame_free_locals_unwind` is not in this file.
It releases the locals of the frame; the call is logged. Faults raised by a
destructor are swallowed at the call site, so nothing is thrown here; what a
destructor does beyond that is not modelled. -/
def frame_free_locals_unwind (s : VMState) (fp : Int) (numLocals : Nat)
    (phpException : Option ObjId) : VMState :=
  VMState.releaseAll ((s.frames fp).locals.take numLocals)
    (s.emit (.frame_free_locals_unwind fp numLocals phpException))

/-- The method `ActRec::setLocalsDecRefd` on the frame at `fp`. -/
def VMState.setLocalsDecRefd (s : VMState) (fp : Int) : VMState :=
  { s with frames := fun a =>
      if a = fp then { s.frames a with localsDecRefd := true } else s.frames a }

/-- The lambda `decRefLocals` of `tearDownFrame`. -/
def decRefLocals (s : VMState) (fp : Int) (phpException : Option ObjId) : VMState :=
  if !(s.frames fp).localsDecRefd then
    frame_free_locals_unwind (s.setLocalsDecRefd fp) fp (s.frames fp).func.numLocals
      phpException
  else s

/-- The events a call of `decRefLocals` adds to the log: the release of the
locals when the flag `localsDecRefd` of the frame is clear, nothing when it
is set. -/
def releaseEvents (s : VMState) (fp : Int) (phpException : Option ObjId) : List Event :=
  if (s.frames fp).localsDecRefd then []
  else [.frame_free_locals_unwind fp (s.frames fp).func.numLocals phpException]

/-- The number of calls of `frame_free_locals_unwind` for the frame at `fp`
in a log. -/
def releaseCount (fp : Int) (log : List Event) : Nat :=
  log.countP fun e =>
    match e with
    | .frame_free_locals_unwind f _ _ => f == fp
    | _ => false

/-- Whether `tearDownFrame` reaches a call of `decRefLocals` for a frame and
an exception: always for a frame on the stack and for a generator, for a
resumed async function when an exception object is present or its wait handle
is running, for a resumed async generator when an exception object is present
or it is eagerly executed or its wait handle is running. -/
def callsDecRefLocals (ar : ActRec) (phpException : Option ObjId) : Bool :=
  if !ar.resumed then true
  else if ar.func.isAsyncFunction then phpException.isSome || ar.resumable.isRunning
  else if ar.func.isAsyncGenerator then
    phpException.isSome || ar.resumable.isEagerlyExecuted || ar.resumable.isRunning
  else ar.func.isNonAsyncGenerator

/-- The lambda `numInOut` of `tearDownFrame`: the number of parameters
`p < numArgs` declared inout, 0 when the function takes no inout
parameters. -/
def numInOut (func : Func) (numArgs : Nat) : Nat :=
  if !func.takesInOutParams then 0
  else ((List.range numArgs).filter func.isInOut).length

/-- Writes the object `o` into the return slot of the frame at `fp` (`tvCopy`)
and clears `u_asyncEagerReturnFlag` there. -/
def VMState.writeRetSlot (env : Env) (s : VMState) (fp : Int) (o : ObjId) : VMState :=
  { s with stack :=
      { s.stack with mem := fun a =>
          if a = retSlot env fp then { val := .obj o, aux := 0 } else s.stack.mem a } }

/-- The part of `tearDownFrame` that depends on the kind of the frame, up to
the test of `prevFp`. `none` stands for `not_reached()`. -/
def tearDownKind (env : Env) (s : VMState) (fp : Int) (phpException : Option ObjId) :
    Option (VMState × Option ObjId) :=
  let func := (s.frames fp).func
  if !(s.frames fp).resumed then
    let s1 := decRefLocals s fp phpException
    match phpException with
    | some exc =>
      if func.isAsyncFunction &&
          (!(s1.frames fp).isAsyncEagerReturn || func.isMemoizeImpl) then
        let waitHandle := env.createFailed exc
        let s2 := s1.emit (.CreateFailed exc waitHandle)
        let s3 := VMState.ret env (s2.ndiscard func.numSlotsInFrame)
        some (VMState.writeRetSlot env s3 fp waitHandle, none)
      else
        let n := numInOut func (s1.frames fp).numArgs
        some ((VMState.discardAR env (s1.ndiscard func.numSlotsInFrame)).ndiscard n,
          phpException)
    | none =>
      let n := numInOut func (s1.frames fp).numArgs
      some ((VMState.discardAR env (s1.ndiscard func.numSlotsInFrame)).ndiscard n,
        phpException)
  else if func.isAsyncFunction then
    let waitHandle := (s.frames fp).resumable
    match phpException with
    | some exc =>
      let s1 := decRefLocals s fp phpException
      let s2 := s1.emit (.afwhFail waitHandle.obj exc)
      some (s2.decRefObj waitHandle.obj, none)
    | none =>
      if waitHandle.isRunning then
        let s1 := decRefLocals s fp phpException
        let s2 := s1.emit (.afwhFailCpp waitHandle.obj)
        some (s2.decRefObj waitHandle.obj, phpException)
      else some (s, phpException)
  else if func.isAsyncGenerator then
    let gen := (s.frames fp).resumable
    match phpException with
    | some exc =>
      let s1 := decRefLocals s fp phpException
      let s2 := s1.emit (.asyncGenFail gen.obj exc)
      match gen.failResult with
      | some eagerResult => some (s2.pushObjectNoRc eagerResult, none)
      | none => some (s2, none)
    | none =>
      if gen.isEagerlyExecuted || gen.isRunning then
        let s1 := decRefLocals s fp phpException
        some (s1.emit (.asyncGenFailCpp gen.obj), phpException)
      else some (s, phpException)
  else if func.isNonAsyncGenerator then
    let s1 := decRefLocals s fp phpException
    some (s1.emit (.generatorFail (s.frames fp).resumable.obj), phpException)
  else none

/-- The function `tearDownFrame(fp, stack, pc, phpException)` on the
registers of the state. The result is the state with the registers updated
and the exception to propagate (null when execution resumes); `none` stands
for undefined behaviour (`fp` is null, or `not_reached()`). -/
def tearDownFrame (env : Env) (s : VMState) (phpException : Option ObjId) :
    Option (VMState × Option ObjId) :=
  match s.fp with
  | none => none
  | some fp =>
    let prevFp := (s.frames fp).sfp
    let callOff := (s.frames fp).callOffset
    match tearDownKind env (s.emit (.tearDownFrame fp)) fp phpException with
    | none => none
    | some (s1, phpException1) =>
      match prevFp with
      | none => some ({ s1 with pc := none, fp := none }, phpException1)
      | some prev =>
        let prevFunc := (s1.frames prev).func
        some ({ s1 with pc := some (prevFunc.unit.at (callOff + prevFunc.base)),
                        fp := some prev }, phpException1)

/-- The function `skipCall`: the address after the call instruction at
`pc`. -/
def skipCall (env : Env) (pc : Int) : Int := pc + env.instrLen pc

/-- The function `lockObjectWhileUnwinding`: after a constructor call made
from a new expression, `lockObject` is called on the value at the top of the
stack (an object, by the assertion of the code). -/
def lockObjectWhileUnwinding (env : Env) (s : VMState) (pc : Int) : VMState :=
  if env.op pc != Op.FCallCtor then s
  else if !env.lockWhileUnwinding pc then s
  else s.emit (.lockObject (s.stack.mem s.stack.top).val)

/-- The end of `unwindVM`, after the loop is left with `break`. -/
def unwindFinish (s : VMState) (exception : Fault) (phpException : Option ObjId) :
    VMState × UnwindOutcome :=
  match s.fp with
  | some _ =>
    match phpException with
    | some o => (s.decRefCount o, .returned UnwindReachedGoal)
    | none => (s, .undefined)
  | none =>
    match exception with
    | .cpp e => (s, .throwException e)
    | .php _ =>
      match phpException with
      | some o => (s, .throw_object o)
      | none => (s, .undefined)

/-- The loop `while (true)` of `unwindVM`, one iteration per unit of fuel.
The result is `none` when the fuel is used up. -/
def unwindLoop (env : Env) (exception : Fault) (fpToUnwind : Option Int) :
    Nat → VMState → Option ObjId → Option (VMState × UnwindOutcome)
  | 0, _, _ => none
  | fuel + 1, s, phpException =>
    match s.fp, s.pc with
    | none, _ => some (s, .undefined)
    | some _, none => some (s, .undefined)
    | some fp, some pc =>
      let func := (s.frames fp).func
      let s1 := discardStackTemps s fp
      let eh :=
        if !s1.pendingException && phpException.isSome &&
            !(s1.frames fp).localsDecRefd then
          func.findEH (func.unit.offsetOf pc)
        else none
      match eh, phpException with
      | some eh, some exc =>
        let s2 := s1.pushObjectNoRc exc
        let s3 := { s2 with pc := some (func.unit.at eh.m_handler) }
        let s4 := if s3.debuggerAttached then s3.emit .debuggerExceptionHandlerHook else s3
        some (s4, .returned UnwindNone)
      | _, _ =>
        match tearDownFrame env s1 phpException with
        | none => some (s1, .undefined)
        | some (s2, phpException2) =>
          if exception.left ≠ phpException2 then
            match s2.fp with
            | some _ =>
              let s3 :=
                if fpToUnwind.isNone then { s2 with pc := s2.pc.map (skipCall env) }
                else s2
              some (s3, .returned (UnwindSkipCall ||| UnwindFSWH))
            | none => some (s2, .returned (UnwindNone ||| UnwindFSWH))
          else if s2.fp.isNone || (fpToUnwind.isSome && s2.fp == fpToUnwind) then
            some (unwindFinish s2 exception phpException2)
          else
            match s2.pc with
            | none => some (s2, .undefined)
            | some pc2 =>
              unwindLoop env exception fpToUnwind fuel
                (lockObjectWhileUnwinding env s2 pc2) phpException2

/-- The function `unwindVM(exception, fpToUnwind)` on the state, with `fuel`
iterations of its loop. -/
def unwindVM (env : Env) (fuel : Nat) (s : VMState) (exception : Fault)
    (fpToUnwind : Option Int) : Option (VMState × UnwindOutcome) :=
  let phpException := exception.left
  let s1 :=
    match phpException with
    | some o => s.incRefCount o
    | none => s
  match s1.pc with
  | none => some (s1, .undefined)
  | some pc => unwindLoop env exception fpToUnwind fuel (discardMemberTVRefs env s1 pc) phpException

/-!
Part III-b: notions used to state the properties of the driver
-/

/-- The frames torn down according to a log, in order: the calls of
`tearDownFrame`. -/
def tornDown (log : List Event) : List Int :=
  log.filterMap fun e =>
    match e with
    | .tearDownFrame f => some f
    | _ => none

/-- The reference count operations of the unwinder itself on the object `o`
in a log: `incRefCount`, `decRefCount` and `decRefObj` on `o`. -/
def refOps (o : ObjId) (log : List Event) : List Event :=
  log.filter fun e =>
    e == .incRefCount o || e == .decRefCount o || e == .decRefObj o

/-- No stack cell, no local of a frame and no member-instruction register
holds the object `o`. -/
def HoldsNo (s : VMState) (o : ObjId) : Prop :=
  (∀ a, (s.stack.mem a).val ≠ .obj o) ∧
  (∀ f, TypedValue.obj o ∉ (s.frames f).locals) ∧
  s.tvRef ≠ .obj o ∧ s.tvRef2 ≠ .obj o

/-- The teardown of the frame passes an exception object on to the caller: a
frame on the stack that does not take the eager async path, or a resumed
frame of a generator that is not async. -/
def passesFault (ar : ActRec) : Bool :=
  if !ar.resumed then
    !(ar.func.isAsyncFunction && (!ar.isAsyncEagerReturn || ar.func.isMemoizeImpl))
  else ar.func.isNonAsyncGenerator

/-- The driver enters no handler of the frame at `f` when the program counter
is `pc`: an exception is pending for the request, the locals of the frame are
released, or the exception table has no entry for the offset of `pc`. -/
def noHandlerAt (s : VMState) (f : Int) (pc : Int) : Bool :=
  s.pendingException || (s.frames f).localsDecRefd ||
    ((s.frames f).func.findEH ((s.frames f).func.unit.offsetOf pc)).isNone

/-- The program counter in the caller `g` after the frame at `f` is torn
down. -/
def callerPc (s : VMState) (f g : Int) : Int :=
  (s.frames g).func.unit.at ((s.frames f).callOffset + (s.frames g).func.base)

/-- The frames `fs`, from the current frame up, are linked by their caller
links and end at `target` (a frame, or null): each frame but the last has the
next one as caller, which is not `target`, and the caller of the last is
`target`. -/
def linked (s : VMState) (target : Option Int) : List Int → Bool
  | [] => false
  | [f] => (s.frames f).sfp == target
  | f :: g :: rest =>
    (s.frames f).sfp == some g && some g != target && linked s target (g :: rest)

/-- The fault propagates through the frames `fs` up to `target`, starting
with the program counter `pc` in the first of them: the frames are linked up
to `target`, and each of them has no handler to enter at the program counter
the unwinder reaches it with and passes the fault on. -/
def propagates (s : VMState) (target : Option Int) : List Int → Int → Bool
  | [], _ => false
  | [f], pc =>
    noHandlerAt s f pc && passesFault (s.frames f) && ((s.frames f).sfp == target)
  | f :: g :: rest, pc =>
    noHandlerAt s f pc && passesFault (s.frames f) && ((s.frames f).sfp == some g) &&
      (some g != target) && propagates s target (g :: rest) (callerPc s f g)

/-- The state `t` is the state `s` up to registers, stack top, reference
counts, log, flags `localsDecRefd` that are set in `t` and not in `s`, and
member-instruction registers that are reset in `t`. -/
def Extends (s t : VMState) : Prop :=
  t.pendingException = s.pendingException ∧ t.stack.mem = s.stack.mem ∧
  (t.tvRef = s.tvRef ∨ t.tvRef = .uninit) ∧ (t.tvRef2 = s.tvRef2 ∨ t.tvRef2 = .uninit) ∧
  ∀ a, t.frames a = s.frames a ∨ t.frames a = { s.frames a with localsDecRefd := true }

/-!
Part IV: concrete heaps, tables and states
-/

/-- Three faults `A = 0`, `B = 1`, `C = 2` with `A -> B` and `C -> A`: the
previous fault of `A` is `B`, the previous fault of `C` is `A`, and `B` has
none. Every object is referenced twice. -/
def heapABC : Heap 3 where
  previous := fun o => if o = 0 then .obj 1 else if o = 2 then .obj 0 else .null
  throwable := fun _ => true
  refCount := fun _ => 2

/-- Three faults `A = 0`, `B = 1`, `C = 2` with `A -> B` and `C` on its
own. -/
def heapAB_C : Heap 3 where
  previous := fun o => if o = 0 then .obj 1 else .null
  throwable := fun _ => true
  refCount := fun _ => 2

/-- A function whose exception table is `ehtab`; nothing else of it matters
to the lookup. -/
def funcWithTable (ehtab : List EHEnt) : Func where
  kind := FuncKind.plain
  isMemoizeImpl := false
  numLocals := 0
  numSlotsInFrame := 0
  takesInOutParams := false
  isInOut := fun _ => false
  base := 0
  unit := { entry := 0 }
  ehtab := ehtab

/-- A function of the given kind with no slots, no inout parameters and an
empty exception table, in a unit at address 1000. -/
def funcOfKind (kind : FuncKind) : Func where
  kind := kind
  isMemoizeImpl := false
  numLocals := 0
  numSlotsInFrame := 0
  takesInOutParams := false
  isInOut := fun _ => false
  base := 0
  unit := { entry := 1000 }
  ehtab := []

/-- A frame of `func` that is on the stack, with caller link `sfp`, called
at offset 5, no locals, nothing released yet. -/
def frameOf (func : Func) (sfp : Option Int) : ActRec where
  func := func
  sfp := sfp
  callOffset := 5
  numArgs := 0
  localsDecRefd := false
  isAsyncEagerReturn := false
  resumed := false
  locals := []
  resumable := { obj := 9, isRunning := false, isEagerlyExecuted := false, failResult := none }
  resumableStackBase := 40

/-- An environment: activation records of two cells, no member instruction
and no constructor call in the bytecode, instructions of length 1, and the
failed wait handle of exception `e` at `e + 100`. -/
def exEnv : Env where
  kNumActRecCells := 2
  op := fun _ => Op.Other
  instrLen := fun _ => 1
  lockWhileUnwinding := fun _ => false
  createFailed := fun e => e + 100

/-- A state whose current frame is at address 50 with the stack top at `top`:
the frame at 50 is `ar`, every other address holds a plain frame without
caller. The stack holds integers, every object is referenced once. -/
def stateAt (ar : ActRec) (top : Int) : VMState where
  fp := some 50
  pc := some 1003
  stack := { top := top, mem := fun _ => { val := .int 0, aux := 1 } }
  frames := fun a => if a = 50 then ar else frameOf (funcOfKind .plain) none
  refCount := fun _ => 1
  pendingException := false
  tvRef := .uninit
  tvRef2 := .uninit
  debuggerAttached := false
  log := []

/-- An eagerly executed async function called without a request for eager
return, its frame at 50 with the caller at 60. -/
def stateEagerAsync : VMState :=
  stateAt (frameOf (funcOfKind .asyncFunction) (some 60)) 50

/-- The same frame called with a request for eager return. -/
def stateEagerAsyncReturn : VMState :=
  stateAt { frameOf (funcOfKind .asyncFunction) (some 60) with isAsyncEagerReturn := true } 50

/-- A resumed async function, its frame at 50 resumed from the frame at 60,
its locals not yet released. -/
def stateResumedAsync : VMState :=
  stateAt { frameOf (funcOfKind .asyncFunction) (some 60) with resumed := true } 40

/-- The same resumed async function with its locals already released
(`localsDecRefd` set). -/
def stateResumedAsyncReleased : VMState :=
  stateAt { frameOf (funcOfKind .asyncFunction) (some 60) with
    resumed := true, localsDecRefd := true } 40

/-- A resumed generator, its frame at 50 resumed from the frame at 60. -/
def stateResumedGenerator : VMState :=
  stateAt { frameOf (funcOfKind .generator) (some 60) with resumed := true } 40

/-- Three plain frames on the stack: the current frame at 50 was called from
the frame at 60, which was called from the frame at 70, the outermost frame
of the nesting level. The stack top is at the base of the current frame, the
stack holds integers, and every object is referenced once. -/
def stateThreeFrames : VMState where
  fp := some 50
  pc := some 1003
  stack := { top := 50, mem := fun _ => { val := .int 0, aux := 1 } }
  frames := fun a =>
    if a = 50 then frameOf (funcOfKind .plain) (some 60)
    else if a = 60 then frameOf (funcOfKind .plain) (some 70)
    else frameOf (funcOfKind .plain) none
  refCount := fun _ => 1
  pendingException := false
  tvRef := .uninit
  tvRef2 := .uninit
  debuggerAttached := false
  log := []

/-- The state `stateThreeFrames` with one temporary on the stack of the
current frame, which holds the object 7; the object 7 is referenced twice,
by that temporary and by whoever throws it. -/
def stateTempHoldsFault : VMState :=
  { stateThreeFrames with
    stack := { top := 49, mem := fun a =>
      if a = 49 then { val := .obj 7, aux := 1 } else { val := .int 0, aux := 1 } }
    refCount := fun _ => 2 }

/-- The chain builder as the spec words it, to be compared with
`chainFaultObjects`: the walk from `prev` is performed independently of the
walk from `top`, with a set of visited objects of its own. -/
def chainFaultObjectsIndependent {n : Nat} (h : Heap n) (top prev : Fin n) :
    Option (Heap n) :=
  match findAcyclicPrev h (n + 1) [] top with
  | none => none
  | some (_, none) => some (decRefObj h prev)
  | some (_, some prevLval) =>
    match findAcyclicPrev h (n + 1) [] prev with
    | none => none
    | some (_, none) => some (decRefObj h prev)
    | some (_, some _) => some (tvMove h (.obj prev) prevLval)

/-- The number of throwable objects of a heap. -/
def throwableCount {n : Nat} (h : Heap n) : Nat :=
  ((List.finRange n).filter h.throwable).length

/-- Three faults and one object that is not a fault: `0` is its own previous
fault, `1` and `2` are the previous faults of each other, and the object `3`
is not throwable. -/
def heapCycles : Heap 4 where
  previous := fun o =>
    if o = 0 then .obj 0 else if o = 1 then .obj 2 else if o = 2 then .obj 1 else .null
  throwable := fun o => decide (o ≠ 3)
  refCount := fun _ => 1

/-- A frame on the stack of a plain function with two slots that was called
with three arguments, the parameters 0 and 2 (and 5) being inout. -/
def stateInOut : VMState :=
  stateAt
    { frameOf { funcOfKind .plain with
        numSlotsInFrame := 2, takesInOutParams := true,
        isInOut := fun p => decide (p = 0 ∨ p = 2 ∨ p = 5) } (some 60) with
      numArgs := 3 } 48

/-- The teardown of the frame absorbs an exception object (it returns null):
a frame on the stack that takes the eager async path, or a resumed frame of
an async function or of an async generator. -/
def absorbsFault (ar : ActRec) : Bool :=
  if !ar.resumed then
    ar.func.isAsyncFunction && (!ar.isAsyncEagerReturn || ar.func.isMemoizeImpl)
  else ar.func.isAsyncFunction || ar.func.isAsyncGenerator

/-- The frames of `t` are the frames of `s` up to flags `localsDecRefd` that
are set in `t`. -/
def SameFrames (s t : VMState) : Prop :=
  ∀ a, t.frames a = s.frames a ∨ t.frames a = { s.frames a with localsDecRefd := true }

/-- The handler the loop of `unwindVM` finds for the frame at `f` when the
program counter is `pc` and the exception object is `phpException`: the
entry `Func::findEH` returns for the offset of `pc`, looked up only when no
exception is pending for the request, an exception object is present and the
locals of the frame are not released. -/
def handlerAt (s : VMState) (f pc : Int) (phpException : Option ObjId) : Option EHEnt :=
  if !s.pendingException && phpException.isSome && !(s.frames f).localsDecRefd then
    (s.frames f).func.findEH ((s.frames f).func.unit.offsetOf pc)
  else none

/-- The state in which the loop of `unwindVM` returns when it enters the
handler `eh` of the frame at `f`: the stack temporaries of the frame are
discarded, the exception object is pushed, the program counter is the
handler, and the debugger hook is called when a debugger is attached. -/
def enterHandler (s : VMState) (f : Int) (exc : ObjId) (eh : EHEnt) : VMState :=
  let s2 := (discardStackTemps s f).pushObjectNoRc exc
  let s3 := { s2 with pc := some ((s.frames f).func.unit.at eh.m_handler) }
  if s3.debuggerAttached then s3.emit .debuggerExceptionHandlerHook else s3

/-- What the loop of `unwindVM` does after `tearDownFrame` returned the state
`s2` and the fault `e2`, with `fuel` iterations left: it returns the absorbed
signal, leaves the loop, or goes on in the caller. -/
def afterTearDown (env : Env) (exception : Fault) (fpToUnwind : Option Int) (fuel : Nat)
    (s2 : VMState) (e2 : Option ObjId) : Option (VMState × UnwindOutcome) :=
  if exception.left ≠ e2 then
    match s2.fp with
    | some _ =>
      some ((if fpToUnwind.isNone then { s2 with pc := s2.pc.map (skipCall env) } else s2),
        .returned (UnwindSkipCall ||| UnwindFSWH))
    | none => some (s2, .returned (UnwindNone ||| UnwindFSWH))
  else if s2.fp.isNone || (fpToUnwind.isSome && s2.fp == fpToUnwind) then
    some (unwindFinish s2 exception e2)
  else
    match s2.pc with
    | none => some (s2, .undefined)
    | some pc2 =>
      unwindLoop env exception fpToUnwind fuel (lockObjectWhileUnwinding env s2 pc2) e2


/-- A plain frame at 50 whose function protects the offsets `[0, 10)` with
the handler at offset 20; the program counter 1003 is the offset 3, and two
temporaries are on the stack of the frame. -/
def stateWithHandler : VMState :=
  stateAt (frameOf { funcOfKind .plain with ehtab := [⟨0, 10, 20⟩] } (some 60)) 48


/-- The state `s` with the flag `localsDecRefd` of the frame at `fp` clear:
the state to compare a teardown with when the flag is set on entry. -/
def VMState.clearLocalsDecRefd (s : VMState) (fp : Int) : VMState :=
  { s with frames := fun a =>
      if a = fp then { s.frames a with localsDecRefd := false } else s.frames a }

/-- The events of a log other than the releases of locals
(`frame_free_locals_unwind`). -/
def otherEvents (log : List Event) : List Event :=
  log.filter fun e =>
    match e with
    | .frame_free_locals_unwind _ _ _ => false
    | _ => true

/-- What a teardown leaves behind, the release of locals apart: the fault
returned, the registers, the stack, the flag of the request, the events other
than releases of locals, and the function of every frame. -/
def teardownResult (q : VMState × Option ObjId) :
    Option ObjId × Option Int × Option Int × Stack × Bool × List Event × (Int → Func) :=
  (q.2, q.1.fp, q.1.pc, q.1.stack, q.1.pendingException, otherEvents q.1.log,
    fun a => (q.1.frames a).func)


/-- The frame of `stateInOut` with its locals already released
(`localsDecRefd` set). -/
def stateInOutReleased : VMState :=
  stateAt { stateInOut.frames 50 with localsDecRefd := true } 48


/-- Modelled from the spec: `frame_free_locals_unwind` with the destructors
it runs. Releasing the locals can run destructors, which are code of the
request; `dtor` is what they do to the state, once the release has started.
With `dtor` the identity this is `frame_free_locals_unwind`. -/
def frame_free_locals_unwind_dtor (dtor : VMState → VMState) (s : VMState) (fp : Int)
    (numLocals : Nat) (phpException : Option ObjId) : VMState :=
  VMState.releaseAll ((s.frames fp).locals.take numLocals)
    (dtor (s.emit (.frame_free_locals_unwind fp numLocals phpException)))

/-- The lambda `decRefLocals` of `tearDownFrame`, the destructors run by the
release of the locals being `dtor`: the flag is tested, then set, then the
locals are released. -/
def decRefLocalsDtor (dtor : VMState → VMState) (s : VMState) (fp : Int)
    (phpException : Option ObjId) : VMState :=
  if !(s.frames fp).localsDecRefd then
    frame_free_locals_unwind_dtor dtor (s.setLocalsDecRefd fp) fp (s.frames fp).func.numLocals
      phpException
  else s

/-- The kind-specific part of `tearDownFrame` (`tearDownKind`), the
destructors run by the release of the locals being `dtor`. -/
def tearDownKindDtor (dtor : VMState → VMState) (env : Env) (s : VMState) (fp : Int)
    (phpException : Option ObjId) : Option (VMState × Option ObjId) :=
  let func := (s.frames fp).func
  if !(s.frames fp).resumed then
    let s1 := decRefLocalsDtor dtor s fp phpException
    match phpException with
    | some exc =>
      if func.isAsyncFunction &&
          (!(s1.frames fp).isAsyncEagerReturn || func.isMemoizeImpl) then
        let waitHandle := env.createFailed exc
        let s2 := s1.emit (.CreateFailed exc waitHandle)
        let s3 := VMState.ret env (s2.ndiscard func.numSlotsInFrame)
        some (VMState.writeRetSlot env s3 fp waitHandle, none)
      else
        let n := numInOut func (s1.frames fp).numArgs
        some ((VMState.discardAR env (s1.ndiscard func.numSlotsInFrame)).ndiscard n,
          phpException)
    | none =>
      let n := numInOut func (s1.frames fp).numArgs
      some ((VMState.discardAR env (s1.ndiscard func.numSlotsInFrame)).ndiscard n,
        phpException)
  else if func.isAsyncFunction then
    let waitHandle := (s.frames fp).resumable
    match phpException with
    | some exc =>
      let s1 := decRefLocalsDtor dtor s fp phpException
      let s2 := s1.emit (.afwhFail waitHandle.obj exc)
      some (s2.decRefObj waitHandle.obj, none)
    | none =>
      if waitHandle.isRunning then
        let s1 := decRefLocalsDtor dtor s fp phpException
        let s2 := s1.emit (.afwhFailCpp waitHandle.obj)
        some (s2.decRefObj waitHandle.obj, phpException)
      else some (s, phpException)
  else if func.isAsyncGenerator then
    let gen := (s.frames fp).resumable
    match phpException with
    | some exc =>
      let s1 := decRefLocalsDtor dtor s fp phpException
      let s2 := s1.emit (.asyncGenFail gen.obj exc)
      match gen.failResult with
      | some eagerResult => some (s2.pushObjectNoRc eagerResult, none)
      | none => some (s2, none)
    | none =>
      if gen.isEagerlyExecuted || gen.isRunning then
        let s1 := decRefLocalsDtor dtor s fp phpException
        some (s1.emit (.asyncGenFailCpp gen.obj), phpException)
      else some (s, phpException)
  else if func.isNonAsyncGenerator then
    let s1 := decRefLocalsDtor dtor s fp phpException
    some (s1.emit (.generatorFail (s.frames fp).resumable.obj), phpException)
  else none

/-- The function `tearDownFrame`, the destructors run by the release of the
locals being `dtor`. -/
def tearDownFrameDtor (dtor : VMState → VMState) (env : Env) (s : VMState)
    (phpException : Option ObjId) : Option (VMState × Option ObjId) :=
  match s.fp with
  | none => none
  | some fp =>
    let prevFp := (s.frames fp).sfp
    let callOff := (s.frames fp).callOffset
    match tearDownKindDtor dtor env (s.emit (.tearDownFrame fp)) fp phpException with
    | none => none
    | some (s1, phpException1) =>
      match prevFp with
      | none => some ({ s1 with pc := none, fp := none }, phpException1)
      | some prev =>
        let prevFunc := (s1.frames prev).func
        some ({ s1 with pc := some (prevFunc.unit.at (callOff + prevFunc.base)),
                        fp := some prev }, phpException1)

/-- A re-entrant teardown during cleanup: a destructor that tears down the
frame at `fp` again, with the fault `phpException`, while its locals are
being released; the destructors of that teardown are `dtor`. Whatever the
destructor throws is swallowed at the call site (`catch (...)`), so only its
effect on the state remains. -/
def reenterTearDown (dtor : VMState → VMState) (env : Env) (fp : Int)
    (phpException : Option ObjId) (s : VMState) : VMState :=
  match tearDownFrameDtor dtor env { s with fp := some fp } phpException with
  | some (s2, _) => s2
  | none => s

/-!
Properties of the fault chain builder
-/

theorem IsChain.eq_cons {n : Nat} {h : Heap n} {o : Fin n} {l : List (Fin n)}
    (hc : IsChain h o l) : ∃ t, l = o :: t := by
  cases hc with
  | last _ _ => exact ⟨[], rfl⟩
  | step _ p t _ _ => exact ⟨t, rfl⟩

theorem IsChain.head_mem {n : Nat} {h : Heap n} {o : Fin n} {l : List (Fin n)}
    (hc : IsChain h o l) : o ∈ l := by
  obtain ⟨t, rfl⟩ := hc.eq_cons
  exact List.mem_cons_self _ _

theorem IsChain.unique {n : Nat} {h : Heap n} {o : Fin n} {l₁ l₂ : List (Fin n)}
    (h₁ : IsChain h o l₁) (h₂ : IsChain h o l₂) : l₁ = l₂ := by
  induction h₁ generalizing l₂ with
  | last o hn =>
    cases h₂ with
    | last _ _ => rfl
    | step _ p t hs _ => rw [hn] at hs; cases hs
  | step o p t hs _ ih =>
    cases h₂ with
    | last _ hn => rw [hn] at hs; cases hs
    | step _ q u hq hu =>
      rw [hs] at hq
      cases hq
      rw [ih hu]

theorem IsChain.suffix {n : Nat} {h : Heap n} {o x : Fin n} {l : List (Fin n)}
    (hc : IsChain h o l) (hx : x ∈ l) :
    ∃ l₂, IsChain h x l₂ ∧ l₂.length ≤ l.length ∧ ∀ y ∈ l₂, y ∈ l := by
  induction hc with
  | last o hn =>
    have hxo : x = o := by simpa using hx
    subst hxo
    exact ⟨[x], IsChain.last x hn, le_refl _, fun y hy => hy⟩
  | step o p t hs ht ih =>
    rcases List.mem_cons.mp hx with hxo | hxt
    · subst hxo
      exact ⟨x :: t, IsChain.step x p t hs ht, le_refl _, fun y hy => hy⟩
    · obtain ⟨l₂, hl₂, hlen, hsub⟩ := ih hxt
      refine ⟨l₂, hl₂, ?_, fun y hy => List.mem_cons_of_mem _ (hsub y hy)⟩
      simp only [List.length_cons]
      omega

theorem IsChain.not_mem_tail {n : Nat} {h : Heap n} {o : Fin n} {t : List (Fin n)}
    (hc : IsChain h o (o :: t)) : o ∉ t := by
  intro hmem
  cases hc with
  | last _ _ => simp at hmem
  | step _ p _ hs ht =>
    obtain ⟨l₂, hl₂, hlen, _⟩ := ht.suffix hmem
    have heq := IsChain.unique hl₂ (IsChain.step o p t hs ht)
    rw [heq] at hlen
    simp only [List.length_cons] at hlen
    omega

theorem IsChain.nodup {n : Nat} {h : Heap n} {o : Fin n} {l : List (Fin n)}
    (hc : IsChain h o l) : l.Nodup := by
  induction hc with
  | last o _ => simp
  | step o p t hs ht ih =>
    exact List.nodup_cons.mpr ⟨(IsChain.step o p t hs ht).not_mem_tail, ih⟩

theorem IsChain.getLast_next {n : Nat} {h : Heap n} {o last : Fin n} {l : List (Fin n)}
    (hc : IsChain h o l) (hl : l.getLast? = some last) : nextFault h last = none := by
  induction hc with
  | last o hn =>
    simp at hl
    subst hl
    exact hn
  | step o p t _ ht ih =>
    obtain ⟨u, rfl⟩ := ht.eq_cons
    rw [List.getLast?_cons_cons] at hl
    exact ih hl

theorem IsChain.getLast_mem {n : Nat} {h : Heap n} {o last : Fin n} {l : List (Fin n)}
    (_hc : IsChain h o l) (hl : l.getLast? = some last) : last ∈ l :=
  List.mem_of_getLast?_eq_some hl

theorem Reach.mem_chain {n : Nat} {h : Heap n} {a b : Fin n} {l : List (Fin n)}
    (hr : Reach h a b) (hc : IsChain h a l) : b ∈ l := by
  induction hr generalizing l with
  | refl a => exact hc.head_mem
  | step a p b hs _ ih =>
    cases hc with
    | last _ hn => rw [hn] at hs; cases hs
    | step _ q t hq ht =>
      rw [hs] at hq
      cases hq
      exact List.mem_cons_of_mem _ (ih ht)

theorem IsChain.reach {n : Nat} {h : Heap n} {o x : Fin n} {l : List (Fin n)}
    (hc : IsChain h o l) (hx : x ∈ l) : Reach h o x := by
  induction hc with
  | last o _ =>
    have hxo : x = o := by simpa using hx
    subst hxo
    exact Reach.refl x
  | step o p t hs _ ih =>
    rcases List.mem_cons.mp hx with hxo | hxt
    · subst hxo
      exact Reach.refl x
    · exact Reach.step o p x hs (ih hxt)

/-- The walk ends within its fuel whenever the fuel exceeds the number of
objects not yet in `seen`. -/
theorem findAcyclicPrev_isSome {n : Nat} (h : Heap n) (fuel : Nat) :
    ∀ (seen : List (Fin n)) (head : Fin n), seen.Nodup → n < fuel + seen.length →
      (findAcyclicPrev h fuel seen head).isSome = true := by
  induction fuel with
  | zero =>
    intro seen head hnd hlt
    have hle := hnd.length_le_card
    simp only [Fintype.card_fin] at hle
    omega
  | succ fuel ih =>
    intro seen head hnd hlt
    unfold findAcyclicPrev
    by_cases hmem : head ∈ seen
    · simp [hmem]
    · simp only [hmem, if_false]
      have hnd2 : (head :: seen).Nodup := List.nodup_cons.mpr ⟨hmem, hnd⟩
      have hlt2 : n < fuel + (head :: seen).length := by
        simp only [List.length_cons]; omega
      cases hp : h.previous head with
      | null => simp
      | other => simp
      | obj p =>
        by_cases ht : h.throwable p = true
        · simp only [ht, if_true]
          exact ih _ _ hnd2 hlt2
        · simp [ht]

/-- A walk that returns a slot has followed the chain of `head` to its end
without meeting an object of `seen`. -/
theorem findAcyclicPrev_found {n : Nat} (h : Heap n) (fuel : Nat) :
    ∀ (seen seen2 : List (Fin n)) (head last : Fin n),
      findAcyclicPrev h fuel seen head = some (seen2, some last) →
      ∃ l, IsChain h head l ∧ (∀ x ∈ l, x ∉ seen) ∧ seen2 = l.reverse ++ seen ∧
        l.getLast? = some last := by
  induction fuel with
  | zero => intro seen seen2 head last hw; simp [findAcyclicPrev] at hw
  | succ fuel ih =>
    intro seen seen2 head last hw
    unfold findAcyclicPrev at hw
    by_cases hmem : head ∈ seen
    · simp [hmem] at hw
    · simp only [hmem, if_false] at hw
      have hlast : ∀ (_ : nextFault h head = none)
          (_ : (head :: seen, some head) = (seen2, some last)),
          ∃ l, IsChain h head l ∧ (∀ x ∈ l, x ∉ seen) ∧ seen2 = l.reverse ++ seen ∧
            l.getLast? = some last := by
        intro hn he
        simp only [Prod.mk.injEq, Option.some.injEq] at he
        obtain ⟨hs, hl⟩ := he
        subst hs; subst hl
        exact ⟨[head], IsChain.last head hn, by simpa using hmem, by simp, by simp⟩
      cases hp : h.previous head with
      | null =>
        simp only [hp] at hw
        exact hlast (by simp [nextFault, hp]) (Option.some.inj hw)
      | other =>
        simp only [hp] at hw
        exact hlast (by simp [nextFault, hp]) (Option.some.inj hw)
      | obj p =>
        simp only [hp] at hw
        by_cases ht : h.throwable p = true
        · simp only [ht, if_true] at hw
          obtain ⟨l, hl, hdis, hseen, hlst⟩ := ih _ _ _ _ hw
          have hnext : nextFault h head = some p := by simp [nextFault, hp, ht]
          obtain ⟨u, rfl⟩ := hl.eq_cons
          refine ⟨head :: p :: u, IsChain.step head p _ hnext hl, ?_, ?_, ?_⟩
          · intro x hx
            rcases List.mem_cons.mp hx with hxh | hxl
            · subst hxh; exact hmem
            · exact fun hxs => hdis x hxl (List.mem_cons_of_mem _ hxs)
          · rw [hseen]; simp
          · rw [List.getLast?_cons_cons]; exact hlst
        · simp only [ht] at hw
          exact hlast (by simp [nextFault, hp, ht]) (Option.some.inj hw)

/-- A walk that returns the null lval has met an object of `seen`, or the
chain of `head` does not end. -/
theorem findAcyclicPrev_cycle {n : Nat} (h : Heap n) (fuel : Nat) :
    ∀ (seen seen2 : List (Fin n)) (head : Fin n),
      findAcyclicPrev h fuel seen head = some (seen2, none) →
      ∀ l, IsChain h head l → ∃ x ∈ l, x ∈ seen := by
  induction fuel with
  | zero => intro seen seen2 head hw; simp [findAcyclicPrev] at hw
  | succ fuel ih =>
    intro seen seen2 head hw l hl
    unfold findAcyclicPrev at hw
    by_cases hmem : head ∈ seen
    · exact ⟨head, hl.head_mem, hmem⟩
    · simp only [hmem, if_false] at hw
      cases hp : h.previous head with
      | null => simp [hp] at hw
      | other => simp [hp] at hw
      | obj p =>
        simp only [hp] at hw
        by_cases ht : h.throwable p = true
        · simp only [ht, if_true] at hw
          have hnext : nextFault h head = some p := by simp [nextFault, hp, ht]
          cases hl with
          | last _ hn => rw [hn] at hnext; cases hnext
          | step _ q t hq htl =>
            rw [hnext] at hq
            cases hq
            obtain ⟨x, hxt, hxs⟩ := ih _ _ _ hw t htl
            rcases List.mem_cons.mp hxs with hxh | hxs
            · subst hxh
              exact absurd hxt (IsChain.step x p t hnext htl).not_mem_tail
            · exact ⟨x, List.mem_cons_of_mem _ hxt, hxs⟩
        · simp [ht] at hw

/-- The two ways `chainFaultObjects` ends: it writes `prev` into the slot of
the last object of the chain of `top` when both chains end and share no
object, and it only releases `prev` otherwise. -/
theorem chainFaultObjects_cases {n : Nat} (h : Heap n) (top prev : Fin n) :
    (∃ lt lp last, IsChain h top lt ∧ IsChain h prev lp ∧ (∀ x ∈ lp, x ∉ lt) ∧
        lt.getLast? = some last ∧
        chainFaultObjects h top prev = some (tvMove h (.obj prev) last)) ∨
    ((¬ ∃ lt lp, IsChain h top lt ∧ IsChain h prev lp ∧ ∀ x ∈ lp, x ∉ lt) ∧
        chainFaultObjects h top prev = some (decRefObj h prev)) := by
  have h1 := findAcyclicPrev_isSome h (n + 1) [] top List.nodup_nil (by simp)
  obtain ⟨⟨seen, r1⟩, hw1⟩ := Option.isSome_iff_exists.mp h1
  cases r1 with
  | none =>
    right
    refine ⟨?_, by simp [chainFaultObjects, hw1]⟩
    rintro ⟨lt, _, hlt, _, _⟩
    obtain ⟨x, _, hx⟩ := findAcyclicPrev_cycle h _ _ _ _ hw1 lt hlt
    simp at hx
  | some last =>
    obtain ⟨lt, hlt, _, hseen, hlast⟩ := findAcyclicPrev_found h _ _ _ _ _ hw1
    simp only [List.append_nil] at hseen
    have hnd : seen.Nodup := by rw [hseen]; exact List.nodup_reverse.mpr hlt.nodup
    have h2 := findAcyclicPrev_isSome h (n + 1) seen prev hnd (by omega)
    obtain ⟨⟨seen2, r2⟩, hw2⟩ := Option.isSome_iff_exists.mp h2
    cases r2 with
    | none =>
      right
      refine ⟨?_, by simp [chainFaultObjects, hw1, hw2]⟩
      rintro ⟨lt2, lp, hlt2, hlp, hdis⟩
      obtain ⟨x, hxl, hxs⟩ := findAcyclicPrev_cycle h _ _ _ _ hw2 lp hlp
      rw [hseen, List.mem_reverse] at hxs
      rw [IsChain.unique hlt2 hlt] at hdis
      exact hdis x hxl hxs
    | some last2 =>
      left
      obtain ⟨lp, hlp, hdis, _, _⟩ := findAcyclicPrev_found h _ _ _ _ _ hw2
      refine ⟨lt, lp, last, hlt, hlp, ?_, hlast, by simp [chainFaultObjects, hw1, hw2]⟩
      intro x hx hxt
      exact hdis x hx (by rw [hseen, List.mem_reverse]; exact hxt)

theorem nextFault_decRefObj {n : Nat} (h : Heap n) (p x : Fin n) :
    nextFault (decRefObj h p) x = nextFault h x := rfl

theorem nextFault_tvDecRefGen {n : Nat} (h : Heap n) (v : PropValue n) (x : Fin n) :
    nextFault (tvDecRefGen h v) x = nextFault h x := by
  cases v <;> rfl

theorem previous_tvMove {n : Nat} (h : Heap n) (v : PropValue n) (slot x : Fin n) :
    (tvMove h v slot).previous x = if x = slot then v else h.previous x := by
  unfold tvMove
  cases h.previous slot <;> rfl

theorem throwable_tvMove {n : Nat} (h : Heap n) (v : PropValue n) (slot : Fin n) :
    (tvMove h v slot).throwable = h.throwable := by
  unfold tvMove
  cases h.previous slot <;> rfl

theorem nextFault_tvMove_ne {n : Nat} (h : Heap n) (v : PropValue n) (slot x : Fin n)
    (hx : x ≠ slot) : nextFault (tvMove h v slot) x = nextFault h x := by
  simp only [nextFault, previous_tvMove, throwable_tvMove, hx, if_false]

theorem nextFault_tvMove_self {n : Nat} (h : Heap n) (p slot : Fin n) :
    nextFault (tvMove h (.obj p) slot) slot = if h.throwable p then some p else none := by
  simp only [nextFault, previous_tvMove, throwable_tvMove, if_true]

theorem IsChain.of_next_eq {n : Nat} {h h2 : Heap n} {o : Fin n} {l : List (Fin n)}
    (hc : IsChain h o l) (heq : ∀ x ∈ l, nextFault h2 x = nextFault h x) :
    IsChain h2 o l := by
  induction hc with
  | last o hn =>
    exact IsChain.last o (by rw [heq o (List.mem_cons_self _ _)]; exact hn)
  | step o p t hs _ ih =>
    exact IsChain.step o p t (by rw [heq o (List.mem_cons_self _ _)]; exact hs)
      (ih (fun x hx => heq x (List.mem_cons_of_mem _ hx)))

/-- Appending the chain of `p` to a chain whose last object is redirected to
`p`. -/
theorem IsChain.append {n : Nat} {h h2 : Heap n} {o last p : Fin n}
    {l lp : List (Fin n)} (hc : IsChain h o l) (hl : l.getLast? = some last)
    (hoff : ∀ x, x ≠ last → nextFault h2 x = nextFault h x)
    (hlast : nextFault h2 last = some p) (hp : IsChain h2 p lp) :
    IsChain h2 o (l ++ lp) := by
  induction hc with
  | last o hn =>
    simp at hl
    subst hl
    exact IsChain.step o p lp hlast hp
  | step o q t hs ht ih =>
    obtain ⟨u, rfl⟩ := ht.eq_cons
    rw [List.getLast?_cons_cons] at hl
    have hne : o ≠ last := by
      intro he
      rw [he, IsChain.getLast_next ht hl] at hs
      cases hs
    exact IsChain.step o q _ (by rw [hoff o hne]; exact hs) (ih hl)

/-- Claim C1. `chainFaultObjects` never creates a cycle: for every heap and
every `top` and `prev` (equal or not), the call ends, and every object whose
chain of previous links ended before the call has a chain that ends after
it. -/
theorem chainFaultObjects_preserves_acyclic {n : Nat} (h : Heap n) (top prev : Fin n) :
    ∃ h2, chainFaultObjects h top prev = some h2 ∧
      ∀ o, Acyclic h o → Acyclic h2 o := by
  rcases chainFaultObjects_cases h top prev with
    ⟨lt, lp, last, hlt, hlp, hdis, hlast, hres⟩ | ⟨_, hres⟩
  · refine ⟨_, hres, ?_⟩
    have hnl : nextFault h last = none := IsChain.getLast_next hlt hlast
    have hlastlp : last ∉ lp := fun hm => hdis last hm (IsChain.getLast_mem hlt hlast)
    have hlp2 : IsChain (tvMove h (.obj prev) last) prev lp :=
      hlp.of_next_eq (fun x hx =>
        nextFault_tvMove_ne h _ last x (fun he => hlastlp (he ▸ hx)))
    rintro o ⟨l, hl⟩
    induction hl with
    | last o hn =>
      by_cases hol : o = last
      · subst hol
        by_cases ht : h.throwable prev = true
        · exact ⟨o :: lp, IsChain.step o prev lp
            (by rw [nextFault_tvMove_self, ht]; rfl) hlp2⟩
        · exact ⟨[o], IsChain.last o (by rw [nextFault_tvMove_self]; simp [ht])⟩
      · exact ⟨[o], IsChain.last o (by rw [nextFault_tvMove_ne h _ last o hol]; exact hn)⟩
    | step o p t hs _ ih =>
      obtain ⟨t2, ht2⟩ := ih
      have hol : o ≠ last := by
        intro he
        rw [he, hnl] at hs
        cases hs
      exact ⟨o :: t2, IsChain.step o p t2
        (by rw [nextFault_tvMove_ne h _ last o hol]; exact hs) ht2⟩
  · refine ⟨_, hres, ?_⟩
    rintro o ⟨l, hl⟩
    exact ⟨l, hl.of_next_eq (fun x _ => nextFault_decRefObj h prev x)⟩

/-- Claim C2. Closing a loop is refused: when some object `x` of the chain of
`top` is reachable from `prev` through previous links, the call ends, no
previous slot of any object is changed, and the reference count of `prev` is
one less than before (no other count changes). -/
theorem chainFaultObjects_refuses_loop {n : Nat} (h : Heap n) (top prev x : Fin n)
    (hx1 : Reach h top x) (hx2 : Reach h prev x) :
    ∃ h2, chainFaultObjects h top prev = some h2 ∧
      (∀ o, h2.previous o = h.previous o) ∧
      h2.refCount prev = h.refCount prev - 1 ∧
      (∀ o, o ≠ prev → h2.refCount o = h.refCount o) := by
  rcases chainFaultObjects_cases h top prev with
    ⟨lt, lp, last, hlt, hlp, hdis, _, _⟩ | ⟨_, hres⟩
  · exact absurd (hx1.mem_chain hlt) (hdis x (hx2.mem_chain hlp))
  · refine ⟨_, hres, fun o => rfl, by simp [decRefObj], ?_⟩
    intro o ho
    simp [decRefObj, ho]

/-- The case of the spec for claim C2: with `A -> B` and `C -> A`, chaining
`C` onto `A` is refused. -/
theorem chainFaultObjects_refuses_loop_witness :
    Reach heapABC 0 0 ∧ Reach heapABC 2 0 ∧
    ∃ h2, chainFaultObjects heapABC 0 2 = some h2 ∧
      (∀ o, h2.previous o = heapABC.previous o) ∧
      h2.refCount 2 = heapABC.refCount 2 - 1 ∧
      (∀ o, o ≠ 2 → h2.refCount o = heapABC.refCount o) :=
  ⟨Reach.refl 0, Reach.step 2 0 0 (by decide) (Reach.refl 0),
    chainFaultObjects_refuses_loop heapABC 0 2 0 (Reach.refl 0)
      (Reach.step 2 0 0 (by decide) (Reach.refl 0))⟩

/-- Claim C3. Successful chaining: when the chain `lt` of `top` and the chain
`lp` of `prev` end and share no object (and `prev` is a throwable, as the
walk asserts), the call writes `prev` into the previous slot of the last
object of `lt` and changes no other slot, the chain of `top` afterwards is
`lt` followed by `lp`, and the reference count of `prev` is unchanged. -/
theorem chainFaultObjects_chains {n : Nat} (h : Heap n) (top prev : Fin n)
    (lt lp : List (Fin n)) (hprev : h.throwable prev = true)
    (hlt : IsChain h top lt) (hlp : IsChain h prev lp) (hdis : ∀ x ∈ lp, x ∉ lt) :
    ∃ h2 last, lt.getLast? = some last ∧ chainFaultObjects h top prev = some h2 ∧
      h2.previous last = .obj prev ∧
      (∀ o, o ≠ last → h2.previous o = h.previous o) ∧
      IsChain h2 top (lt ++ lp) ∧
      h2.refCount prev = h.refCount prev := by
  rcases chainFaultObjects_cases h top prev with
    ⟨lt2, lp2, last, hlt2, hlp2, _, hlast, hres⟩ | ⟨hno, _⟩
  · rw [IsChain.unique hlt2 hlt] at hlast
    refine ⟨_, last, hlast, hres, by simp [previous_tvMove], ?_, ?_, ?_⟩
    · intro o ho
      simp [previous_tvMove, ho]
    · have hlastlp : last ∉ lp := fun hm => hdis last hm (IsChain.getLast_mem hlt hlast)
      have hp2 : IsChain (tvMove h (.obj prev) last) prev lp :=
        hlp.of_next_eq (fun x hx =>
          nextFault_tvMove_ne h _ last x (fun he => hlastlp (he ▸ hx)))
      exact IsChain.append hlt hlast (fun x hx => nextFault_tvMove_ne h _ last x hx)
        (by rw [nextFault_tvMove_self, hprev]; rfl) hp2
    · have hnl : nextFault h last = none := IsChain.getLast_next hlt hlast
      unfold tvMove
      cases hold : h.previous last with
      | null => rfl
      | other => rfl
      | obj q =>
        have hq : q ≠ prev := by
          intro he
          subst he
          simp [nextFault, hold, hprev] at hnl
        simp [tvDecRefGen, decRefObj, Ne.symm hq]
  · exact absurd ⟨lt, lp, hlt, hlp, hdis⟩ hno

/-- The case of the spec for claim C3: with `A -> B` and `C` on its own,
chaining `A` onto `C` succeeds and the chain of `C` becomes `C, A, B`. -/
theorem chainFaultObjects_chains_witness :
    heapAB_C.throwable 0 = true ∧ IsChain heapAB_C 2 [2] ∧ IsChain heapAB_C 0 [0, 1] ∧
    ∃ h2 last, [(2 : Fin 3)].getLast? = some last ∧
      chainFaultObjects heapAB_C 2 0 = some h2 ∧
      h2.previous last = .obj 0 ∧
      (∀ o, o ≠ last → h2.previous o = heapAB_C.previous o) ∧
      IsChain h2 2 ([2] ++ [0, 1]) ∧
      h2.refCount 0 = heapAB_C.refCount 0 :=
  have hc2 : IsChain heapAB_C 2 [2] := IsChain.last 2 (by decide)
  have hc0 : IsChain heapAB_C 0 [0, 1] :=
    IsChain.step 0 1 [1] (by decide) (IsChain.last 1 (by decide))
  ⟨rfl, hc2, hc0,
    chainFaultObjects_chains heapAB_C 2 0 [2] [0, 1] rfl hc2 hc0 (by decide)⟩

/-!
Properties of the exception-table lookup
-/

theorem EHEnt.within_refl (a : EHEnt) : a.within a = true := by
  simp [EHEnt.within]

theorem EHEnt.within_trans {a b c : EHEnt} (hab : a.within b = true)
    (hbc : b.within c = true) : a.within c = true := by
  simp only [EHEnt.within, Bool.and_eq_true, decide_eq_true_eq] at hab hbc ⊢
  exact ⟨le_trans hbc.1 hab.1, le_trans hab.2 hbc.2⟩

/-- The scan from a candidate `b` ends at an entry nested in `b`, which is `b`
or an entry of the table and contains the offset when `b` does. -/
theorem foldl_findEHStep_some (o : Offset) (tab : List EHEnt) :
    ∀ b : EHEnt, ∃ r, tab.foldl (findEHStep o) (some b) = some r ∧
      r.within b = true ∧ (r = b ∨ r ∈ tab) ∧ (b.covers o = true → r.covers o = true) := by
  induction tab with
  | nil => intro b; exact ⟨b, rfl, b.within_refl, Or.inl rfl, id⟩
  | cons e t ih =>
    intro b
    rw [List.foldl_cons]
    by_cases hc : e.covers o = true
    · by_cases hw : e.within b = true
      · obtain ⟨r, hr, hrw, hrm, hrc⟩ := ih e
        refine ⟨r, by simpa [findEHStep, hc, hw] using hr, EHEnt.within_trans hrw hw,
          ?_, fun _ => hrc hc⟩
        rcases hrm with h | h
        · exact Or.inr (h ▸ List.mem_cons_self _ _)
        · exact Or.inr (List.mem_cons_of_mem _ h)
      · obtain ⟨r, hr, hrw, hrm, hrc⟩ := ih b
        refine ⟨r, by simpa [findEHStep, hc, hw] using hr, hrw, ?_, hrc⟩
        rcases hrm with h | h
        · exact Or.inl h
        · exact Or.inr (List.mem_cons_of_mem _ h)
    · obtain ⟨r, hr, hrw, hrm, hrc⟩ := ih b
      refine ⟨r, by simpa [findEHStep, hc] using hr, hrw, ?_, hrc⟩
      rcases hrm with h | h
      · exact Or.inl h
      · exact Or.inr (List.mem_cons_of_mem _ h)

/-- The scan ends at a minimal containing entry: no containing entry of the
table lies inside the result without the result lying inside it. -/
theorem foldl_findEHStep_minimal (o : Offset) (tab : List EHEnt) :
    ∀ (best : Option EHEnt) (r : EHEnt), tab.foldl (findEHStep o) best = some r →
      ∀ e ∈ tab, e.covers o = true → e.within r = true → r.within e = true := by
  induction tab with
  | nil => intro best r _ e he; simp at he
  | cons e0 t ih =>
    intro best r hr e he hc hw
    rw [List.foldl_cons] at hr
    rcases List.mem_cons.mp he with h0 | ht
    · subst h0
      cases best with
      | none =>
        obtain ⟨r2, hr2, hrw, _, _⟩ := foldl_findEHStep_some o t e
        simp only [findEHStep, hc, if_true] at hr
        rw [hr2] at hr
        cases hr
        exact hrw
      | some b =>
        by_cases hwb : e.within b = true
        · obtain ⟨r2, hr2, hrw, _, _⟩ := foldl_findEHStep_some o t e
          simp only [findEHStep, hc, hwb, if_true] at hr
          rw [hr2] at hr
          cases hr
          exact hrw
        · obtain ⟨r2, hr2, hrw, _, _⟩ := foldl_findEHStep_some o t b
          simp [findEHStep, hc, hwb] at hr
          rw [hr2] at hr
          cases hr
          exact absurd (EHEnt.within_trans hw hrw) hwb
    · exact ih _ r hr e ht hc hw

/-- The scan from no candidate finds nothing exactly when no entry contains
the offset, and otherwise an entry of the table that contains it. -/
theorem foldl_findEHStep_none (o : Offset) (tab : List EHEnt) :
    (tab.foldl (findEHStep o) none = none ∧ ∀ e ∈ tab, e.covers o = false) ∨
    (∃ r, tab.foldl (findEHStep o) none = some r ∧ r ∈ tab ∧ r.covers o = true) := by
  induction tab with
  | nil => left; exact ⟨rfl, fun e he => by simp at he⟩
  | cons e0 t ih =>
    rw [List.foldl_cons]
    by_cases hc : e0.covers o = true
    · right
      obtain ⟨r, hr, _, hrm, hrc⟩ := foldl_findEHStep_some o t e0
      refine ⟨r, by simpa [findEHStep, hc] using hr, ?_, hrc hc⟩
      rcases hrm with h | h
      · exact h ▸ List.mem_cons_self _ _
      · exact List.mem_cons_of_mem _ h
    · have hstep : findEHStep o none e0 = none := by simp [findEHStep, hc]
      rw [hstep]
      rcases ih with ⟨hn, hall⟩ | ⟨r, hr, hrm, hrc⟩
      · left
        refine ⟨hn, ?_⟩
        intro e he
        rcases List.mem_cons.mp he with h | h
        · subst h; simpa using hc
        · exact hall e h
      · right
        exact ⟨r, hr, List.mem_cons_of_mem _ hrm, hrc⟩

/-- Claim C4. For every function and offset, `findCatchHandler` returns the
sentinel when no range of the exception table contains the offset, and
otherwise the handler of an innermost containing range: an entry that
contains the offset and has no other containing entry strictly inside it, so
that it lies inside every containing entry when the containing ranges are
nested. When no handler offset equals the sentinel, the sentinel is returned
exactly when no range contains the offset. With the ranges `[0,10) -> H1` and
`[2,6) -> H2`, in either order, the result is `H2` at 4, `H1` at 8 and the
sentinel at 12. -/
theorem findCatchHandler_innermost (kInvalidOffset : Offset) (func : Func)
    (raiseOffset : Offset) :
    ((∀ e ∈ func.ehtab, e.covers raiseOffset = false) →
      findCatchHandler kInvalidOffset func raiseOffset = kInvalidOffset) ∧
    ((∃ e ∈ func.ehtab, e.covers raiseOffset = true) →
      ∃ eh ∈ func.ehtab, eh.covers raiseOffset = true ∧
        findCatchHandler kInvalidOffset func raiseOffset = eh.m_handler ∧
        (∀ e ∈ func.ehtab, e.covers raiseOffset = true → e.within eh = true →
          eh.within e = true) ∧
        ((∀ a ∈ func.ehtab, ∀ b ∈ func.ehtab, a.covers raiseOffset = true →
            b.covers raiseOffset = true → a.within b = true ∨ b.within a = true) →
          ∀ e ∈ func.ehtab, e.covers raiseOffset = true → eh.within e = true)) ∧
    ((∀ e ∈ func.ehtab, e.m_handler ≠ kInvalidOffset) →
      (findCatchHandler kInvalidOffset func raiseOffset = kInvalidOffset ↔
        ∀ e ∈ func.ehtab, e.covers raiseOffset = false)) ∧
    (∀ H1 H2 : Offset,
      func.ehtab = [⟨0, 10, H1⟩, ⟨2, 6, H2⟩] ∨ func.ehtab = [⟨2, 6, H2⟩, ⟨0, 10, H1⟩] →
      findCatchHandler kInvalidOffset func 4 = H2 ∧
      findCatchHandler kInvalidOffset func 8 = H1 ∧
      findCatchHandler kInvalidOffset func 12 = kInvalidOffset) := by
  have hsome : (∃ e ∈ func.ehtab, e.covers raiseOffset = true) →
      ∃ eh ∈ func.ehtab, eh.covers raiseOffset = true ∧
        findCatchHandler kInvalidOffset func raiseOffset = eh.m_handler ∧
        (∀ e ∈ func.ehtab, e.covers raiseOffset = true → e.within eh = true →
          eh.within e = true) := by
    rintro ⟨e, he, hc⟩
    rcases foldl_findEHStep_none raiseOffset func.ehtab with ⟨_, hall⟩ | ⟨r, hr, hrm, hrc⟩
    · rw [hall e he] at hc; cases hc
    · refine ⟨r, hrm, hrc, by simp [findCatchHandler, Func.findEH, findEH, hr], ?_⟩
      exact foldl_findEHStep_minimal raiseOffset func.ehtab none r hr
  have hnone : (∀ e ∈ func.ehtab, e.covers raiseOffset = false) →
      findCatchHandler kInvalidOffset func raiseOffset = kInvalidOffset := by
    intro hall
    rcases foldl_findEHStep_none raiseOffset func.ehtab with ⟨hn, _⟩ | ⟨r, _, hrm, hrc⟩
    · simp [findCatchHandler, Func.findEH, findEH, hn]
    · rw [hall r hrm] at hrc; cases hrc
  refine ⟨hnone, ?_, ?_, ?_⟩
  · intro hex
    obtain ⟨eh, hm, hc, hres, hmin⟩ := hsome hex
    refine ⟨eh, hm, hc, hres, hmin, ?_⟩
    intro hnest e he hce
    rcases hnest eh hm e he hc hce with h | h
    · exact h
    · exact hmin e he hce h
  · intro hvalid
    constructor
    · intro hk e he
      by_contra hc
      obtain ⟨eh, hm, _, hres, _⟩ := hsome ⟨e, he, by simpa using hc⟩
      exact hvalid eh hm (hres ▸ hk)
    · exact hnone
  · intro H1 H2 htab
    rcases htab with h | h <;>
      simp [findCatchHandler, Func.findEH, findEH, h, findEHStep, EHEnt.covers,
        EHEnt.within]

/-- The table of the spec for claim C4, with handlers 100 and 200 and the
sentinel -1: the nested ranges `[0,10)` and `[2,6)`. -/
theorem findCatchHandler_innermost_witness :
    findCatchHandler (-1) (funcWithTable [⟨0, 10, 100⟩, ⟨2, 6, 200⟩]) 4 = 200 ∧
    findCatchHandler (-1) (funcWithTable [⟨0, 10, 100⟩, ⟨2, 6, 200⟩]) 8 = 100 ∧
    findCatchHandler (-1) (funcWithTable [⟨0, 10, 100⟩, ⟨2, 6, 200⟩]) 12 = -1 :=
  (findCatchHandler_innermost (-1) (funcWithTable [⟨0, 10, 100⟩, ⟨2, 6, 200⟩]) 0).2.2.2
    100 200 (Or.inl rfl)

/-!
Properties of the frame teardown and of the unwind driver

What each operation leaves unchanged.
-/

@[simp] theorem tvDecRefGen_fp (s : VMState) (v : TypedValue) :
    (s.tvDecRefGen v).fp = s.fp := by
  cases v <;> rfl

@[simp] theorem tvDecRefGen_pc (s : VMState) (v : TypedValue) :
    (s.tvDecRefGen v).pc = s.pc := by
  cases v <;> rfl

@[simp] theorem tvDecRefGen_stack (s : VMState) (v : TypedValue) :
    (s.tvDecRefGen v).stack = s.stack := by
  cases v <;> rfl

@[simp] theorem tvDecRefGen_frames (s : VMState) (v : TypedValue) :
    (s.tvDecRefGen v).frames = s.frames := by
  cases v <;> rfl

@[simp] theorem tvDecRefGen_pendingException (s : VMState) (v : TypedValue) :
    (s.tvDecRefGen v).pendingException = s.pendingException := by
  cases v <;> rfl

@[simp] theorem tvDecRefGen_tvRef (s : VMState) (v : TypedValue) :
    (s.tvDecRefGen v).tvRef = s.tvRef := by
  cases v <;> rfl

@[simp] theorem tvDecRefGen_tvRef2 (s : VMState) (v : TypedValue) :
    (s.tvDecRefGen v).tvRef2 = s.tvRef2 := by
  cases v <;> rfl

@[simp] theorem tvDecRefGen_debuggerAttached (s : VMState) (v : TypedValue) :
    (s.tvDecRefGen v).debuggerAttached = s.debuggerAttached := by
  cases v <;> rfl

@[simp] theorem tvDecRefGen_log (s : VMState) (v : TypedValue) :
    (s.tvDecRefGen v).log = s.log := by
  cases v <;> rfl

@[simp] theorem emit_fp (s : VMState) (e : Event) :
    (s.emit e).fp = s.fp := rfl

@[simp] theorem emit_pc (s : VMState) (e : Event) :
    (s.emit e).pc = s.pc := rfl

@[simp] theorem emit_stack (s : VMState) (e : Event) :
    (s.emit e).stack = s.stack := rfl

@[simp] theorem emit_frames (s : VMState) (e : Event) :
    (s.emit e).frames = s.frames := rfl

@[simp] theorem emit_refCount (s : VMState) (e : Event) :
    (s.emit e).refCount = s.refCount := rfl

@[simp] theorem emit_pendingException (s : VMState) (e : Event) :
    (s.emit e).pendingException = s.pendingException := rfl

@[simp] theorem emit_tvRef (s : VMState) (e : Event) :
    (s.emit e).tvRef = s.tvRef := rfl

@[simp] theorem emit_tvRef2 (s : VMState) (e : Event) :
    (s.emit e).tvRef2 = s.tvRef2 := rfl

@[simp] theorem emit_debuggerAttached (s : VMState) (e : Event) :
    (s.emit e).debuggerAttached = s.debuggerAttached := rfl

@[simp] theorem addRef_fp (s : VMState) (o : ObjId) (d : Int) :
    (s.addRef o d).fp = s.fp := rfl

@[simp] theorem addRef_pc (s : VMState) (o : ObjId) (d : Int) :
    (s.addRef o d).pc = s.pc := rfl

@[simp] theorem addRef_stack (s : VMState) (o : ObjId) (d : Int) :
    (s.addRef o d).stack = s.stack := rfl

@[simp] theorem addRef_frames (s : VMState) (o : ObjId) (d : Int) :
    (s.addRef o d).frames = s.frames := rfl

@[simp] theorem addRef_pendingException (s : VMState) (o : ObjId) (d : Int) :
    (s.addRef o d).pendingException = s.pendingException := rfl

@[simp] theorem addRef_tvRef (s : VMState) (o : ObjId) (d : Int) :
    (s.addRef o d).tvRef = s.tvRef := rfl

@[simp] theorem addRef_tvRef2 (s : VMState) (o : ObjId) (d : Int) :
    (s.addRef o d).tvRef2 = s.tvRef2 := rfl

@[simp] theorem addRef_debuggerAttached (s : VMState) (o : ObjId) (d : Int) :
    (s.addRef o d).debuggerAttached = s.debuggerAttached := rfl

@[simp] theorem addRef_log (s : VMState) (o : ObjId) (d : Int) :
    (s.addRef o d).log = s.log := rfl

@[simp] theorem releaseAll_fp (s : VMState) (vs : List TypedValue) :
    (VMState.releaseAll vs s).fp = s.fp := by
  induction vs generalizing s with
  | nil => rfl
  | cons v vs ih => simp [VMState.releaseAll, ih]

@[simp] theorem releaseAll_pc (s : VMState) (vs : List TypedValue) :
    (VMState.releaseAll vs s).pc = s.pc := by
  induction vs generalizing s with
  | nil => rfl
  | cons v vs ih => simp [VMState.releaseAll, ih]

@[simp] theorem releaseAll_stack (s : VMState) (vs : List TypedValue) :
    (VMState.releaseAll vs s).stack = s.stack := by
  induction vs generalizing s with
  | nil => rfl
  | cons v vs ih => simp [VMState.releaseAll, ih]

@[simp] theorem releaseAll_frames (s : VMState) (vs : List TypedValue) :
    (VMState.releaseAll vs s).frames = s.frames := by
  induction vs generalizing s with
  | nil => rfl
  | cons v vs ih => simp [VMState.releaseAll, ih]

@[simp] theorem releaseAll_pendingException (s : VMState) (vs : List TypedValue) :
    (VMState.releaseAll vs s).pendingException = s.pendingException := by
  induction vs generalizing s with
  | nil => rfl
  | cons v vs ih => simp [VMState.releaseAll, ih]

@[simp] theorem releaseAll_tvRef (s : VMState) (vs : List TypedValue) :
    (VMState.releaseAll vs s).tvRef = s.tvRef := by
  induction vs generalizing s with
  | nil => rfl
  | cons v vs ih => simp [VMState.releaseAll, ih]

@[simp] theorem releaseAll_tvRef2 (s : VMState) (vs : List TypedValue) :
    (VMState.releaseAll vs s).tvRef2 = s.tvRef2 := by
  induction vs generalizing s with
  | nil => rfl
  | cons v vs ih => simp [VMState.releaseAll, ih]

@[simp] theorem releaseAll_debuggerAttached (s : VMState) (vs : List TypedValue) :
    (VMState.releaseAll vs s).debuggerAttached = s.debuggerAttached := by
  induction vs generalizing s with
  | nil => rfl
  | cons v vs ih => simp [VMState.releaseAll, ih]

@[simp] theorem releaseAll_log (s : VMState) (vs : List TypedValue) :
    (VMState.releaseAll vs s).log = s.log := by
  induction vs generalizing s with
  | nil => rfl
  | cons v vs ih => simp [VMState.releaseAll, ih]

@[simp] theorem frame_free_locals_unwind_fp (s : VMState) (fp : Int) (n : Nat) (e : Option ObjId) :
    (frame_free_locals_unwind s fp n e).fp = s.fp := by
  simp [frame_free_locals_unwind]

@[simp] theorem frame_free_locals_unwind_pc (s : VMState) (fp : Int) (n : Nat) (e : Option ObjId) :
    (frame_free_locals_unwind s fp n e).pc = s.pc := by
  simp [frame_free_locals_unwind]

@[simp] theorem frame_free_locals_unwind_stack (s : VMState) (fp : Int) (n : Nat) (e : Option ObjId) :
    (frame_free_locals_unwind s fp n e).stack = s.stack := by
  simp [frame_free_locals_unwind]

@[simp] theorem frame_free_locals_unwind_frames (s : VMState) (fp : Int) (n : Nat) (e : Option ObjId) :
    (frame_free_locals_unwind s fp n e).frames = s.frames := by
  simp [frame_free_locals_unwind]

@[simp] theorem frame_free_locals_unwind_pendingException (s : VMState) (fp : Int) (n : Nat) (e : Option ObjId) :
    (frame_free_locals_unwind s fp n e).pendingException = s.pendingException := by
  simp [frame_free_locals_unwind]

@[simp] theorem frame_free_locals_unwind_tvRef (s : VMState) (fp : Int) (n : Nat) (e : Option ObjId) :
    (frame_free_locals_unwind s fp n e).tvRef = s.tvRef := by
  simp [frame_free_locals_unwind]

@[simp] theorem frame_free_locals_unwind_tvRef2 (s : VMState) (fp : Int) (n : Nat) (e : Option ObjId) :
    (frame_free_locals_unwind s fp n e).tvRef2 = s.tvRef2 := by
  simp [frame_free_locals_unwind]

@[simp] theorem frame_free_locals_unwind_debuggerAttached (s : VMState) (fp : Int) (n : Nat) (e : Option ObjId) :
    (frame_free_locals_unwind s fp n e).debuggerAttached = s.debuggerAttached := by
  simp [frame_free_locals_unwind]

@[simp] theorem setLocalsDecRefd_fp (s : VMState) (fp : Int) :
    (s.setLocalsDecRefd fp).fp = s.fp := rfl

@[simp] theorem setLocalsDecRefd_pc (s : VMState) (fp : Int) :
    (s.setLocalsDecRefd fp).pc = s.pc := rfl

@[simp] theorem setLocalsDecRefd_stack (s : VMState) (fp : Int) :
    (s.setLocalsDecRefd fp).stack = s.stack := rfl

@[simp] theorem setLocalsDecRefd_refCount (s : VMState) (fp : Int) :
    (s.setLocalsDecRefd fp).refCount = s.refCount := rfl

@[simp] theorem setLocalsDecRefd_pendingException (s : VMState) (fp : Int) :
    (s.setLocalsDecRefd fp).pendingException = s.pendingException := rfl

@[simp] theorem setLocalsDecRefd_tvRef (s : VMState) (fp : Int) :
    (s.setLocalsDecRefd fp).tvRef = s.tvRef := rfl

@[simp] theorem setLocalsDecRefd_tvRef2 (s : VMState) (fp : Int) :
    (s.setLocalsDecRefd fp).tvRef2 = s.tvRef2 := rfl

@[simp] theorem setLocalsDecRefd_debuggerAttached (s : VMState) (fp : Int) :
    (s.setLocalsDecRefd fp).debuggerAttached = s.debuggerAttached := rfl

@[simp] theorem setLocalsDecRefd_log (s : VMState) (fp : Int) :
    (s.setLocalsDecRefd fp).log = s.log := rfl

@[simp] theorem decRefLocals_fp (s : VMState) (fp : Int) (e : Option ObjId) :
    (decRefLocals s fp e).fp = s.fp := by
  unfold decRefLocals
  split <;> simp

@[simp] theorem decRefLocals_pc (s : VMState) (fp : Int) (e : Option ObjId) :
    (decRefLocals s fp e).pc = s.pc := by
  unfold decRefLocals
  split <;> simp

@[simp] theorem decRefLocals_stack (s : VMState) (fp : Int) (e : Option ObjId) :
    (decRefLocals s fp e).stack = s.stack := by
  unfold decRefLocals
  split <;> simp

@[simp] theorem decRefLocals_pendingException (s : VMState) (fp : Int) (e : Option ObjId) :
    (decRefLocals s fp e).pendingException = s.pendingException := by
  unfold decRefLocals
  split <;> simp

@[simp] theorem decRefLocals_tvRef (s : VMState) (fp : Int) (e : Option ObjId) :
    (decRefLocals s fp e).tvRef = s.tvRef := by
  unfold decRefLocals
  split <;> simp

@[simp] theorem decRefLocals_tvRef2 (s : VMState) (fp : Int) (e : Option ObjId) :
    (decRefLocals s fp e).tvRef2 = s.tvRef2 := by
  unfold decRefLocals
  split <;> simp

@[simp] theorem decRefLocals_debuggerAttached (s : VMState) (fp : Int) (e : Option ObjId) :
    (decRefLocals s fp e).debuggerAttached = s.debuggerAttached := by
  unfold decRefLocals
  split <;> simp

@[simp] theorem decRefObj_fp (s : VMState) (o : ObjId) :
    (s.decRefObj o).fp = s.fp := rfl

@[simp] theorem decRefObj_pc (s : VMState) (o : ObjId) :
    (s.decRefObj o).pc = s.pc := rfl

@[simp] theorem decRefObj_stack (s : VMState) (o : ObjId) :
    (s.decRefObj o).stack = s.stack := rfl

@[simp] theorem decRefObj_frames (s : VMState) (o : ObjId) :
    (s.decRefObj o).frames = s.frames := rfl

@[simp] theorem decRefObj_pendingException (s : VMState) (o : ObjId) :
    (s.decRefObj o).pendingException = s.pendingException := rfl

@[simp] theorem decRefObj_tvRef (s : VMState) (o : ObjId) :
    (s.decRefObj o).tvRef = s.tvRef := rfl

@[simp] theorem decRefObj_tvRef2 (s : VMState) (o : ObjId) :
    (s.decRefObj o).tvRef2 = s.tvRef2 := rfl

@[simp] theorem decRefObj_debuggerAttached (s : VMState) (o : ObjId) :
    (s.decRefObj o).debuggerAttached = s.debuggerAttached := rfl

@[simp] theorem incRefCount_fp (s : VMState) (o : ObjId) :
    (s.incRefCount o).fp = s.fp := rfl

@[simp] theorem incRefCount_pc (s : VMState) (o : ObjId) :
    (s.incRefCount o).pc = s.pc := rfl

@[simp] theorem incRefCount_stack (s : VMState) (o : ObjId) :
    (s.incRefCount o).stack = s.stack := rfl

@[simp] theorem incRefCount_frames (s : VMState) (o : ObjId) :
    (s.incRefCount o).frames = s.frames := rfl

@[simp] theorem incRefCount_pendingException (s : VMState) (o : ObjId) :
    (s.incRefCount o).pendingException = s.pendingException := rfl

@[simp] theorem incRefCount_tvRef (s : VMState) (o : ObjId) :
    (s.incRefCount o).tvRef = s.tvRef := rfl

@[simp] theorem incRefCount_tvRef2 (s : VMState) (o : ObjId) :
    (s.incRefCount o).tvRef2 = s.tvRef2 := rfl

@[simp] theorem incRefCount_debuggerAttached (s : VMState) (o : ObjId) :
    (s.incRefCount o).debuggerAttached = s.debuggerAttached := rfl

@[simp] theorem decRefCount_fp (s : VMState) (o : ObjId) :
    (s.decRefCount o).fp = s.fp := rfl

@[simp] theorem decRefCount_pc (s : VMState) (o : ObjId) :
    (s.decRefCount o).pc = s.pc := rfl

@[simp] theorem decRefCount_stack (s : VMState) (o : ObjId) :
    (s.decRefCount o).stack = s.stack := rfl

@[simp] theorem decRefCount_frames (s : VMState) (o : ObjId) :
    (s.decRefCount o).frames = s.frames := rfl

@[simp] theorem decRefCount_pendingException (s : VMState) (o : ObjId) :
    (s.decRefCount o).pendingException = s.pendingException := rfl

@[simp] theorem decRefCount_tvRef (s : VMState) (o : ObjId) :
    (s.decRefCount o).tvRef = s.tvRef := rfl

@[simp] theorem decRefCount_tvRef2 (s : VMState) (o : ObjId) :
    (s.decRefCount o).tvRef2 = s.tvRef2 := rfl

@[simp] theorem decRefCount_debuggerAttached (s : VMState) (o : ObjId) :
    (s.decRefCount o).debuggerAttached = s.debuggerAttached := rfl

@[simp] theorem ndiscard_fp (s : VMState) (n : Nat) :
    (s.ndiscard n).fp = s.fp := rfl

@[simp] theorem ndiscard_pc (s : VMState) (n : Nat) :
    (s.ndiscard n).pc = s.pc := rfl

@[simp] theorem ndiscard_frames (s : VMState) (n : Nat) :
    (s.ndiscard n).frames = s.frames := rfl

@[simp] theorem ndiscard_refCount (s : VMState) (n : Nat) :
    (s.ndiscard n).refCount = s.refCount := rfl

@[simp] theorem ndiscard_pendingException (s : VMState) (n : Nat) :
    (s.ndiscard n).pendingException = s.pendingException := rfl

@[simp] theorem ndiscard_tvRef (s : VMState) (n : Nat) :
    (s.ndiscard n).tvRef = s.tvRef := rfl

@[simp] theorem ndiscard_tvRef2 (s : VMState) (n : Nat) :
    (s.ndiscard n).tvRef2 = s.tvRef2 := rfl

@[simp] theorem ndiscard_debuggerAttached (s : VMState) (n : Nat) :
    (s.ndiscard n).debuggerAttached = s.debuggerAttached := rfl

@[simp] theorem ndiscard_log (s : VMState) (n : Nat) :
    (s.ndiscard n).log = s.log := rfl

@[simp] theorem discardAR_fp (s : VMState) (env : Env) :
    (VMState.discardAR env s).fp = s.fp := rfl

@[simp] theorem discardAR_pc (s : VMState) (env : Env) :
    (VMState.discardAR env s).pc = s.pc := rfl

@[simp] theorem discardAR_frames (s : VMState) (env : Env) :
    (VMState.discardAR env s).frames = s.frames := rfl

@[simp] theorem discardAR_refCount (s : VMState) (env : Env) :
    (VMState.discardAR env s).refCount = s.refCount := rfl

@[simp] theorem discardAR_pendingException (s : VMState) (env : Env) :
    (VMState.discardAR env s).pendingException = s.pendingException := rfl

@[simp] theorem discardAR_tvRef (s : VMState) (env : Env) :
    (VMState.discardAR env s).tvRef = s.tvRef := rfl

@[simp] theorem discardAR_tvRef2 (s : VMState) (env : Env) :
    (VMState.discardAR env s).tvRef2 = s.tvRef2 := rfl

@[simp] theorem discardAR_debuggerAttached (s : VMState) (env : Env) :
    (VMState.discardAR env s).debuggerAttached = s.debuggerAttached := rfl

@[simp] theorem discardAR_log (s : VMState) (env : Env) :
    (VMState.discardAR env s).log = s.log := rfl

@[simp] theorem ret_fp (s : VMState) (env : Env) :
    (VMState.ret env s).fp = s.fp := rfl

@[simp] theorem ret_pc (s : VMState) (env : Env) :
    (VMState.ret env s).pc = s.pc := rfl

@[simp] theorem ret_frames (s : VMState) (env : Env) :
    (VMState.ret env s).frames = s.frames := rfl

@[simp] theorem ret_refCount (s : VMState) (env : Env) :
    (VMState.ret env s).refCount = s.refCount := rfl

@[simp] theorem ret_pendingException (s : VMState) (env : Env) :
    (VMState.ret env s).pendingException = s.pendingException := rfl

@[simp] theorem ret_tvRef (s : VMState) (env : Env) :
    (VMState.ret env s).tvRef = s.tvRef := rfl

@[simp] theorem ret_tvRef2 (s : VMState) (env : Env) :
    (VMState.ret env s).tvRef2 = s.tvRef2 := rfl

@[simp] theorem ret_debuggerAttached (s : VMState) (env : Env) :
    (VMState.ret env s).debuggerAttached = s.debuggerAttached := rfl

@[simp] theorem ret_log (s : VMState) (env : Env) :
    (VMState.ret env s).log = s.log := rfl

@[simp] theorem pushObjectNoRc_fp (s : VMState) (o : ObjId) :
    (s.pushObjectNoRc o).fp = s.fp := rfl

@[simp] theorem pushObjectNoRc_pc (s : VMState) (o : ObjId) :
    (s.pushObjectNoRc o).pc = s.pc := rfl

@[simp] theorem pushObjectNoRc_frames (s : VMState) (o : ObjId) :
    (s.pushObjectNoRc o).frames = s.frames := rfl

@[simp] theorem pushObjectNoRc_refCount (s : VMState) (o : ObjId) :
    (s.pushObjectNoRc o).refCount = s.refCount := rfl

@[simp] theorem pushObjectNoRc_pendingException (s : VMState) (o : ObjId) :
    (s.pushObjectNoRc o).pendingException = s.pendingException := rfl

@[simp] theorem pushObjectNoRc_tvRef (s : VMState) (o : ObjId) :
    (s.pushObjectNoRc o).tvRef = s.tvRef := rfl

@[simp] theorem pushObjectNoRc_tvRef2 (s : VMState) (o : ObjId) :
    (s.pushObjectNoRc o).tvRef2 = s.tvRef2 := rfl

@[simp] theorem pushObjectNoRc_debuggerAttached (s : VMState) (o : ObjId) :
    (s.pushObjectNoRc o).debuggerAttached = s.debuggerAttached := rfl

@[simp] theorem pushObjectNoRc_log (s : VMState) (o : ObjId) :
    (s.pushObjectNoRc o).log = s.log := rfl

@[simp] theorem writeRetSlot_fp (s : VMState) (env : Env) (fp : Int) (o : ObjId) :
    (VMState.writeRetSlot env s fp o).fp = s.fp := rfl

@[simp] theorem writeRetSlot_pc (s : VMState) (env : Env) (fp : Int) (o : ObjId) :
    (VMState.writeRetSlot env s fp o).pc = s.pc := rfl

@[simp] theorem writeRetSlot_frames (s : VMState) (env : Env) (fp : Int) (o : ObjId) :
    (VMState.writeRetSlot env s fp o).frames = s.frames := rfl

@[simp] theorem writeRetSlot_refCount (s : VMState) (env : Env) (fp : Int) (o : ObjId) :
    (VMState.writeRetSlot env s fp o).refCount = s.refCount := rfl

@[simp] theorem writeRetSlot_pendingException (s : VMState) (env : Env) (fp : Int) (o : ObjId) :
    (VMState.writeRetSlot env s fp o).pendingException = s.pendingException := rfl

@[simp] theorem writeRetSlot_tvRef (s : VMState) (env : Env) (fp : Int) (o : ObjId) :
    (VMState.writeRetSlot env s fp o).tvRef = s.tvRef := rfl

@[simp] theorem writeRetSlot_tvRef2 (s : VMState) (env : Env) (fp : Int) (o : ObjId) :
    (VMState.writeRetSlot env s fp o).tvRef2 = s.tvRef2 := rfl

@[simp] theorem writeRetSlot_debuggerAttached (s : VMState) (env : Env) (fp : Int) (o : ObjId) :
    (VMState.writeRetSlot env s fp o).debuggerAttached = s.debuggerAttached := rfl

@[simp] theorem writeRetSlot_log (s : VMState) (env : Env) (fp : Int) (o : ObjId) :
    (VMState.writeRetSlot env s fp o).log = s.log := rfl

@[simp] theorem popTV_fp (s : VMState)  :
    (s.popTV).fp = s.fp := by
  simp [VMState.popTV]

@[simp] theorem popTV_pc (s : VMState)  :
    (s.popTV).pc = s.pc := by
  simp [VMState.popTV]

@[simp] theorem popTV_frames (s : VMState)  :
    (s.popTV).frames = s.frames := by
  simp [VMState.popTV]

@[simp] theorem popTV_pendingException (s : VMState)  :
    (s.popTV).pendingException = s.pendingException := by
  simp [VMState.popTV]

@[simp] theorem popTV_tvRef (s : VMState)  :
    (s.popTV).tvRef = s.tvRef := by
  simp [VMState.popTV]

@[simp] theorem popTV_tvRef2 (s : VMState)  :
    (s.popTV).tvRef2 = s.tvRef2 := by
  simp [VMState.popTV]

@[simp] theorem popTV_debuggerAttached (s : VMState)  :
    (s.popTV).debuggerAttached = s.debuggerAttached := by
  simp [VMState.popTV]

@[simp] theorem popTVs_fp (s : VMState) (k : Nat) :
    (VMState.popTVs k s).fp = s.fp := by
  induction k generalizing s with
  | zero => rfl
  | succ k ih => simp [VMState.popTVs, ih]

@[simp] theorem popTVs_pc (s : VMState) (k : Nat) :
    (VMState.popTVs k s).pc = s.pc := by
  induction k generalizing s with
  | zero => rfl
  | succ k ih => simp [VMState.popTVs, ih]

@[simp] theorem popTVs_frames (s : VMState) (k : Nat) :
    (VMState.popTVs k s).frames = s.frames := by
  induction k generalizing s with
  | zero => rfl
  | succ k ih => simp [VMState.popTVs, ih]

@[simp] theorem popTVs_pendingException (s : VMState) (k : Nat) :
    (VMState.popTVs k s).pendingException = s.pendingException := by
  induction k generalizing s with
  | zero => rfl
  | succ k ih => simp [VMState.popTVs, ih]

@[simp] theorem popTVs_tvRef (s : VMState) (k : Nat) :
    (VMState.popTVs k s).tvRef = s.tvRef := by
  induction k generalizing s with
  | zero => rfl
  | succ k ih => simp [VMState.popTVs, ih]

@[simp] theorem popTVs_tvRef2 (s : VMState) (k : Nat) :
    (VMState.popTVs k s).tvRef2 = s.tvRef2 := by
  induction k generalizing s with
  | zero => rfl
  | succ k ih => simp [VMState.popTVs, ih]

@[simp] theorem popTVs_debuggerAttached (s : VMState) (k : Nat) :
    (VMState.popTVs k s).debuggerAttached = s.debuggerAttached := by
  induction k generalizing s with
  | zero => rfl
  | succ k ih => simp [VMState.popTVs, ih]

@[simp] theorem discardStackTemps_fp (s : VMState) (fp : Int) :
    (discardStackTemps s fp).fp = s.fp := by
  simp [discardStackTemps]

@[simp] theorem discardStackTemps_pc (s : VMState) (fp : Int) :
    (discardStackTemps s fp).pc = s.pc := by
  simp [discardStackTemps]

@[simp] theorem discardStackTemps_frames (s : VMState) (fp : Int) :
    (discardStackTemps s fp).frames = s.frames := by
  simp [discardStackTemps]

@[simp] theorem discardStackTemps_pendingException (s : VMState) (fp : Int) :
    (discardStackTemps s fp).pendingException = s.pendingException := by
  simp [discardStackTemps]

@[simp] theorem discardStackTemps_tvRef (s : VMState) (fp : Int) :
    (discardStackTemps s fp).tvRef = s.tvRef := by
  simp [discardStackTemps]

@[simp] theorem discardStackTemps_tvRef2 (s : VMState) (fp : Int) :
    (discardStackTemps s fp).tvRef2 = s.tvRef2 := by
  simp [discardStackTemps]

@[simp] theorem discardStackTemps_debuggerAttached (s : VMState) (fp : Int) :
    (discardStackTemps s fp).debuggerAttached = s.debuggerAttached := by
  simp [discardStackTemps]

@[simp] theorem lockObjectWhileUnwinding_fp (s : VMState) (env : Env) (pc : Int) :
    (lockObjectWhileUnwinding env s pc).fp = s.fp := by
  unfold lockObjectWhileUnwinding
  split
  · rfl
  · split <;> rfl

@[simp] theorem lockObjectWhileUnwinding_pc (s : VMState) (env : Env) (pc : Int) :
    (lockObjectWhileUnwinding env s pc).pc = s.pc := by
  unfold lockObjectWhileUnwinding
  split
  · rfl
  · split <;> rfl

@[simp] theorem lockObjectWhileUnwinding_stack (s : VMState) (env : Env) (pc : Int) :
    (lockObjectWhileUnwinding env s pc).stack = s.stack := by
  unfold lockObjectWhileUnwinding
  split
  · rfl
  · split <;> rfl

@[simp] theorem lockObjectWhileUnwinding_frames (s : VMState) (env : Env) (pc : Int) :
    (lockObjectWhileUnwinding env s pc).frames = s.frames := by
  unfold lockObjectWhileUnwinding
  split
  · rfl
  · split <;> rfl

@[simp] theorem lockObjectWhileUnwinding_refCount (s : VMState) (env : Env) (pc : Int) :
    (lockObjectWhileUnwinding env s pc).refCount = s.refCount := by
  unfold lockObjectWhileUnwinding
  split
  · rfl
  · split <;> rfl

@[simp] theorem lockObjectWhileUnwinding_pendingException (s : VMState) (env : Env) (pc : Int) :
    (lockObjectWhileUnwinding env s pc).pendingException = s.pendingException := by
  unfold lockObjectWhileUnwinding
  split
  · rfl
  · split <;> rfl

@[simp] theorem lockObjectWhileUnwinding_tvRef (s : VMState) (env : Env) (pc : Int) :
    (lockObjectWhileUnwinding env s pc).tvRef = s.tvRef := by
  unfold lockObjectWhileUnwinding
  split
  · rfl
  · split <;> rfl

@[simp] theorem lockObjectWhileUnwinding_tvRef2 (s : VMState) (env : Env) (pc : Int) :
    (lockObjectWhileUnwinding env s pc).tvRef2 = s.tvRef2 := by
  unfold lockObjectWhileUnwinding
  split
  · rfl
  · split <;> rfl

@[simp] theorem lockObjectWhileUnwinding_debuggerAttached (s : VMState) (env : Env) (pc : Int) :
    (lockObjectWhileUnwinding env s pc).debuggerAttached = s.debuggerAttached := by
  unfold lockObjectWhileUnwinding
  split
  · rfl
  · split <;> rfl

@[simp] theorem discardMemberTVRefs_fp (s : VMState) (env : Env) (pc : Int) :
    (discardMemberTVRefs env s pc).fp = s.fp := by
  simp only [discardMemberTVRefs]
  split <;> simp

@[simp] theorem discardMemberTVRefs_pc (s : VMState) (env : Env) (pc : Int) :
    (discardMemberTVRefs env s pc).pc = s.pc := by
  simp only [discardMemberTVRefs]
  split <;> simp

@[simp] theorem discardMemberTVRefs_stack (s : VMState) (env : Env) (pc : Int) :
    (discardMemberTVRefs env s pc).stack = s.stack := by
  simp only [discardMemberTVRefs]
  split <;> simp

@[simp] theorem discardMemberTVRefs_frames (s : VMState) (env : Env) (pc : Int) :
    (discardMemberTVRefs env s pc).frames = s.frames := by
  simp only [discardMemberTVRefs]
  split <;> simp

@[simp] theorem discardMemberTVRefs_pendingException (s : VMState) (env : Env) (pc : Int) :
    (discardMemberTVRefs env s pc).pendingException = s.pendingException := by
  simp only [discardMemberTVRefs]
  split <;> simp

@[simp] theorem discardMemberTVRefs_debuggerAttached (s : VMState) (env : Env) (pc : Int) :
    (discardMemberTVRefs env s pc).debuggerAttached = s.debuggerAttached := by
  simp only [discardMemberTVRefs]
  split <;> simp

@[simp] theorem discardMemberTVRefs_log (s : VMState) (env : Env) (pc : Int) :
    (discardMemberTVRefs env s pc).log = s.log := by
  simp only [discardMemberTVRefs]
  split <;> simp

@[simp] theorem emit_log (s : VMState) (e : Event) : (s.emit e).log = s.log ++ [e] := rfl

@[simp] theorem frame_free_locals_unwind_log (s : VMState) (fp : Int) (n : Nat)
    (e : Option ObjId) :
    (frame_free_locals_unwind s fp n e).log =
      s.log ++ [.frame_free_locals_unwind fp n e] := by
  simp [frame_free_locals_unwind]

@[simp] theorem decRefLocals_log (s : VMState) (fp : Int) (e : Option ObjId) :
    (decRefLocals s fp e).log = s.log ++ releaseEvents s fp e := by
  unfold decRefLocals releaseEvents
  by_cases h : (s.frames fp).localsDecRefd = true <;> simp [h]

@[simp] theorem decRefLocals_frames (s : VMState) (fp : Int) (e : Option ObjId) :
    (decRefLocals s fp e).frames = (s.setLocalsDecRefd fp).frames := by
  unfold decRefLocals
  by_cases h : (s.frames fp).localsDecRefd = true
  · simp only [h, Bool.not_true, Bool.false_eq_true, if_false]
    funext a
    by_cases ha : a = fp
    · subst ha
      simp only [VMState.setLocalsDecRefd, if_true]
      rw [← h]
    · simp [VMState.setLocalsDecRefd, ha]
  · simp [h]

theorem setLocalsDecRefd_frames_self (s : VMState) (fp : Int) :
    (s.setLocalsDecRefd fp).frames fp = { s.frames fp with localsDecRefd := true } := by
  simp [VMState.setLocalsDecRefd]

theorem setLocalsDecRefd_frames_ne (s : VMState) (fp a : Int) (h : a ≠ fp) :
    (s.setLocalsDecRefd fp).frames a = s.frames a := by
  simp [VMState.setLocalsDecRefd, h]

@[simp] theorem decRefObj_log (s : VMState) (o : ObjId) :
    (s.decRefObj o).log = s.log ++ [.decRefObj o] := rfl

@[simp] theorem incRefCount_log (s : VMState) (o : ObjId) :
    (s.incRefCount o).log = s.log ++ [.incRefCount o] := rfl

@[simp] theorem decRefCount_log (s : VMState) (o : ObjId) :
    (s.decRefCount o).log = s.log ++ [.decRefCount o] := rfl


@[simp] theorem releaseEvents_emit (s : VMState) (ev : Event) (fp : Int)
    (e : Option ObjId) : releaseEvents (s.emit ev) fp e = releaseEvents s fp e := rfl

theorem kind_asyncFunction {f : Func} (h : f.isAsyncFunction = true) :
    f.kind = FuncKind.asyncFunction := by
  simpa [Func.isAsyncFunction] using h

theorem kind_generator {f : Func} (h : f.isNonAsyncGenerator = true) :
    f.kind = FuncKind.generator := by
  simpa [Func.isNonAsyncGenerator] using h

/-- Claim C5. Eager async absorption: a frame on the stack (not resumed) of
an async function is torn down with the fault `exc` present, the stack top
being at the base of the frame as the driver leaves it. If eager return was
not requested or the function is a memoize wrapper, `tearDownFrame` returns
null, the stack top is the return slot of the frame, and that slot holds the
failed wait handle created from `exc` with the aux flag 0. If eager return
was requested and the function is not a memoize wrapper, the fault is
returned unchanged. -/
theorem tearDownFrame_eager_async (env : Env) (s : VMState) (fp : Int) (exc : ObjId)
    (hfp : s.fp = some fp) (hres : (s.frames fp).resumed = false)
    (hkind : (s.frames fp).func.isAsyncFunction = true)
    (hbase : s.stack.top = s.frameStackBase fp) :
    (((s.frames fp).isAsyncEagerReturn = false ∨
        (s.frames fp).func.isMemoizeImpl = true) →
      ∃ s2, tearDownFrame env s (some exc) = some (s2, none) ∧
        s2.stack.top = retSlot env fp ∧
        s2.stack.mem (retSlot env fp) = ⟨.obj (env.createFailed exc), 0⟩ ∧
        Event.CreateFailed exc (env.createFailed exc) ∈ s2.log ∧
        s2.fp = (s.frames fp).sfp) ∧
    (((s.frames fp).isAsyncEagerReturn = true ∧
        (s.frames fp).func.isMemoizeImpl = false) →
      ∃ s2, tearDownFrame env s (some exc) = some (s2, some exc) ∧
        s2.fp = (s.frames fp).sfp) := by
  have htop : s.stack.top = fp - (s.frames fp).func.numSlotsInFrame := by
    rw [hbase]; simp [VMState.frameStackBase, hres]
  constructor
  · intro hflag
    have hcond : (!(s.frames fp).isAsyncEagerReturn || (s.frames fp).func.isMemoizeImpl)
        = true := by
      rcases hflag with h | h <;> simp [h]
    cases hsfp : (s.frames fp).sfp with
    | none =>
      refine ⟨_, by
        simp only [tearDownFrame, hfp, tearDownKind, emit_frames, hres, hkind,
          decRefLocals_frames, setLocalsDecRefd_frames_self, hcond, hsfp]
        rfl, ?_, ?_, ?_, rfl⟩
      · simp [VMState.writeRetSlot, VMState.ret, VMState.ndiscard, retSlot, htop]
      · simp [VMState.writeRetSlot]
      · simp [VMState.ret, VMState.ndiscard]
    | some prev =>
      refine ⟨_, by
        simp only [tearDownFrame, hfp, tearDownKind, emit_frames, hres, hkind,
          decRefLocals_frames, setLocalsDecRefd_frames_self, hcond, hsfp]
        rfl, ?_, ?_, ?_, rfl⟩
      · simp [VMState.writeRetSlot, VMState.ret, VMState.ndiscard, retSlot, htop]
      · simp [VMState.writeRetSlot]
      · simp [VMState.ret, VMState.ndiscard]
  · rintro ⟨h1, h2⟩
    have hcond : (!(s.frames fp).isAsyncEagerReturn || (s.frames fp).func.isMemoizeImpl)
        = false := by simp [h1, h2]
    cases hsfp : (s.frames fp).sfp with
    | none =>
      exact ⟨_, by
        simp only [tearDownFrame, hfp, tearDownKind, emit_frames, hres, hkind,
          decRefLocals_frames, setLocalsDecRefd_frames_self, hcond, hsfp]
        rfl, rfl⟩
    | some prev =>
      exact ⟨_, by
        simp only [tearDownFrame, hfp, tearDownKind, emit_frames, hres, hkind,
          decRefLocals_frames, setLocalsDecRefd_frames_self, hcond, hsfp]
        rfl, rfl⟩

/-- An eagerly executed async function without a request for eager return,
torn down with the fault 7: the fault is absorbed and the return slot 51 holds
the failed wait handle 107. -/
theorem tearDownFrame_eager_async_witness :
    stateEagerAsync.fp = some 50 ∧
    (stateEagerAsync.frames 50).resumed = false ∧
    (stateEagerAsync.frames 50).func.isAsyncFunction = true ∧
    stateEagerAsync.stack.top = stateEagerAsync.frameStackBase 50 ∧
    ∃ s2, tearDownFrame exEnv stateEagerAsync (some 7) = some (s2, none) ∧
      s2.stack.top = retSlot exEnv 50 ∧
      s2.stack.mem (retSlot exEnv 50) = ⟨.obj (exEnv.createFailed 7), 0⟩ ∧
      Event.CreateFailed 7 (exEnv.createFailed 7) ∈ s2.log ∧
      s2.fp = (stateEagerAsync.frames 50).sfp :=
  ⟨rfl, rfl, rfl, by decide,
    (tearDownFrame_eager_async exEnv stateEagerAsync 50 7 rfl rfl rfl (by decide)).1
      (Or.inl rfl)⟩

/-- Claim C6, as the code has it. For every resumed frame of an async function
torn down with a fault `exc` present, `tearDownFrame` releases the locals of
the frame when they are not released yet (`localsDecRefd` clear) and leaves
them alone when they are, fails the wait handle of the frame with `exc`,
drops the reference to the wait handle once, and returns null with the caller
as the current frame and the stack unchanged. -/
theorem tearDownFrame_resumed_async (env : Env) (s : VMState) (fp : Int) (exc : ObjId)
    (hfp : s.fp = some fp) (hres : (s.frames fp).resumed = true)
    (hkind : (s.frames fp).func.isAsyncFunction = true) :
    ∃ s2, tearDownFrame env s (some exc) = some (s2, none) ∧
      s2.log = s.log ++ [.tearDownFrame fp] ++
        (if (s.frames fp).localsDecRefd then []
         else [.frame_free_locals_unwind fp (s.frames fp).func.numLocals (some exc)]) ++
        [.afwhFail (s.frames fp).resumable.obj exc,
         .decRefObj (s.frames fp).resumable.obj] ∧
      (s2.frames fp).localsDecRefd = true ∧
      s2.fp = (s.frames fp).sfp ∧
      s2.stack = s.stack := by
  cases hsfp : (s.frames fp).sfp with
  | none =>
    refine ⟨_, by
      simp only [tearDownFrame, hfp, tearDownKind, emit_frames, hres, hkind, hsfp]
      rfl, ?_, ?_, rfl, ?_⟩
    · simp [releaseEvents]
    · simp [setLocalsDecRefd_frames_self]
    · simp
  | some prev =>
    refine ⟨_, by
      simp only [tearDownFrame, hfp, tearDownKind, emit_frames, hres, hkind, hsfp]
      rfl, ?_, ?_, rfl, ?_⟩
    · simp [releaseEvents]
    · simp [setLocalsDecRefd_frames_self]
    · simp

/-- A resumed async function with unreleased locals, torn down with the
fault 7. -/
theorem tearDownFrame_resumed_async_witness :
    stateResumedAsync.fp = some 50 ∧
    (stateResumedAsync.frames 50).resumed = true ∧
    (stateResumedAsync.frames 50).func.isAsyncFunction = true ∧
    ∃ s2, tearDownFrame exEnv stateResumedAsync (some 7) = some (s2, none) ∧
      s2.log = stateResumedAsync.log ++ [.tearDownFrame 50] ++
        (if (stateResumedAsync.frames 50).localsDecRefd then []
         else [.frame_free_locals_unwind 50
            (stateResumedAsync.frames 50).func.numLocals (some 7)]) ++
        [.afwhFail (stateResumedAsync.frames 50).resumable.obj 7,
         .decRefObj (stateResumedAsync.frames 50).resumable.obj] ∧
      (s2.frames 50).localsDecRefd = true ∧
      s2.fp = (stateResumedAsync.frames 50).sfp ∧
      s2.stack = stateResumedAsync.stack :=
  ⟨rfl, rfl, rfl, tearDownFrame_resumed_async exEnv stateResumedAsync 50 7 rfl rfl rfl⟩

/-- Claim C6 as stated fails on a frame whose locals are already released: a
resumed async function with `localsDecRefd` set is torn down with the fault
7, the fault is absorbed, and the call logs the failure of the wait handle
and the dropped reference but no release of the locals. -/
theorem tearDownFrame_resumed_async_no_release :
    (stateResumedAsyncReleased.frames 50).resumed = true ∧
    (stateResumedAsyncReleased.frames 50).func.isAsyncFunction = true ∧
    (tearDownFrame exEnv stateResumedAsyncReleased (some 7)).map
        (fun r => (r.2, r.1.log)) =
      some (none, [.tearDownFrame 50, .afwhFail 9 7, .decRefObj 9]) := by
  decide

/-- Claim C7. Generator non-absorption: for every resumed frame of a
generator that is not async, with or without a fault, `tearDownFrame` marks
the generator finished (the last event of the call, after the release of the
locals when they are not released yet), and it returns the fault it was
given: the same object, or null when none was passed. -/
theorem tearDownFrame_generator (env : Env) (s : VMState) (fp : Int)
    (phpException : Option ObjId) (hfp : s.fp = some fp)
    (hres : (s.frames fp).resumed = true)
    (hkind : (s.frames fp).func.isNonAsyncGenerator = true) :
    ∃ s2, tearDownFrame env s phpException = some (s2, phpException) ∧
      s2.log = s.log ++ [.tearDownFrame fp] ++ releaseEvents s fp phpException ++
        [.generatorFail (s.frames fp).resumable.obj] ∧
      s2.fp = (s.frames fp).sfp := by
  have hk := kind_generator hkind
  have h1 : (s.frames fp).func.isAsyncFunction = false := by
    simp [Func.isAsyncFunction, hk]
  have h2 : (s.frames fp).func.isAsyncGenerator = false := by
    simp [Func.isAsyncGenerator, hk]
  cases hsfp : (s.frames fp).sfp with
  | none =>
    refine ⟨_, by
      simp only [tearDownFrame, hfp, tearDownKind, emit_frames, hres, hkind, h1, h2, hsfp]
      rfl, ?_, rfl⟩
    simp
  | some prev =>
    refine ⟨_, by
      simp only [tearDownFrame, hfp, tearDownKind, emit_frames, hres, hkind, h1, h2, hsfp]
      rfl, ?_, rfl⟩
    simp

/-- A resumed generator torn down with the fault 7: the generator is marked
finished and the fault 7 is returned. -/
theorem tearDownFrame_generator_witness :
    stateResumedGenerator.fp = some 50 ∧
    (stateResumedGenerator.frames 50).resumed = true ∧
    (stateResumedGenerator.frames 50).func.isNonAsyncGenerator = true ∧
    ∃ s2, tearDownFrame exEnv stateResumedGenerator (some 7) = some (s2, some 7) ∧
      s2.log = stateResumedGenerator.log ++ [.tearDownFrame 50] ++
        releaseEvents stateResumedGenerator 50 (some 7) ++
        [.generatorFail (stateResumedGenerator.frames 50).resumable.obj] ∧
      s2.fp = (stateResumedGenerator.frames 50).sfp :=
  ⟨rfl, rfl, rfl, tearDownFrame_generator exEnv stateResumedGenerator 50 (some 7) rfl rfl rfl⟩

theorem releaseCount_append (fp : Int) (l₁ l₂ : List Event) :
    releaseCount fp (l₁ ++ l₂) = releaseCount fp l₁ + releaseCount fp l₂ := by
  simp [releaseCount, List.countP_append]

theorem releaseCount_releaseEvents (s : VMState) (fp : Int) (e : Option ObjId) :
    releaseCount fp (releaseEvents s fp e) = if (s.frames fp).localsDecRefd then 0 else 1 := by
  unfold releaseEvents
  by_cases h : (s.frames fp).localsDecRefd = true <;> simp [h, releaseCount]

/-- One call of the kind-specific part of `tearDownFrame`: it ends unless the
frame is a resumed frame of a plain function, it releases the locals exactly
when the flag is clear and the path calls `decRefLocals`, and only then does
it change the frames, by setting the flag. -/
theorem tearDownKind_release (env : Env) (s : VMState) (fp : Int) (e : Option ObjId)
    (hvalid : (s.frames fp).resumed = true → (s.frames fp).func.kind ≠ FuncKind.plain) :
    ∃ s1 r1, tearDownKind env s fp e = some (s1, r1) ∧
      releaseCount fp s1.log = releaseCount fp s.log +
        (if (s.frames fp).localsDecRefd = false ∧ callsDecRefLocals (s.frames fp) e = true
          then 1 else 0) ∧
      s1.frames = (if callsDecRefLocals (s.frames fp) e = true
        then (s.setLocalsDecRefd fp).frames else s.frames) := by
  by_cases hres : (s.frames fp).resumed = true
  · have hk := hvalid hres
    cases hkind : (s.frames fp).func.kind with
    | plain => exact absurd hkind hk
    | asyncFunction =>
      cases e with
      | some exc =>
        refine ⟨_, _, by
          simp only [tearDownKind, hres, Func.isAsyncFunction, hkind]
          rfl, ?_, ?_⟩
        · simp only [emit_log, decRefObj_log, decRefLocals_log, pushObjectNoRc_log,
              releaseCount_append, releaseCount_releaseEvents]
          by_cases hf : (s.frames fp).localsDecRefd = true <;>
            simp [callsDecRefLocals, hres,
              Func.isAsyncFunction, hkind, hf, releaseCount]
        · simp [callsDecRefLocals, hres, Func.isAsyncFunction, hkind]
      | none =>
        by_cases hrun : (s.frames fp).resumable.isRunning = true
        · refine ⟨_, _, by
            simp only [tearDownKind, hres, Func.isAsyncFunction, hkind, hrun]
            rfl, ?_, ?_⟩
          · simp only [emit_log, decRefObj_log, decRefLocals_log, pushObjectNoRc_log,
                releaseCount_append, releaseCount_releaseEvents]
            by_cases hf : (s.frames fp).localsDecRefd = true <;>
              simp [callsDecRefLocals, hres,
                Func.isAsyncFunction, hkind, hf, releaseCount, hrun]
          · simp [callsDecRefLocals, hres, Func.isAsyncFunction, hkind, hrun]
        · refine ⟨_, _, by
            simp only [tearDownKind, hres, Func.isAsyncFunction, hkind, hrun]
            rfl, ?_, ?_⟩
          · simp [callsDecRefLocals, hres, Func.isAsyncFunction, hkind, hrun]
          · simp [callsDecRefLocals, hres, Func.isAsyncFunction, hkind, hrun]
    | asyncGenerator =>
      cases e with
      | some exc =>
        cases hfr : (s.frames fp).resumable.failResult with
        | none =>
          refine ⟨_, _, by
            simp only [tearDownKind, hres, Func.isAsyncFunction, Func.isAsyncGenerator,
              hkind, hfr]
            rfl, ?_, ?_⟩
          · simp only [emit_log, decRefObj_log, decRefLocals_log, pushObjectNoRc_log,
                releaseCount_append, releaseCount_releaseEvents]
            by_cases hf : (s.frames fp).localsDecRefd = true <;>
              simp [callsDecRefLocals, hres,
                Func.isAsyncFunction, Func.isAsyncGenerator, hkind, hf, releaseCount]
          · simp [callsDecRefLocals, hres, Func.isAsyncFunction, Func.isAsyncGenerator, hkind]
        | some r =>
          refine ⟨_, _, by
            simp only [tearDownKind, hres, Func.isAsyncFunction, Func.isAsyncGenerator,
              hkind, hfr]
            rfl, ?_, ?_⟩
          · simp only [emit_log, decRefObj_log, decRefLocals_log, pushObjectNoRc_log,
                releaseCount_append, releaseCount_releaseEvents]
            by_cases hf : (s.frames fp).localsDecRefd = true <;>
              simp [callsDecRefLocals, hres,
                Func.isAsyncFunction, Func.isAsyncGenerator, hkind, hf, releaseCount]
          · simp [callsDecRefLocals, hres, Func.isAsyncFunction, Func.isAsyncGenerator, hkind]
      | none =>
        by_cases hrun : ((s.frames fp).resumable.isEagerlyExecuted ||
            (s.frames fp).resumable.isRunning) = true
        · refine ⟨_, _, by
            simp only [tearDownKind, hres, Func.isAsyncFunction, Func.isAsyncGenerator,
              hkind, hrun]
            rfl, ?_, ?_⟩
          · simp only [emit_log, decRefObj_log, decRefLocals_log, pushObjectNoRc_log,
                releaseCount_append, releaseCount_releaseEvents]
            by_cases hf : (s.frames fp).localsDecRefd = true <;>
              simp [callsDecRefLocals, hres,
                Func.isAsyncFunction, Func.isAsyncGenerator, hkind, hf, releaseCount, hrun]
          · simp [callsDecRefLocals, hres, Func.isAsyncFunction, Func.isAsyncGenerator, hkind,
              hrun]
        · refine ⟨_, _, by
            simp only [tearDownKind, hres, Func.isAsyncFunction, Func.isAsyncGenerator,
              hkind, hrun]
            rfl, ?_, ?_⟩
          · simp [callsDecRefLocals, hres, Func.isAsyncFunction, Func.isAsyncGenerator, hkind,
              hrun]
          · simp [callsDecRefLocals, hres, Func.isAsyncFunction, Func.isAsyncGenerator, hkind,
              hrun]
    | generator =>
      refine ⟨_, _, by
        simp only [tearDownKind, hres, Func.isAsyncFunction, Func.isAsyncGenerator,
          Func.isNonAsyncGenerator, hkind]
        rfl, ?_, ?_⟩
      · simp only [emit_log, decRefObj_log, decRefLocals_log, pushObjectNoRc_log,
            releaseCount_append, releaseCount_releaseEvents]
        by_cases hf : (s.frames fp).localsDecRefd = true <;>
          simp [callsDecRefLocals, hres,
            Func.isAsyncFunction, Func.isAsyncGenerator, Func.isNonAsyncGenerator, hkind, hf,
            releaseCount]
      · simp [callsDecRefLocals, hres, Func.isAsyncFunction, Func.isAsyncGenerator,
          Func.isNonAsyncGenerator, hkind]
  · have hres2 : (s.frames fp).resumed = false := by simpa using hres
    have hcalls : callsDecRefLocals (s.frames fp) e = true := by
      simp [callsDecRefLocals, hres2]
    have hcount : ∀ l : List Event, releaseCount fp l = 0 →
        releaseCount fp ((s.log ++ releaseEvents s fp e) ++ l) = releaseCount fp s.log +
          (if (s.frames fp).localsDecRefd = false ∧
            callsDecRefLocals (s.frames fp) e = true then 1 else 0) := by
      intro l hl
      simp only [emit_log, decRefObj_log, decRefLocals_log, pushObjectNoRc_log,
          releaseCount_append, releaseCount_releaseEvents]
      by_cases hf : (s.frames fp).localsDecRefd = true <;>
        simp [hcalls, hf, hl]
    cases e with
    | none =>
      refine ⟨_, _, by
        simp only [tearDownKind, hres2]
        rfl, ?_, ?_⟩
      · simpa using hcount [] rfl
      · simp [hcalls]
    | some exc =>
      by_cases hc : ((s.frames fp).func.isAsyncFunction &&
          (!(s.frames fp).isAsyncEagerReturn || (s.frames fp).func.isMemoizeImpl)) = true
      · refine ⟨_, _, by
          simp only [tearDownKind, hres2, decRefLocals_frames, setLocalsDecRefd_frames_self, hc]
          rfl, ?_, ?_⟩
        · simpa [VMState.writeRetSlot, VMState.ret, VMState.ndiscard] using
            hcount [.CreateFailed exc (env.createFailed exc)] rfl
        · simp [hcalls]
      · refine ⟨_, _, by
          simp only [tearDownKind, hres2, decRefLocals_frames, setLocalsDecRefd_frames_self, hc]
          rfl, ?_, ?_⟩
        · simpa using hcount [] rfl
        · simp [hcalls]

/-- One call of `tearDownFrame` on the frame at `fp`: it ends, it releases
the locals exactly when the flag is clear and the path calls `decRefLocals`,
and it changes the frames only by setting the flag in that case. -/
theorem tearDownFrame_release (env : Env) (s : VMState) (fp : Int) (e : Option ObjId)
    (hfp : s.fp = some fp)
    (hvalid : (s.frames fp).resumed = true → (s.frames fp).func.kind ≠ FuncKind.plain) :
    ∃ s1 r1, tearDownFrame env s e = some (s1, r1) ∧
      releaseCount fp s1.log = releaseCount fp s.log +
        (if (s.frames fp).localsDecRefd = false ∧ callsDecRefLocals (s.frames fp) e = true
          then 1 else 0) ∧
      s1.frames = (if callsDecRefLocals (s.frames fp) e = true
        then (s.setLocalsDecRefd fp).frames else s.frames) := by
  obtain ⟨s1, r1, hk, hcount, hframes⟩ :=
    tearDownKind_release env (s.emit (.tearDownFrame fp)) fp e hvalid
  have hcount2 : releaseCount fp s1.log = releaseCount fp s.log +
      (if (s.frames fp).localsDecRefd = false ∧ callsDecRefLocals (s.frames fp) e = true
        then 1 else 0) := by
    rw [hcount]
    simp [releaseCount_append, releaseCount]
  cases hsfp : (s.frames fp).sfp with
  | none =>
    exact ⟨{ s1 with pc := none, fp := none }, r1,
      by simp only [tearDownFrame, hfp, hk, hsfp], hcount2, hframes⟩
  | some prev =>
    exact ⟨{ s1 with pc := some ((s1.frames prev).func.unit.at
        ((s.frames fp).callOffset + (s1.frames prev).func.base)), fp := some prev }, r1,
      by simp only [tearDownFrame, hfp, hk, hsfp], hcount2, hframes⟩

/-!
The unwind driver on a fault that propagates
-/

theorem tornDown_append (l₁ l₂ : List Event) :
    tornDown (l₁ ++ l₂) = tornDown l₁ ++ tornDown l₂ := by
  simp [tornDown, List.filterMap_append]

theorem refOps_append (o : ObjId) (l₁ l₂ : List Event) :
    refOps o (l₁ ++ l₂) = refOps o l₁ ++ refOps o l₂ := by
  simp [refOps, List.filter_append]

theorem tornDown_releaseEvents (s : VMState) (fp : Int) (e : Option ObjId) :
    tornDown (releaseEvents s fp e) = [] := by
  unfold releaseEvents
  split <;> simp [tornDown]

theorem refOps_releaseEvents (o : ObjId) (s : VMState) (fp : Int) (e : Option ObjId) :
    refOps o (releaseEvents s fp e) = [] := by
  unfold releaseEvents
  split <;> simp [refOps]

@[simp] theorem popTV_stack_mem (s : VMState) : s.popTV.stack.mem = s.stack.mem := by
  simp [VMState.popTV]

@[simp] theorem popTV_stack_top (s : VMState) : s.popTV.stack.top = s.stack.top + 1 := by
  simp [VMState.popTV]

@[simp] theorem popTV_log (s : VMState) : s.popTV.log = s.log ++ [.popTV s.stack.top] := by
  simp [VMState.popTV]

theorem addRef_refCount_ne (s : VMState) (o p : ObjId) (d : Int) (h : o ≠ p) :
    (s.addRef p d).refCount o = s.refCount o := by
  simp [VMState.addRef, h]

theorem tvDecRefGen_refCount_ne (s : VMState) (v : TypedValue) (o : ObjId)
    (h : v ≠ .obj o) : (s.tvDecRefGen v).refCount o = s.refCount o := by
  cases v with
  | obj p =>
    have hne : o ≠ p := fun he => h (by rw [he])
    simp [VMState.tvDecRefGen, VMState.addRef, hne]
  | uninit => rfl
  | null => rfl
  | int i => rfl

theorem popTV_refCount (s : VMState) (o : ObjId)
    (h : ∀ a, (s.stack.mem a).val ≠ .obj o) : s.popTV.refCount o = s.refCount o := by
  simp [VMState.popTV, VMState.emit, tvDecRefGen_refCount_ne s _ o (h _)]

theorem popTVs_stack_mem (k : Nat) : ∀ s : VMState,
    (VMState.popTVs k s).stack.mem = s.stack.mem := by
  induction k with
  | zero => intro s; rfl
  | succ k ih => intro s; simp [VMState.popTVs, ih]

theorem popTVs_tornDown (k : Nat) : ∀ s : VMState,
    tornDown (VMState.popTVs k s).log = tornDown s.log := by
  induction k with
  | zero => intro s; rfl
  | succ k ih =>
    intro s
    simp only [VMState.popTVs]
    rw [ih, popTV_log, tornDown_append]
    simp [tornDown]

theorem popTVs_refOps (o : ObjId) (k : Nat) : ∀ s : VMState,
    refOps o (VMState.popTVs k s).log = refOps o s.log := by
  induction k with
  | zero => intro s; rfl
  | succ k ih =>
    intro s
    simp only [VMState.popTVs]
    rw [ih, popTV_log, refOps_append]
    simp [refOps]

theorem popTVs_refCount (o : ObjId) (k : Nat) : ∀ s : VMState,
    (∀ a, (s.stack.mem a).val ≠ .obj o) →
    (VMState.popTVs k s).refCount o = s.refCount o := by
  induction k with
  | zero => intro s _; rfl
  | succ k ih =>
    intro s h
    simp only [VMState.popTVs]
    rw [ih s.popTV (by simpa using h), popTV_refCount s o h]

theorem releaseAll_refCount (o : ObjId) (vs : List TypedValue) : ∀ s : VMState,
    TypedValue.obj o ∉ vs → (VMState.releaseAll vs s).refCount o = s.refCount o := by
  induction vs with
  | nil => intro s _; rfl
  | cons v vs ih =>
    intro s h
    simp only [VMState.releaseAll]
    rw [ih _ (fun hm => h (List.mem_cons_of_mem _ hm)),
      tvDecRefGen_refCount_ne s v o (fun he => h (he ▸ List.mem_cons_self _ _))]

theorem decRefLocals_refCount (s : VMState) (fp : Int) (e : Option ObjId) (o : ObjId)
    (h : TypedValue.obj o ∉ (s.frames fp).locals) :
    (decRefLocals s fp e).refCount o = s.refCount o := by
  unfold decRefLocals
  split
  · unfold frame_free_locals_unwind
    rw [releaseAll_refCount]
    · rfl
    · intro hm
      apply h
      have := List.mem_of_mem_take hm
      simpa [setLocalsDecRefd_frames_self] using this
  · rfl

theorem Extends.refl (s : VMState) : Extends s s :=
  ⟨rfl, rfl, Or.inl rfl, Or.inl rfl, fun _ => Or.inl rfl⟩

theorem Extends.trans {s t u : VMState} (h₁ : Extends s t) (h₂ : Extends t u) :
    Extends s u := by
  obtain ⟨a1, a2, a3, a4, a5⟩ := h₁
  obtain ⟨b1, b2, b3, b4, b5⟩ := h₂
  refine ⟨b1.trans a1, b2.trans a2, ?_, ?_, ?_⟩
  · rcases b3 with hb | hb
    · rw [hb]; exact a3
    · exact Or.inr hb
  · rcases b4 with hb | hb
    · rw [hb]; exact a4
    · exact Or.inr hb
  intro a
  rcases b5 a with hb | hb <;> rcases a5 a with ha | ha
  · exact Or.inl (hb.trans ha)
  · exact Or.inr (hb.trans ha)
  · exact Or.inr (by rw [hb, ha])
  · exact Or.inr (by rw [hb, ha])

theorem Extends.holdsNo {s t : VMState} (h : Extends s t) (o : ObjId)
    (hs : HoldsNo s o) : HoldsNo t o := by
  obtain ⟨_, a2, a3, a4, a5⟩ := h
  obtain ⟨h1, h2, h3, h4⟩ := hs
  refine ⟨by rw [a2]; exact h1, ?_, ?_, ?_⟩
  · intro f
    rcases a5 f with hf | hf
    · rw [hf]; exact h2 f
    · rw [hf]; exact h2 f
  · rcases a3 with ha | ha
    · rw [ha]; exact h3
    · rw [ha]; simp
  · rcases a4 with ha | ha
    · rw [ha]; exact h4
    · rw [ha]; simp

theorem Extends.sfp {s t : VMState} (h : Extends s t) (a : Int) :
    (t.frames a).sfp = (s.frames a).sfp := by
  rcases h.2.2.2.2 a with hf | hf <;> rw [hf]

theorem Extends.passesFault {s t : VMState} (h : Extends s t) (a : Int) :
    passesFault (t.frames a) = passesFault (s.frames a) := by
  rcases h.2.2.2.2 a with hf | hf
  · rw [hf]
  · rw [hf]; rfl

theorem Extends.callerPc {s t : VMState} (h : Extends s t) (f g : Int) :
    callerPc t f g = callerPc s f g := by
  unfold HPHP.callerPc
  rcases h.2.2.2.2 f with hf | hf <;> rcases h.2.2.2.2 g with hg | hg <;> rw [hf, hg]

theorem Extends.noHandlerAt {s t : VMState} (h : Extends s t) (f pc : Int)
    (hn : noHandlerAt s f pc = true) : noHandlerAt t f pc = true := by
  unfold HPHP.noHandlerAt at hn ⊢
  rw [h.1]
  rcases h.2.2.2.2 f with hf | hf
  · rw [hf]; exact hn
  · rw [hf]; simp

theorem Extends.propagates {s t : VMState} (h : Extends s t) (target : Option Int)
    (fs : List Int) : ∀ pc, propagates s target fs pc = true →
      propagates t target fs pc = true := by
  induction fs with
  | nil => intro pc hp; simp [HPHP.propagates] at hp
  | cons f rest ih =>
    cases rest with
    | nil =>
      intro pc hp
      simp only [HPHP.propagates, Bool.and_eq_true] at hp ⊢
      exact ⟨⟨h.noHandlerAt f pc hp.1.1, by rw [h.passesFault]; exact hp.1.2⟩,
        by rw [h.sfp]; exact hp.2⟩
    | cons g rest =>
      intro pc hp
      simp only [HPHP.propagates, Bool.and_eq_true] at hp ⊢
      obtain ⟨⟨⟨⟨h1, h2⟩, h3⟩, h4⟩, h5⟩ := hp
      exact ⟨⟨⟨⟨h.noHandlerAt f pc h1, by rw [h.passesFault]; exact h2⟩,
        by rw [h.sfp]; exact h3⟩, h4⟩, by rw [h.callerPc]; exact ih _ h5⟩

theorem setLocalsDecRefd_frames_cases (s : VMState) (fp a : Int) :
    (s.setLocalsDecRefd fp).frames a = s.frames a ∨
    (s.setLocalsDecRefd fp).frames a = { s.frames a with localsDecRefd := true } := by
  by_cases h : a = fp
  · right; simp [VMState.setLocalsDecRefd, h]
  · left; simp [VMState.setLocalsDecRefd, h]

theorem setLocalsDecRefd_frames_func (s : VMState) (fp a : Int) :
    ((s.setLocalsDecRefd fp).frames a).func = (s.frames a).func := by
  rcases setLocalsDecRefd_frames_cases s fp a with h | h <;> rw [h]

theorem passesFault_on_stack {ar : ActRec} (hres : ar.resumed = false)
    (hpass : passesFault ar = true) :
    (ar.func.isAsyncFunction && (!ar.isAsyncEagerReturn || ar.func.isMemoizeImpl)) = false := by
  unfold passesFault at hpass
  simp only [hres, Bool.not_false, if_true] at hpass
  cases h1 : ar.func.isAsyncFunction <;> cases h2 : ar.isAsyncEagerReturn <;>
    cases h3 : ar.func.isMemoizeImpl <;> simp_all

/-- The kind-specific part of `tearDownFrame` on a frame that passes the
fault on: it returns the fault, sets the flag `localsDecRefd` of the frame
and leaves the memory of the stack alone. -/
theorem tearDownKind_passes (env : Env) (s : VMState) (f : Int) (exc : ObjId)
    (hpass : passesFault (s.frames f) = true) :
    ∃ s1, tearDownKind env s f (some exc) = some (s1, some exc) ∧
      s1.frames = (s.setLocalsDecRefd f).frames ∧
      s1.pendingException = s.pendingException ∧
      s1.stack.mem = s.stack.mem ∧ s1.tvRef = s.tvRef ∧ s1.tvRef2 = s.tvRef2 ∧
      tornDown s1.log = tornDown s.log ∧
      refOps exc s1.log = refOps exc s.log ∧
      (TypedValue.obj exc ∉ (s.frames f).locals → s1.refCount exc = s.refCount exc) := by
  by_cases hres : (s.frames f).resumed = true
  · have hgen : (s.frames f).func.isNonAsyncGenerator = true := by
      simpa [passesFault, hres] using hpass
    have hk := kind_generator hgen
    have h1 : (s.frames f).func.isAsyncFunction = false := by
      simp [Func.isAsyncFunction, hk]
    have h2 : (s.frames f).func.isAsyncGenerator = false := by
      simp [Func.isAsyncGenerator, hk]
    refine ⟨_, by
      simp only [tearDownKind, hres, hgen, h1, h2]
      rfl, ?_, ?_, ?_, ?_, ?_, ?_, ?_, ?_⟩
    · simp
    · simp
    · simp
    · simp
    · simp
    · simp only [emit_log, decRefLocals_log, tornDown_append, tornDown_releaseEvents]
      simp [tornDown]
    · simp only [emit_log, decRefLocals_log, refOps_append, refOps_releaseEvents]
      simp [refOps]
    · intro hl
      simp [decRefLocals_refCount s f _ exc hl]
  · have hres2 : (s.frames f).resumed = false := by simpa using hres
    have hc := passesFault_on_stack hres2 hpass
    refine ⟨_, by
      simp only [tearDownKind, hres2, decRefLocals_frames, setLocalsDecRefd_frames_self, hc]
      rfl, ?_, ?_, ?_, ?_, ?_, ?_, ?_, ?_⟩
    · simp
    · simp
    · simp [VMState.ndiscard, VMState.discardAR]
    · simp
    · simp
    · simp [tornDown_append, tornDown_releaseEvents]
    · simp [refOps_append, refOps_releaseEvents]
    · intro hl
      simp [decRefLocals_refCount s f _ exc hl]

/-- The function `tearDownFrame` on a frame that passes the fault on. -/
theorem tearDownFrame_passes (env : Env) (s : VMState) (f : Int) (exc : ObjId)
    (hfp : s.fp = some f) (hpass : passesFault (s.frames f) = true) :
    ∃ s2, tearDownFrame env s (some exc) = some (s2, some exc) ∧
      s2.fp = (s.frames f).sfp ∧
      s2.pc = (s.frames f).sfp.map (callerPc s f) ∧
      Extends s s2 ∧
      s2.stack.top = (if (s.frames f).resumed then s.stack.top
        else s.stack.top + (s.frames f).func.numSlotsInFrame + env.kNumActRecCells +
          numInOut (s.frames f).func (s.frames f).numArgs) ∧
      tornDown s2.log = tornDown s.log ++ [f] ∧
      refOps exc s2.log = refOps exc s.log ∧
      (TypedValue.obj exc ∉ (s.frames f).locals → s2.refCount exc = s.refCount exc) := by
  obtain ⟨s1, hk, hfr, hpe, hmem, htv, htv2, htd, hro, hrc⟩ :=
    tearDownKind_passes env (s.emit (.tearDownFrame f)) f exc hpass
  have hext : ∀ a, s1.frames a = s.frames a ∨
      s1.frames a = { s.frames a with localsDecRefd := true } := by
    intro a
    rw [hfr]
    exact setLocalsDecRefd_frames_cases _ f a
  have htd2 : tornDown s1.log = tornDown s.log ++ [f] := by
    rw [htd]; simp [tornDown_append, tornDown]
  have hro2 : refOps exc s1.log = refOps exc s.log := by
    rw [hro]; simp [refOps_append, refOps]
  have htop : s1.stack.top = (if (s.frames f).resumed then s.stack.top
        else s.stack.top + (s.frames f).func.numSlotsInFrame + env.kNumActRecCells +
          numInOut (s.frames f).func (s.frames f).numArgs) := by
    have hk2 := hk
    by_cases hres : (s.frames f).resumed = true
    · have hgen : (s.frames f).func.isNonAsyncGenerator = true := by
        simpa [passesFault, hres] using hpass
      have hkd := kind_generator hgen
      simp only [tearDownKind, emit_frames, hres, hgen, Func.isAsyncFunction,
        Func.isAsyncGenerator, hkd] at hk2
      simp only [Bool.not_true, Bool.false_eq_true, if_false] at hk2
      have := congrArg (fun r => r.map (fun q => q.1.stack.top)) hk2
      simp at this
      simp [hres, ← this]
    · have hres2 : (s.frames f).resumed = false := by simpa using hres
      have hc := passesFault_on_stack hres2 hpass
      simp only [tearDownKind, emit_frames, hres2, decRefLocals_frames,
        setLocalsDecRefd_frames_self, hc] at hk2
      have := congrArg (fun r => r.map (fun q => q.1.stack.top)) hk2
      simp [VMState.ndiscard, VMState.discardAR] at this
      simp [hres2, ← this]
  cases hsfp : (s.frames f).sfp with
  | none =>
    exact ⟨{ s1 with pc := none, fp := none }, by simp only [tearDownFrame, hfp, hk, hsfp],
      rfl, rfl, ⟨hpe, hmem, Or.inl htv, Or.inl htv2, hext⟩, htop, htd2, hro2, hrc⟩
  | some prev =>
    refine ⟨{ s1 with pc := some ((s1.frames prev).func.unit.at
        ((s.frames f).callOffset + (s1.frames prev).func.base)), fp := some prev },
      by simp only [tearDownFrame, hfp, hk, hsfp], rfl, ?_,
      ⟨hpe, hmem, Or.inl htv, Or.inl htv2, hext⟩, htop, htd2, hro2, hrc⟩
    simp only [Option.map_some', callerPc, hfr]
    rw [setLocalsDecRefd_frames_func]
    rfl

theorem discardStackTemps_extends (s : VMState) (f : Int) :
    Extends s (discardStackTemps s f) :=
  ⟨by simp, by simp [discardStackTemps, popTVs_stack_mem], Or.inl (by simp),
    Or.inl (by simp), fun a => Or.inl (by simp)⟩

theorem lockObjectWhileUnwinding_extends (env : Env) (s : VMState) (pc : Int) :
    Extends s (lockObjectWhileUnwinding env s pc) :=
  ⟨by simp, by simp, Or.inl (by simp), Or.inl (by simp), fun a => Or.inl (by simp)⟩

theorem lockObjectWhileUnwinding_tornDown (env : Env) (s : VMState) (pc : Int) :
    tornDown (lockObjectWhileUnwinding env s pc).log = tornDown s.log := by
  unfold lockObjectWhileUnwinding
  split
  · rfl
  · split
    · rfl
    · simp [tornDown_append, tornDown]

theorem lockObjectWhileUnwinding_refOps (env : Env) (s : VMState) (pc : Int) (o : ObjId) :
    refOps o (lockObjectWhileUnwinding env s pc).log = refOps o s.log := by
  unfold lockObjectWhileUnwinding
  split
  · rfl
  · split
    · rfl
    · simp [refOps_append, refOps]

/-- One iteration of the loop of `unwindVM` in a frame with no handler to
enter: the stack temporaries are discarded and the frame is torn down. -/
theorem unwindLoop_step (env : Env) (exception : Fault) (target : Option Int) (fuel : Nat)
    (s : VMState) (f pc : Int) (exc : ObjId) (hfp : s.fp = some f) (hpc : s.pc = some pc)
    (hno : noHandlerAt s f pc = true) :
    unwindLoop env exception target (fuel + 1) s (some exc) =
      match tearDownFrame env (discardStackTemps s f) (some exc) with
      | none => some (discardStackTemps s f, .undefined)
      | some (s2, phpException2) =>
        if exception.left ≠ phpException2 then
          match s2.fp with
          | some _ =>
            some ((if target.isNone then { s2 with pc := s2.pc.map (skipCall env) } else s2),
              .returned (UnwindSkipCall ||| UnwindFSWH))
          | none => some (s2, .returned (UnwindNone ||| UnwindFSWH))
        else if s2.fp.isNone || (target.isSome && s2.fp == target) then
          some (unwindFinish s2 exception phpException2)
        else
          match s2.pc with
          | none => some (s2, .undefined)
          | some pc2 =>
            unwindLoop env exception target fuel (lockObjectWhileUnwinding env s2 pc2)
              phpException2 := by
  have heh : (if (!(discardStackTemps s f).pendingException && (some exc).isSome &&
        !((discardStackTemps s f).frames f).localsDecRefd) = true then
      (s.frames f).func.findEH ((s.frames f).func.unit.offsetOf pc) else none) = none := by
    simp only [discardStackTemps_pendingException, discardStackTemps_frames]
    unfold noHandlerAt at hno
    cases hp : s.pendingException <;> cases hl : (s.frames f).localsDecRefd <;>
      simp_all
  rw [unwindLoop]
  simp only [hfp, hpc]
  rw [heh]

/-- The loop of `unwindVM` on a fault that propagates through the frames `fs`
up to `target`: with at least as much fuel as there are frames in `fs`, the
loop is left with `break` in a state whose frame register is `target`, after
tearing down the frames of `fs` in order and nothing else, without any
reference count operation of the unwinder on the fault. -/
theorem unwindLoop_propagates (env : Env) (exc : ObjId) (target : Option Int) :
    ∀ (fs : List Int) (s : VMState) (pc : Int) (fuel : Nat),
      s.fp = fs.head? → s.pc = some pc → propagates s target fs pc = true →
      fs.length ≤ fuel →
      ∃ s2, unwindLoop env (.php exc) target fuel s (some exc) =
          some (unwindFinish s2 (.php exc) (some exc)) ∧
        s2.fp = target ∧ (target = none → s2.pc = none) ∧ Extends s s2 ∧
        tornDown s2.log = tornDown s.log ++ fs ∧
        refOps exc s2.log = refOps exc s.log ∧
        (HoldsNo s exc → s2.refCount exc = s.refCount exc) := by
  intro fs
  induction fs with
  | nil => intro s pc fuel _ _ hp; simp [propagates] at hp
  | cons f rest ih =>
    intro s pc fuel hfp hpc hp hfuel
    have hfp2 : s.fp = some f := by simpa using hfp
    obtain ⟨fuel, rfl⟩ : ∃ k, fuel = k + 1 :=
      ⟨fuel - 1, by simp only [List.length_cons] at hfuel; omega⟩
    have hno : noHandlerAt s f pc = true := by
      cases rest <;> simp only [propagates, Bool.and_eq_true] at hp
      · exact hp.1.1
      · exact hp.1.1.1.1
    have hpass : passesFault (s.frames f) = true := by
      cases rest <;> simp only [propagates, Bool.and_eq_true] at hp
      · exact hp.1.2
      · exact hp.1.1.1.2
    have hext1 := discardStackTemps_extends s f
    obtain ⟨s2, htd, hfp3, hpc3, hext2, _, hlog, hro, hrc⟩ :=
      tearDownFrame_passes env (discardStackTemps s f) f exc (by simpa using hfp2)
        (by simpa using hpass)
    have hext : Extends s s2 := hext1.trans hext2
    have hlog2 : tornDown s2.log = tornDown s.log ++ [f] := by
      rw [hlog]; simp [discardStackTemps, popTVs_tornDown]
    have hro2 : refOps exc s2.log = refOps exc s.log := by
      rw [hro]; simp [discardStackTemps, popTVs_refOps]
    have hrc2 : HoldsNo s exc → s2.refCount exc = s.refCount exc := by
      intro hh
      rw [hrc (by simpa using hh.2.1 f)]
      simp [discardStackTemps, popTVs_refCount exc _ s hh.1]
    rw [unwindLoop_step env (.php exc) target fuel s f pc exc hfp2 hpc hno, htd]
    simp only [Fault.left, ne_eq, not_true_eq_false, if_false]
    cases rest with
    | nil =>
      have hsfp : (s.frames f).sfp = target := by
        simp only [propagates, Bool.and_eq_true, beq_iff_eq] at hp
        exact hp.2
      have hfp4 : s2.fp = target := by
        rw [hfp3]; simpa using hsfp
      have hbreak : (s2.fp.isNone || (target.isSome && s2.fp == target)) = true := by
        rw [hfp4]; cases target <;> simp
      refine ⟨s2, by simp only [hbreak, if_true], hfp4, ?_, hext, hlog2, hro2, hrc2⟩
      intro ht
      rw [hpc3]
      have : (s.frames f).sfp = none := by rw [hsfp, ht]
      simp [this]
    | cons g rest =>
      simp only [propagates, Bool.and_eq_true, beq_iff_eq, bne_iff_ne, ne_eq] at hp
      obtain ⟨⟨⟨_, hsfp⟩, hne⟩, hrest⟩ := hp
      have hfp4 : s2.fp = some g := by
        rw [hfp3]; simpa using hsfp
      have hpc4 : s2.pc = some (callerPc s f g) := by
        rw [hpc3]
        have hs : ((discardStackTemps s f).frames f).sfp = some g := by simpa using hsfp
        rw [hs]
        simp [callerPc]
      have hcont : (s2.fp.isNone || (target.isSome && s2.fp == target)) = false := by
        rw [hfp4]
        cases target with
        | none => simp
        | some t =>
          have : g ≠ t := fun he => hne (by rw [he])
          simp [this]
      simp only [hcont, Bool.false_eq_true, if_false, hpc4]
      have hext3 := hext.trans (lockObjectWhileUnwinding_extends env s2 (callerPc s f g))
      obtain ⟨s3, hloop, hfp5, hpc5, hext4, hlog3, hro3, hrc3⟩ :=
        ih (lockObjectWhileUnwinding env s2 (callerPc s f g)) (callerPc s f g) fuel
          (by simpa using hfp4) (by simpa using hpc4)
          (hext3.propagates target _ _ hrest)
          (by simp only [List.length_cons] at hfuel ⊢; omega)
      refine ⟨s3, hloop, hfp5, hpc5, hext3.trans hext4, ?_, ?_, ?_⟩
      · rw [hlog3, lockObjectWhileUnwinding_tornDown, hlog2]
        simp
      · rw [hro3, lockObjectWhileUnwinding_refOps, hro2]
      · intro hh
        rw [hrc3 (hext3.holdsNo exc hh)]
        simp [hrc2 hh]

theorem propagates_linked (s : VMState) (target : Option Int) (fs : List Int) :
    ∀ pc, propagates s target fs pc = true → linked s target fs = true := by
  induction fs with
  | nil => intro pc hp; simp [propagates] at hp
  | cons f rest ih =>
    cases rest with
    | nil =>
      intro pc hp
      simp only [propagates, Bool.and_eq_true] at hp
      simpa [linked] using hp.2
    | cons g rest =>
      intro pc hp
      simp only [propagates, Bool.and_eq_true] at hp
      simp only [linked, Bool.and_eq_true]
      exact ⟨⟨hp.1.1.2, hp.1.2⟩, ih _ hp.2⟩

theorem linked_unique (s : VMState) (target : Option Int) (l₁ : List Int) :
    ∀ (f : Int) (l₂ : List Int), linked s target (f :: l₁) = true →
      linked s target (f :: l₂) = true → l₁ = l₂ := by
  induction l₁ with
  | nil =>
    intro f l₂ h₁ h₂
    cases l₂ with
    | nil => rfl
    | cons g r =>
      simp only [linked, Bool.and_eq_true, beq_iff_eq, bne_iff_ne, ne_eq] at h₁ h₂
      exact absurd (h₂.1.1.symm.trans h₁) h₂.1.2
  | cons g r ih =>
    intro f l₂ h₁ h₂
    cases l₂ with
    | nil =>
      simp only [linked, Bool.and_eq_true, beq_iff_eq, bne_iff_ne, ne_eq] at h₁ h₂
      exact absurd (h₁.1.1.symm.trans h₂) h₁.1.2
    | cons g2 r2 =>
      simp only [linked, Bool.and_eq_true, beq_iff_eq, bne_iff_ne, ne_eq] at h₁ h₂
      have hg : g = g2 := Option.some.inj (h₁.1.1.symm.trans h₂.1.1)
      subst hg
      rw [ih g r2 h₁.2 h₂.2]

theorem linked_suffix (s : VMState) (target : Option Int) (fs : List Int) :
    linked s target fs = true → ∀ x ∈ fs,
      ∃ l, linked s target (x :: l) = true ∧ (x :: l).length ≤ fs.length := by
  induction fs with
  | nil => intro h; simp [linked] at h
  | cons f rest ih =>
    intro h x hx
    rcases List.mem_cons.mp hx with hxf | hxr
    · subst hxf
      exact ⟨rest, h, le_refl _⟩
    · cases rest with
      | nil => simp at hxr
      | cons g r =>
        have hr : linked s target (g :: r) = true := by
          simp only [linked, Bool.and_eq_true] at h
          exact h.2
        obtain ⟨l, hl, hlen⟩ := ih hr x hxr
        exact ⟨l, hl, by simp only [List.length_cons] at hlen ⊢; omega⟩

theorem linked_nodup (s : VMState) (target : Option Int) (fs : List Int) :
    linked s target fs = true → fs.Nodup := by
  induction fs with
  | nil => intro h; simp [linked] at h
  | cons f rest ih =>
    intro h
    cases rest with
    | nil => simp
    | cons g r =>
      have hr : linked s target (g :: r) = true := by
        simp only [linked, Bool.and_eq_true] at h
        exact h.2
      refine List.nodup_cons.mpr ⟨?_, ih hr⟩
      intro hmem
      obtain ⟨l, hl, hlen⟩ := linked_suffix s target _ hr f hmem
      have := linked_unique s target l f (g :: r) hl h
      rw [this] at hlen
      simp only [List.length_cons] at hlen
      omega

theorem linked_tail_ne (s : VMState) (t : Int) (fs : List Int) :
    linked s (some t) fs = true → ∀ x ∈ fs.tail, x ≠ t := by
  induction fs with
  | nil => intro h; simp [linked] at h
  | cons f rest ih =>
    intro h x hx
    cases rest with
    | nil => simp at hx
    | cons g r =>
      simp only [linked, Bool.and_eq_true, bne_iff_ne, ne_eq] at h
      rcases List.mem_cons.mp (by simpa using hx) with hxg | hxr
      · subst hxg
        exact fun he => h.1.2 (by rw [he])
      · exact ih h.2 x (by simpa using hxr)

theorem discardMemberTVRefs_extends (env : Env) (s : VMState) (pc : Int) :
    Extends s (discardMemberTVRefs env s pc) := by
  refine ⟨by simp, by simp, ?_, ?_, fun a => Or.inl (by simp)⟩
  · simp only [discardMemberTVRefs]
    split
    · right; simp
    · left; rfl
  · simp only [discardMemberTVRefs]
    split
    · right; rfl
    · left; rfl

theorem discardMemberTVRefs_refCount (env : Env) (s : VMState) (pc : Int) (o : ObjId)
    (h1 : s.tvRef ≠ .obj o) (h2 : s.tvRef2 ≠ .obj o) :
    (discardMemberTVRefs env s pc).refCount o = s.refCount o := by
  simp only [discardMemberTVRefs]
  split
  · simp only []
    rw [tvDecRefGen_refCount_ne _ _ o (by simpa using h2)]
    simp [tvDecRefGen_refCount_ne s _ o h1]
  · rfl

/-- The function `unwindVM` on a fault that propagates through the frames
`fs` up to `target`: the common part of the bounded unwind and of the
exhaustion of the nesting level. -/
theorem unwindVM_propagates (env : Env) (s : VMState) (exc : ObjId) (target : Option Int)
    (fs : List Int) (pc : Int) (fuel : Nat) (hfp : s.fp = fs.head?) (hpc : s.pc = some pc)
    (hp : propagates s target fs pc = true) (hfuel : fs.length ≤ fuel) :
    ∃ s2, unwindVM env fuel s (.php exc) target =
        some (unwindFinish s2 (.php exc) (some exc)) ∧
      s2.fp = target ∧ (target = none → s2.pc = none) ∧
      tornDown s2.log = tornDown s.log ++ fs ∧
      refOps exc s2.log = refOps exc s.log ++ [.incRefCount exc] ∧
      (HoldsNo s exc → s2.refCount exc = s.refCount exc + 1) := by
  have hext : Extends s (discardMemberTVRefs env (s.incRefCount exc) pc) :=
    Extends.trans ⟨rfl, rfl, Or.inl rfl, Or.inl rfl, fun _ => Or.inl rfl⟩
      (discardMemberTVRefs_extends env (s.incRefCount exc) pc)
  obtain ⟨s2, hloop, hfp2, hpc2, _, hlog, hro, hrc⟩ :=
    unwindLoop_propagates env exc target fs (discardMemberTVRefs env (s.incRefCount exc) pc)
      pc fuel (by simpa using hfp) (by simpa using hpc) (hext.propagates target fs pc hp)
      hfuel
  refine ⟨s2, ?_, hfp2, hpc2, ?_, ?_, ?_⟩
  · simp only [unwindVM, Fault.left, incRefCount_pc, hpc]
    exact hloop
  · rw [hlog]; simp [tornDown_append, tornDown]
  · rw [hro]; simp [refOps_append, refOps]
  · intro hh
    rw [hrc (hext.holdsNo exc hh),
      discardMemberTVRefs_refCount env _ pc exc (by simpa using hh.2.2.1)
        (by simpa using hh.2.2.2)]
    simp [VMState.incRefCount, VMState.addRef]

/-- Claim C9, as the code has it. Bounded unwind: the target frame `t` is a
proper ancestor of the current frame, `fs` are the frames below it from the
current frame up (at least one), and the fault `exc` propagates through them
(none of them has a handler to enter or absorbs the fault). With at least as
much fuel as there are frames in `fs`, `unwindVM` returns `UnwindReachedGoal`
with the frame register equal to `t`, having torn down exactly the frames of
`fs`, once each and in order, and not `t`. The unwinder's own operations on
the reference count of the fault are the increment at entry and the
decrement on return; the count on return equals the count on entry when no
stack cell, local or member-instruction register holds the fault. -/
theorem unwindVM_bounded (env : Env) (s : VMState) (exc : ObjId) (t : Int)
    (fs : List Int) (pc : Int) (fuel : Nat) (hfp : s.fp = fs.head?) (hpc : s.pc = some pc)
    (hne : s.fp ≠ some t) (hp : propagates s (some t) fs pc = true)
    (hfuel : fs.length ≤ fuel) :
    ∃ s2, unwindVM env fuel s (.php exc) (some t) = some (s2, .returned UnwindReachedGoal) ∧
      s2.fp = some t ∧
      tornDown s2.log = tornDown s.log ++ fs ∧ 1 ≤ fs.length ∧ fs.Nodup ∧ t ∉ fs ∧
      refOps exc s2.log = refOps exc s.log ++ [.incRefCount exc, .decRefCount exc] ∧
      (HoldsNo s exc → s2.refCount exc = s.refCount exc) := by
  obtain ⟨s2, hrun, hfp2, _, hlog, hro, hrc⟩ :=
    unwindVM_propagates env s exc (some t) fs pc fuel hfp hpc hp hfuel
  have hlink := propagates_linked s (some t) fs pc hp
  have hlen : 1 ≤ fs.length := by
    cases fs with
    | nil => simp [propagates] at hp
    | cons f rest => simp
  have hnot : t ∉ fs := by
    intro hm
    cases fs with
    | nil => simp at hm
    | cons f rest =>
      rcases List.mem_cons.mp hm with h | h
      · exact hne (by rw [hfp, h]; rfl)
      · exact linked_tail_ne s t _ hlink t (by simpa using h) rfl
  refine ⟨s2.decRefCount exc, ?_, by simpa using hfp2, ?_, hlen,
    linked_nodup s (some t) fs hlink, hnot, ?_, ?_⟩
  · rw [hrun]
    simp [unwindFinish, hfp2]
  · rw [decRefCount_log, tornDown_append, hlog]
    simp [tornDown]
  · rw [decRefCount_log, refOps_append, hro]
    simp [refOps]
  · intro hh
    simp [VMState.decRefCount, VMState.addRef, hrc hh]

/-- The bounded unwind of the spec: the target frame 70 is two levels above
the current frame 50; the frames 50 and 60 are torn down once each. -/
theorem unwindVM_bounded_witness :
    stateThreeFrames.fp = [50, 60].head? ∧ stateThreeFrames.pc = some 1003 ∧
    stateThreeFrames.fp ≠ some 70 ∧
    propagates stateThreeFrames (some 70) [50, 60] 1003 = true ∧
    ∃ s2, unwindVM exEnv 2 stateThreeFrames (.php 7) (some 70) =
        some (s2, .returned UnwindReachedGoal) ∧
      s2.fp = some 70 ∧
      tornDown s2.log = tornDown stateThreeFrames.log ++ [50, 60] ∧
      1 ≤ [(50 : Int), 60].length ∧ [(50 : Int), 60].Nodup ∧ (70 : Int) ∉ [(50 : Int), 60] ∧
      refOps 7 s2.log = refOps 7 stateThreeFrames.log ++ [.incRefCount 7, .decRefCount 7] ∧
      (HoldsNo stateThreeFrames 7 → s2.refCount 7 = stateThreeFrames.refCount 7) :=
  ⟨rfl, rfl, by decide, by decide,
    unwindVM_bounded exEnv stateThreeFrames 7 70 [50, 60] 1003 2 rfl rfl (by decide)
      (by decide) (le_refl _)⟩

/-- Claim C9 as stated fails on the reference count: the target frame 60 is
one level above the current frame 50, which has no handler and does not
absorb the fault 7, and one temporary on the stack of frame 50 holds the
fault. `unwindVM` returns `UnwindReachedGoal` with the frame register at 60
after tearing down frame 50, and the reference count of the fault is one
less than on entry: the temporary was released. -/
theorem unwindVM_bounded_count_drops :
    stateTempHoldsFault.fp = some 50 ∧ stateTempHoldsFault.fp ≠ some 60 ∧
    propagates stateTempHoldsFault (some 60) [50] 1003 = true ∧
    stateTempHoldsFault.refCount 7 = 2 ∧
    (unwindVM exEnv 1 stateTempHoldsFault (.php 7) (some 60)).map
        (fun r => (r.2, r.1.fp, tornDown r.1.log, r.1.refCount 7)) =
      some (.returned UnwindReachedGoal, some 60, [50], 1) := by
  decide

/-- When the kind-specific part of `tearDownFrame` returns an exception
object, the frame is one that passes the fault on. -/
theorem tearDownKind_returns_fault (env : Env) (s : VMState) (f : Int) (exc e2 : ObjId)
    (s1 : VMState) (h : tearDownKind env s f (some exc) = some (s1, some e2)) :
    passesFault (s.frames f) = true := by
  by_cases hres : (s.frames f).resumed = true
  · cases hkind : (s.frames f).func.kind with
    | plain =>
      simp [tearDownKind, hres, Func.isAsyncFunction, Func.isAsyncGenerator,
        Func.isNonAsyncGenerator, hkind] at h
    | asyncFunction =>
      simp [tearDownKind, hres, Func.isAsyncFunction, hkind] at h
    | asyncGenerator =>
      simp only [tearDownKind, hres, Func.isAsyncFunction, Func.isAsyncGenerator, hkind] at h
      cases hfr : (s.frames f).resumable.failResult <;> simp [hfr] at h
    | generator =>
      simp [passesFault, hres, Func.isNonAsyncGenerator, hkind]
  · have hres2 : (s.frames f).resumed = false := by simpa using hres
    by_cases hc : ((s.frames f).func.isAsyncFunction &&
        (!(s.frames f).isAsyncEagerReturn || (s.frames f).func.isMemoizeImpl)) = true
    · simp [tearDownKind, hres2, setLocalsDecRefd_frames_self, hc] at h
    · simp only [passesFault, hres2]
      cases h1 : (s.frames f).func.isAsyncFunction <;>
        cases h2 : (s.frames f).isAsyncEagerReturn <;>
        cases h3 : (s.frames f).func.isMemoizeImpl <;> simp_all

/-- When `tearDownFrame` returns an exception object, it was given that
object, it performed no reference count operation of the unwinder on it, and
the program counter is null if the frame register is. -/
theorem tearDownFrame_returns_fault (env : Env) (s : VMState) (exc e2 : ObjId)
    (s2 : VMState) (h : tearDownFrame env s (some exc) = some (s2, some e2)) :
    e2 = exc ∧ refOps exc s2.log = refOps exc s.log ∧ (s2.fp = none → s2.pc = none) ∧
      ∃ f, s.fp = some f ∧ tornDown s2.log = tornDown s.log ++ [f] := by
  cases hfp : s.fp with
  | none => simp [tearDownFrame, hfp] at h
  | some f =>
    have hk : ∃ s1, tearDownKind env (s.emit (.tearDownFrame f)) f (some exc) =
        some (s1, some e2) := by
      simp only [tearDownFrame, hfp] at h
      cases hkk : tearDownKind env (s.emit (.tearDownFrame f)) f (some exc) with
      | none => simp [hkk] at h
      | some r =>
        obtain ⟨s1, r1⟩ := r
        simp only [hkk] at h
        cases hsfp : (s.frames f).sfp <;> simp only [hsfp] at h <;>
          · obtain ⟨_, h2⟩ := Prod.mk.inj (Option.some.inj h)
            exact ⟨s1, by rw [h2]⟩
    obtain ⟨s1, hk⟩ := hk
    have hpass := tearDownKind_returns_fault env _ f exc e2 s1 hk
    obtain ⟨s3, h3, hfp3, hpc3, _, _, hlog, hro, _⟩ :=
      tearDownFrame_passes env s f exc hfp (by simpa using hpass)
    rw [h3] at h
    obtain ⟨h1, h2⟩ := Prod.mk.inj (Option.some.inj h)
    subst h1
    refine ⟨(Option.some.inj h2).symm, hro, ?_, f, rfl, hlog⟩
    intro hnone
    rw [hpc3]
    rw [hfp3] at hnone
    simp [hnone]

/-- Every run of the loop of `unwindVM` without target frame that ends in
`throw_object` throws the fault it was given, with the frame register and the
program counter null, after no reference count operation of the unwinder on
the fault. -/
theorem unwindLoop_throw_object (env : Env) (exc : ObjId) (fuel : Nat) :
    ∀ (s s2 : VMState) (o : ObjId),
      unwindLoop env (.php exc) none fuel s (some exc) = some (s2, .throw_object o) →
      o = exc ∧ s2.fp = none ∧ s2.pc = none ∧ refOps exc s2.log = refOps exc s.log := by
  induction fuel with
  | zero => intro s s2 o h; simp [unwindLoop] at h
  | succ fuel ih =>
    intro s s2 o h
    rw [unwindLoop] at h
    cases hfp : s.fp with
    | none => simp [hfp] at h
    | some f =>
      cases hpc : s.pc with
      | none => simp [hfp, hpc] at h
      | some pc =>
        simp only [hfp, hpc] at h
        split at h
        · simp at h
        · cases htd : tearDownFrame env (discardStackTemps s f) (some exc) with
          | none => simp [htd] at h
          | some r =>
            obtain ⟨s3, e3⟩ := r
            simp only [htd] at h
            by_cases hleft : (Fault.php exc).left ≠ e3
            · rw [if_pos hleft] at h
              cases hf3 : s3.fp <;> simp [hf3] at h
            · rw [if_neg hleft] at h
              have he3 : e3 = some exc := by
                simpa [Fault.left, eq_comm] using hleft
              subst he3
              obtain ⟨_, hro, hpcn, _⟩ :=
                tearDownFrame_returns_fault env _ exc exc s3 htd
              have hro2 : refOps exc s3.log = refOps exc s.log := by
                rw [hro]; simp [discardStackTemps, popTVs_refOps]
              cases hf3 : s3.fp with
              | none =>
                simp [hf3, unwindFinish] at h
                obtain ⟨h1, h2⟩ := h
                subst h1
                exact ⟨h2.symm, hf3, hpcn hf3, hro2⟩
              | some g =>
                simp only [hf3, Option.isNone_some, Option.isSome_none, Bool.false_and,
                  Bool.or_false, Bool.false_eq_true, if_false] at h
                cases hp3 : s3.pc with
                | none => simp [hp3] at h
                | some pc3 =>
                  simp only [hp3] at h
                  obtain ⟨h1, h2, h3, h4⟩ := ih _ _ _ h
                  exact ⟨h1, h2, h3, by
                    rw [h4, lockObjectWhileUnwinding_refOps, hro2]⟩

/-- Claim C10. Outermost exhaustion preserves identity: `unwindVM` is called
with the fault `exc` and no target frame. Every run that ends in
`throw_object` throws `exc` itself, with the frame register and the program
counter null, and the only reference count operation of the unwinder on `exc`
is the increment at entry, so the object carries that reference. Such runs
exist: when the fault propagates through the frames `fs`, the last of which
is the last frame of the nesting level (none of them has a handler to enter
or absorbs the fault), the call ends that way with at least as much fuel as
there are frames, after tearing down the frames of `fs`, and the count of
`exc` is one more than on entry when no stack cell, local or
member-instruction register holds it. -/
theorem unwindVM_exhausted (env : Env) (s : VMState) (exc : ObjId) :
    (∀ (k : Nat) (t : VMState) (o : ObjId),
      unwindVM env k s (.php exc) none = some (t, .throw_object o) →
      o = exc ∧ t.fp = none ∧ t.pc = none ∧
        refOps exc t.log = refOps exc s.log ++ [.incRefCount exc]) ∧
    (∀ (fs : List Int) (pc : Int) (fuel : Nat), s.fp = fs.head? → s.pc = some pc →
      propagates s none fs pc = true → fs.length ≤ fuel →
      ∃ s2, unwindVM env fuel s (.php exc) none = some (s2, .throw_object exc) ∧
        s2.fp = none ∧ s2.pc = none ∧
        tornDown s2.log = tornDown s.log ++ fs ∧
        refOps exc s2.log = refOps exc s.log ++ [.incRefCount exc] ∧
        (HoldsNo s exc → s2.refCount exc = s.refCount exc + 1)) := by
  constructor
  · intro k t o hrun
    cases hpc : s.pc with
    | none => simp [unwindVM, Fault.left, hpc] at hrun
    | some pc =>
      simp only [unwindVM, Fault.left, incRefCount_pc, hpc] at hrun
      obtain ⟨h1, h2, h3, h4⟩ := unwindLoop_throw_object env exc k _ t o hrun
      refine ⟨h1, h2, h3, ?_⟩
      rw [h4]
      simp [refOps_append, refOps]
  · intro fs pc fuel hfp hpc hp hfuel
    obtain ⟨s2, hrun, hfp2, hpc2, hlog, hro, hrc⟩ :=
      unwindVM_propagates env s exc none fs pc fuel hfp hpc hp hfuel
    refine ⟨s2, ?_, hfp2, hpc2 rfl, hlog, hro, hrc⟩
    rw [hrun]
    simp [unwindFinish, hfp2]

/-- Exhaustion of a nesting level of three frames with the fault 7. -/
theorem unwindVM_exhausted_witness :
    stateThreeFrames.fp = [50, 60, 70].head? ∧ stateThreeFrames.pc = some 1003 ∧
    propagates stateThreeFrames none [50, 60, 70] 1003 = true ∧
    ∃ s2, unwindVM exEnv 3 stateThreeFrames (.php 7) none = some (s2, .throw_object 7) ∧
      s2.fp = none ∧ s2.pc = none ∧
      tornDown s2.log = tornDown stateThreeFrames.log ++ [50, 60, 70] ∧
      refOps 7 s2.log = refOps 7 stateThreeFrames.log ++ [.incRefCount 7] ∧
      (HoldsNo stateThreeFrames 7 → s2.refCount 7 = stateThreeFrames.refCount 7 + 1) :=
  ⟨rfl, rfl, by decide,
    (unwindVM_exhausted exEnv stateThreeFrames 7).2 [50, 60, 70] 1003 3 rfl rfl (by decide)
      (le_refl _)⟩

/-!
More on the fault chain builder: what the shared set of visited objects
means, and termination.
-/

theorem Acyclic.reach_mem {n : Nat} {h : Heap n} {a x : Fin n} {l : List (Fin n)}
    (hl : IsChain h a l) : Reach h a x ↔ x ∈ l :=
  ⟨fun hr => hr.mem_chain hl, fun hm => hl.reach hm⟩

/-- Claim C18, as the code has it. The walk from `prev` shares the set of
visited objects with the walk from `top`. Chaining is refused (only `prev` is
released) when the chain of `top` does not end, when the chain of `prev` does
not end, and also when both end and some object of the chain of `top` is
reachable from `prev`; when both chains end and share no object, `prev` is
written into the slot of the last object of the chain of `top`, and only
then does the code agree with the independent walks of the spec. -/
theorem chainFaultObjects_refused_iff {n : Nat} (h : Heap n) (top prev : Fin n) :
    ((¬ Acyclic h top ∨ ¬ Acyclic h prev ∨ ∃ x, Reach h top x ∧ Reach h prev x) →
      chainFaultObjects h top prev = some (decRefObj h prev)) ∧
    ((Acyclic h top ∧ Acyclic h prev ∧ ¬ ∃ x, Reach h top x ∧ Reach h prev x) →
      ∃ lt last, IsChain h top lt ∧ lt.getLast? = some last ∧
        chainFaultObjects h top prev = some (tvMove h (.obj prev) last) ∧
        chainFaultObjectsIndependent h top prev = chainFaultObjects h top prev) := by
  constructor
  · intro hc
    rcases chainFaultObjects_cases h top prev with
      ⟨lt, lp, last, hlt, hlp, hdis, _, _⟩ | ⟨_, hres⟩
    · rcases hc with hc | hc | ⟨x, hx1, hx2⟩
      · exact absurd ⟨lt, hlt⟩ hc
      · exact absurd ⟨lp, hlp⟩ hc
      · exact absurd (hx1.mem_chain hlt) (hdis x (hx2.mem_chain hlp))
    · exact hres
  · rintro ⟨⟨lt, hlt⟩, ⟨lp, hlp⟩, hno⟩
    have hdis : ∀ x ∈ lp, x ∉ lt := fun x hx hxt => hno ⟨x, hlt.reach hxt, hlp.reach hx⟩
    rcases chainFaultObjects_cases h top prev with
      ⟨lt2, lp2, last, hlt2, _, _, hlast, hres⟩ | ⟨hne, _⟩
    · refine ⟨lt2, last, hlt2, hlast, hres, ?_⟩
      rw [hres]
      have h1 := findAcyclicPrev_isSome h (n + 1) [] top List.nodup_nil (by simp)
      obtain ⟨⟨seen, r1⟩, hw1⟩ := Option.isSome_iff_exists.mp h1
      have h2 := findAcyclicPrev_isSome h (n + 1) [] prev List.nodup_nil (by simp)
      obtain ⟨⟨seen2, r2⟩, hw2⟩ := Option.isSome_iff_exists.mp h2
      cases r1 with
      | none =>
        obtain ⟨x, _, hx⟩ := findAcyclicPrev_cycle h _ _ _ _ hw1 lt hlt
        simp at hx
      | some l1 =>
        obtain ⟨lt3, hlt3, _, _, hl3⟩ := findAcyclicPrev_found h _ _ _ _ _ hw1
        rw [IsChain.unique hlt3 hlt2, hlast] at hl3
        cases r2 with
        | none =>
          obtain ⟨x, _, hx⟩ := findAcyclicPrev_cycle h _ _ _ _ hw2 lp hlp
          simp at hx
        | some l2 =>
          simp only [chainFaultObjectsIndependent, hw1, hw2]
          rw [Option.some.inj hl3]
    · exact absurd ⟨lt, lp, hlt, hlp, hdis⟩ hne

/-- Claim C18 as stated fails: with `A -> B` and `C -> A` the chain of `A`
and the chain of `C` both end, yet chaining `C` onto `A` is refused (the slot
of `B` stays null and `C` is released), where independent walks would write
`C` into the slot of `B`. -/
theorem chainFaultObjects_not_independent :
    IsChain heapABC 0 [0, 1] ∧ IsChain heapABC 2 [2, 0, 1] ∧
    (chainFaultObjects heapABC 0 2).map (fun h => (h.previous 1, h.refCount 2)) =
      some (.null, 1) ∧
    (chainFaultObjectsIndependent heapABC 0 2).map
        (fun h => (h.previous 1, h.refCount 2)) = some (.obj 2, 2) :=
  ⟨IsChain.step 0 1 [1] (by decide) (IsChain.last 1 (by decide)),
    IsChain.step 2 0 [0, 1] (by decide)
      (IsChain.step 0 1 [1] (by decide) (IsChain.last 1 (by decide))),
    by decide, by decide⟩

/-- With `A -> B` and `C` on its own, no object of the chain of `C` is
reachable from `A`, and chaining `A` onto `C` writes `A` into the slot of
`C`, as independent walks would. -/
theorem chainFaultObjects_refused_iff_witness :
    ∃ lt last, IsChain heapAB_C 2 lt ∧ lt.getLast? = some last ∧
      chainFaultObjects heapAB_C 2 0 = some (tvMove heapAB_C (.obj 0) last) ∧
      chainFaultObjectsIndependent heapAB_C 2 0 = chainFaultObjects heapAB_C 2 0 := by
  have hc2 : IsChain heapAB_C 2 [2] := IsChain.last 2 (by decide)
  have hc0 : IsChain heapAB_C 0 [0, 1] :=
    IsChain.step 0 1 [1] (by decide) (IsChain.last 1 (by decide))
  refine (chainFaultObjects_refused_iff heapAB_C 2 0).2 ⟨⟨_, hc2⟩, ⟨_, hc0⟩, ?_⟩
  rintro ⟨x, hx1, hx2⟩
  have h1 := hx1.mem_chain hc2
  have h2 := hx2.mem_chain hc0
  simp at h1 h2
  omega

theorem throwable_nodup_length_le {n : Nat} (h : Heap n) (l : List (Fin n))
    (hnd : l.Nodup) (hall : ∀ x ∈ l, h.throwable x = true) : l.length ≤ throwableCount h := by
  have hsub : l ⊆ (List.finRange n).filter h.throwable := by
    intro x hx
    exact List.mem_filter.mpr ⟨List.mem_finRange x, hall x hx⟩
  exact (hnd.subperm hsub).length_le

/-- More fuel does not change the result of a walk that ended. -/
theorem findAcyclicPrev_fuel_mono {n : Nat} (h : Heap n) (fuel : Nat) :
    ∀ (seen : List (Fin n)) (head : Fin n) (r : List (Fin n) × Option (Fin n)) (k : Nat),
      findAcyclicPrev h fuel seen head = some r →
      findAcyclicPrev h (fuel + k) seen head = some r := by
  induction fuel with
  | zero => intro seen head r k hw; simp [findAcyclicPrev] at hw
  | succ fuel ih =>
    intro seen head r k hw
    rw [show fuel + 1 + k = (fuel + k) + 1 by omega]
    unfold findAcyclicPrev at hw ⊢
    by_cases hmem : head ∈ seen
    · simpa [hmem] using hw
    · simp only [hmem, if_false] at hw ⊢
      cases hp : h.previous head with
      | null => simpa [hp] using hw
      | other => simpa [hp] using hw
      | obj p =>
        simp only [hp] at hw ⊢
        by_cases ht : h.throwable p = true
        · simp only [ht, if_true] at hw ⊢
          exact ih _ _ _ k hw
        · simpa [ht] using hw

/-- A walk from a throwable object ends within its fuel whenever the fuel
exceeds the number of throwable objects not yet visited; it visits throwable
objects only, and no object twice. -/
theorem findAcyclicPrev_bounded {n : Nat} (h : Heap n) (fuel : Nat) :
    ∀ (seen : List (Fin n)) (head : Fin n), seen.Nodup →
      (∀ x ∈ seen, h.throwable x = true) → h.throwable head = true →
      throwableCount h < fuel + seen.length →
      ∃ seen2 r, findAcyclicPrev h fuel seen head = some (seen2, r) ∧ seen2.Nodup ∧
        (∀ x ∈ seen2, h.throwable x = true) ∧ ∃ l, seen2 = l ++ seen := by
  induction fuel with
  | zero =>
    intro seen head hnd hall _ hlt
    have := throwable_nodup_length_le h seen hnd hall
    omega
  | succ fuel ih =>
    intro seen head hnd hall hhead hlt
    unfold findAcyclicPrev
    by_cases hmem : head ∈ seen
    · exact ⟨seen, none, by simp [hmem], hnd, hall, [], rfl⟩
    · simp only [hmem, if_false]
      have hnd2 : (head :: seen).Nodup := List.nodup_cons.mpr ⟨hmem, hnd⟩
      have hall2 : ∀ x ∈ head :: seen, h.throwable x = true := by
        intro x hx
        rcases List.mem_cons.mp hx with hx | hx
        · rw [hx]; exact hhead
        · exact hall x hx
      have hstop : ∃ seen2 r, some (head :: seen, some head) = some (seen2, r) ∧
          seen2.Nodup ∧ (∀ x ∈ seen2, h.throwable x = true) ∧ ∃ l, seen2 = l ++ seen :=
        ⟨head :: seen, some head, rfl, hnd2, hall2, [head], rfl⟩
      cases hp : h.previous head with
      | null => simpa using hstop
      | other => simpa using hstop
      | obj p =>
        by_cases ht : h.throwable p = true
        · simp only [ht, if_true]
          obtain ⟨seen2, r, hw, h1, h2, l, hl⟩ :=
            ih (head :: seen) p hnd2 hall2 ht (by simp only [List.length_cons]; omega)
          exact ⟨seen2, r, hw, h1, h2, l ++ [head], by rw [hl]; simp⟩
        · simpa [ht] using hstop

/-- Claim C20. `chainFaultObjects` terminates on every heap of finitely many
objects, whatever cycles or self-references the previous links form: the
call ends, and each of its two walks ends within any fuel above the number of
throwable objects, with the result it has in `chainFaultObjects`. The
objects visited (the set `seen`, shared by the two walks) are throwable and
no object is visited twice, so that the number of objects visited by the two
walks together is at most the number of throwable objects. The faults `top`
and `prev` are throwable, as the walk asserts. -/
theorem chainFaultObjects_terminates {n : Nat} (h : Heap n) (top prev : Fin n)
    (htop : h.throwable top = true) (hprev : h.throwable prev = true) :
    (chainFaultObjects h top prev).isSome = true ∧
    ∀ fuel, throwableCount h < fuel →
      ∃ seen1 r1, findAcyclicPrev h fuel [] top = some (seen1, r1) ∧
        findAcyclicPrev h (n + 1) [] top = some (seen1, r1) ∧
        seen1.Nodup ∧ seen1.length ≤ throwableCount h ∧
        ∃ seen2 r2, findAcyclicPrev h fuel seen1 prev = some (seen2, r2) ∧
          findAcyclicPrev h (n + 1) seen1 prev = some (seen2, r2) ∧
          seen2.Nodup ∧ seen2.length ≤ throwableCount h ∧
          (∀ x ∈ seen2, h.throwable x = true) ∧ ∃ l, seen2 = l ++ seen1 := by
  have hcount : throwableCount h ≤ n := by
    have := List.length_filter_le h.throwable (List.finRange n)
    simpa [throwableCount] using this
  constructor
  · rcases chainFaultObjects_cases h top prev with ⟨_, _, _, _, _, _, _, hres⟩ | ⟨_, hres⟩ <;>
      simp [hres]
  · intro fuel hfuel
    obtain ⟨seen1, r1, hw1, hnd1, hall1, _⟩ :=
      findAcyclicPrev_bounded h fuel [] top List.nodup_nil (by simp) htop (by simpa using hfuel)
    obtain ⟨seen1b, r1b, hw1b, _, _, _⟩ :=
      findAcyclicPrev_bounded h (throwableCount h + 1) [] top List.nodup_nil (by simp) htop
        (by simp)
    have e1 := findAcyclicPrev_fuel_mono h _ _ _ _ (fuel - (throwableCount h + 1)) hw1b
    rw [show throwableCount h + 1 + (fuel - (throwableCount h + 1)) = fuel by omega, hw1] at e1
    have e2 := findAcyclicPrev_fuel_mono h _ _ _ _ (n + 1 - (throwableCount h + 1)) hw1b
    rw [show throwableCount h + 1 + (n + 1 - (throwableCount h + 1)) = n + 1 by omega,
      ← e1] at e2
    obtain ⟨seen2, r2, hw2, hnd2, hall2, l, hl⟩ :=
      findAcyclicPrev_bounded h fuel seen1 prev hnd1 hall1 hprev (by omega)
    obtain ⟨seen2b, r2b, hw2b, _, _, _⟩ :=
      findAcyclicPrev_bounded h (throwableCount h + 1) seen1 prev hnd1 hall1 hprev (by omega)
    have e3 := findAcyclicPrev_fuel_mono h _ _ _ _ (fuel - (throwableCount h + 1)) hw2b
    rw [show throwableCount h + 1 + (fuel - (throwableCount h + 1)) = fuel by omega, hw2] at e3
    have e4 := findAcyclicPrev_fuel_mono h _ _ _ _ (n + 1 - (throwableCount h + 1)) hw2b
    rw [show throwableCount h + 1 + (n + 1 - (throwableCount h + 1)) = n + 1 by omega,
      ← e3] at e4
    exact ⟨seen1, r1, hw1, e2, hnd1, throwable_nodup_length_le h seen1 hnd1 hall1,
      seen2, r2, hw2, e4, hnd2, throwable_nodup_length_le h seen2 hnd2 hall2, hall2, l, hl⟩

/-- A heap with a self-reference and a cycle of two faults: the walks from
the self-referencing fault 0 and from the fault 1 on the cycle end within
four iterations each, three throwable objects being there. -/
theorem chainFaultObjects_terminates_witness :
    heapCycles.throwable 0 = true ∧ heapCycles.throwable 1 = true ∧
    throwableCount heapCycles = 3 ∧
    (chainFaultObjects heapCycles 0 1).isSome = true ∧
    ∃ seen1 r1, findAcyclicPrev heapCycles 4 [] 0 = some (seen1, r1) ∧
      findAcyclicPrev heapCycles (4 + 1) [] 0 = some (seen1, r1) ∧
      seen1.Nodup ∧ seen1.length ≤ throwableCount heapCycles ∧
      ∃ seen2 r2, findAcyclicPrev heapCycles 4 seen1 1 = some (seen2, r2) ∧
        findAcyclicPrev heapCycles (4 + 1) seen1 1 = some (seen2, r2) ∧
        seen2.Nodup ∧ seen2.length ≤ throwableCount heapCycles ∧
        (∀ x ∈ seen2, heapCycles.throwable x = true) ∧ ∃ l, seen2 = l ++ seen1 :=
  ⟨rfl, rfl, by decide,
    (chainFaultObjects_terminates heapCycles 0 1 rfl rfl).1,
    (chainFaultObjects_terminates heapCycles 0 1 rfl rfl).2 4 (by decide)⟩

/-!
The frame teardown in general, for every kind of frame and every fault.
-/

theorem tornDown_nil : tornDown [] = [] := rfl

theorem tornDown_cons (e : Event) (l : List Event) :
    tornDown (e :: l) = (match e with
      | .tearDownFrame f => [f]
      | _ => []) ++ tornDown l := by
  cases e <;> rfl

/-- The kind-specific part of `tearDownFrame` on any frame but a resumed
frame of a plain function: it ends, it changes the frames only by setting
flags `localsDecRefd`, it tears down no frame itself, and it returns the
fault it was given or null. -/
theorem tearDownKind_effects (env : Env) (s : VMState) (f : Int) (e : Option ObjId)
    (hvalid : (s.frames f).resumed = true → (s.frames f).func.kind ≠ FuncKind.plain) :
    ∃ s1 r, tearDownKind env s f e = some (s1, r) ∧
      (∀ a, s1.frames a = s.frames a ∨
        s1.frames a = { s.frames a with localsDecRefd := true }) ∧
      s1.pendingException = s.pendingException ∧
      tornDown s1.log = tornDown s.log ∧
      (r = e ∨ r = none) := by
  obtain ⟨s1, r1, hk, _, hfr⟩ := tearDownKind_release env s f e hvalid
  have hframes : ∀ a, s1.frames a = s.frames a ∨
      s1.frames a = { s.frames a with localsDecRefd := true } := by
    intro a
    rw [hfr]
    split
    · exact setLocalsDecRefd_frames_cases s f a
    · exact Or.inl rfl
  refine ⟨s1, r1, hk, hframes, ?_⟩
  have key : ∀ (t : VMState) (q : Option ObjId), tearDownKind env s f e = some (t, q) →
      t.pendingException = s.pendingException ∧ tornDown t.log = tornDown s.log ∧
        (q = e ∨ q = none) := by
    intro t q ht
    unfold tearDownKind at ht
    by_cases hres : (s.frames f).resumed = true
    · cases hkind : (s.frames f).func.kind <;> cases e <;>
        cases hrun : (s.frames f).resumable.isRunning <;>
        cases heag : (s.frames f).resumable.isEagerlyExecuted <;>
        cases hfail : (s.frames f).resumable.failResult <;>
        simp only [hres, hkind, hrun, heag, hfail, Func.isAsyncFunction,
          Func.isAsyncGenerator, Func.isNonAsyncGenerator, Bool.not_true, Bool.false_eq_true,
          if_false, if_true, beq_self_eq_true, Bool.or_false, Bool.or_true, Bool.or_self,
          reduceCtorEq, beq_iff_eq, Option.some.injEq, Prod.mk.injEq] at ht <;>
        (obtain ⟨h1, h2⟩ := ht
         subst h1; subst h2
         simp [tornDown_append, tornDown_releaseEvents, tornDown_cons, tornDown_nil])
    · have hres2 : (s.frames f).resumed = false := by simpa using hres
      cases e with
      | none =>
        simp only [hres2, Bool.not_false, if_true, Option.some.injEq, Prod.mk.injEq] at ht
        obtain ⟨h1, h2⟩ := ht
        subst h1; subst h2
        simp [tornDown_append, tornDown_releaseEvents, tornDown_cons, tornDown_nil]
      | some exc =>
        by_cases hc : ((s.frames f).func.isAsyncFunction &&
            (!(s.frames f).isAsyncEagerReturn || (s.frames f).func.isMemoizeImpl)) = true
        · simp only [hres2, Bool.not_false, if_true, decRefLocals_frames,
            setLocalsDecRefd_frames_self, hc, Option.some.injEq, Prod.mk.injEq] at ht
          obtain ⟨h1, h2⟩ := ht
          subst h1; subst h2
          simp [tornDown_append, tornDown_releaseEvents, tornDown_cons, tornDown_nil]
        · simp only [hres2, Bool.not_false, if_true, decRefLocals_frames,
            setLocalsDecRefd_frames_self, hc, Bool.false_eq_true, if_false, Option.some.injEq,
            Prod.mk.injEq] at ht
          obtain ⟨h1, h2⟩ := ht
          subst h1; subst h2
          simp [tornDown_append, tornDown_releaseEvents, tornDown_cons, tornDown_nil]
  exact key s1 r1 hk

/-- The function `tearDownFrame` on any frame but a resumed frame of a plain
function: it ends, the caller becomes the current frame, the program counter
is the call site in the caller, the frames change only by flags
`localsDecRefd` being set, the frame is logged as torn down, and the fault it
returns is the one it was given or null. -/
theorem tearDownFrame_effects (env : Env) (s : VMState) (f : Int) (e : Option ObjId)
    (hfp : s.fp = some f)
    (hvalid : (s.frames f).resumed = true → (s.frames f).func.kind ≠ FuncKind.plain) :
    ∃ s2 r, tearDownFrame env s e = some (s2, r) ∧
      s2.fp = (s.frames f).sfp ∧
      s2.pc = (s.frames f).sfp.map (callerPc s f) ∧
      (∀ a, s2.frames a = s.frames a ∨
        s2.frames a = { s.frames a with localsDecRefd := true }) ∧
      s2.pendingException = s.pendingException ∧
      tornDown s2.log = tornDown s.log ++ [f] ∧
      (r = e ∨ r = none) := by
  obtain ⟨s1, r1, hk, hfr, hpe, hlog, hr⟩ :=
    tearDownKind_effects env (s.emit (.tearDownFrame f)) f e hvalid
  have hlog2 : tornDown s1.log = tornDown s.log ++ [f] := by
    rw [hlog]; simp [tornDown_append, tornDown_cons, tornDown_nil]
  cases hsfp : (s.frames f).sfp with
  | none =>
    exact ⟨{ s1 with pc := none, fp := none }, r1,
      by simp only [tearDownFrame, hfp, hk, hsfp], rfl, rfl, hfr, hpe, hlog2, hr⟩
  | some prev =>
    refine ⟨{ s1 with pc := some ((s1.frames prev).func.unit.at
        ((s.frames f).callOffset + (s1.frames prev).func.base)), fp := some prev }, r1,
      by simp only [tearDownFrame, hfp, hk, hsfp], rfl, ?_, hfr, hpe, hlog2, hr⟩
    simp only [Option.map_some', callerPc]
    rcases hfr prev with h | h <;> rw [h] <;> rfl

/-- When `tearDownFrame` returns, the frame register was not null and the
frame was not a resumed frame of a plain function. -/
theorem tearDownFrame_some (env : Env) (s : VMState) (e : Option ObjId) (s2 : VMState)
    (r : Option ObjId) (h : tearDownFrame env s e = some (s2, r)) :
    ∃ f, s.fp = some f ∧
      ((s.frames f).resumed = true → (s.frames f).func.kind ≠ FuncKind.plain) := by
  cases hfp : s.fp with
  | none => simp [tearDownFrame, hfp] at h
  | some f =>
    refine ⟨f, rfl, ?_⟩
    intro hres hkind
    simp [tearDownFrame, hfp, tearDownKind, hres, hkind, Func.isAsyncFunction,
      Func.isAsyncGenerator, Func.isNonAsyncGenerator] at h

/-- Claim C14. Register update after teardown: for every frame of every kind
(a resumed frame of a plain function apart, where the code reaches
`not_reached()`), `tearDownFrame` returns with the frame register equal to
the caller link the frame had on entry. If that link is null, the frame
register and the program counter are both null; otherwise the program counter
is the address, in the unit of the caller's function, of the base of that
function plus the call offset the frame had on entry. So the program counter
is null exactly when the frame register is. -/
theorem tearDownFrame_registers (env : Env) (s : VMState) (f : Int) (e : Option ObjId)
    (hfp : s.fp = some f)
    (hvalid : (s.frames f).resumed = true → (s.frames f).func.kind ≠ FuncKind.plain) :
    ∃ s2 r, tearDownFrame env s e = some (s2, r) ∧
      s2.fp = (s.frames f).sfp ∧
      ((s.frames f).sfp = none → s2.fp = none ∧ s2.pc = none) ∧
      (∀ g, (s.frames f).sfp = some g →
        s2.pc = some ((s.frames g).func.unit.at
          ((s.frames f).callOffset + (s.frames g).func.base))) ∧
      (s2.pc = none ↔ s2.fp = none) := by
  obtain ⟨s2, r, h, hfp2, hpc2, _⟩ := tearDownFrame_effects env s f e hfp hvalid
  refine ⟨s2, r, h, hfp2, ?_, ?_, ?_⟩
  · intro hn
    rw [hfp2, hpc2, hn]
    exact ⟨rfl, rfl⟩
  · intro g hg
    rw [hpc2, hg]
    rfl
  · rw [hfp2, hpc2]
    cases (s.frames f).sfp <;> simp

/-- The frame at 50 of `stateThreeFrames`, called from the frame at 60 at
offset 5, is torn down with the fault 7: the frame register becomes 60 and
the program counter the address 1005. -/
theorem tearDownFrame_registers_witness :
    stateThreeFrames.fp = some 50 ∧
    ∃ s2 r, tearDownFrame exEnv stateThreeFrames (some 7) = some (s2, r) ∧
      s2.fp = some 60 ∧ s2.pc = some 1005 ∧ (s2.pc = none ↔ s2.fp = none) := by
  obtain ⟨s2, r, h, hfp2, _, hpc, hiff⟩ :=
    tearDownFrame_registers exEnv stateThreeFrames 50 (some 7) rfl (by decide)
  exact ⟨rfl, s2, r, h, hfp2, hpc 60 rfl, hiff⟩

theorem numInOut_eq_count (func : Func) (numArgs : Nat)
    (hwf : func.takesInOutParams = false → ∀ p, func.isInOut p = false) :
    numInOut func numArgs = ((List.range numArgs).filter func.isInOut).length := by
  unfold numInOut
  cases ht : func.takesInOutParams with
  | true => simp
  | false =>
    have hall := hwf ht
    have : (List.range numArgs).filter func.isInOut = [] := by
      apply List.filter_eq_nil_iff.mpr
      intro p _
      simp [hall p]
    simp [this]

/-- Claim C15. Plain-frame stack arithmetic: for every frame on the stack
(not resumed) that does not take the eager async path, `tearDownFrame`
discards `numSlotsInFrame` cells, then the activation record, then `k`
further cells, where `k` is the number of parameters `p < numArgs` the
function declares inout (0 when the function takes no inout parameters, the
flag `takesInOutParams` agreeing with the declarations). The stack top moves
by `numSlotsInFrame + kNumActRecCells + k` cells, no cell is written, and the
fault is returned unchanged. -/
theorem tearDownFrame_stack_arithmetic (env : Env) (s : VMState) (f : Int)
    (e : Option ObjId) (hfp : s.fp = some f) (hres : (s.frames f).resumed = false)
    (hpath : ((s.frames f).func.isAsyncFunction && e.isSome &&
      (!(s.frames f).isAsyncEagerReturn || (s.frames f).func.isMemoizeImpl)) = false)
    (hwf : (s.frames f).func.takesInOutParams = false →
      ∀ p, (s.frames f).func.isInOut p = false) :
    ∃ s2 k, tearDownFrame env s e = some (s2, e) ∧
      k = ((List.range (s.frames f).numArgs).filter (s.frames f).func.isInOut).length ∧
      ((s.frames f).func.takesInOutParams = false → k = 0) ∧
      s2.stack = (VMState.ndiscard (VMState.discardAR env
        (s.ndiscard (s.frames f).func.numSlotsInFrame)) k).stack ∧
      s2.stack.top = s.stack.top + (s.frames f).func.numSlotsInFrame +
        env.kNumActRecCells + k ∧
      s2.stack.mem = s.stack.mem := by
  have hk := numInOut_eq_count (s.frames f).func (s.frames f).numArgs hwf
  have hk0 : (s.frames f).func.takesInOutParams = false →
      ((List.range (s.frames f).numArgs).filter (s.frames f).func.isInOut).length = 0 := by
    intro ht
    rw [← hk]
    simp [numInOut, ht]
  have hkind : ∃ s1, tearDownKind env (s.emit (.tearDownFrame f)) f e = some (s1, e) ∧
      s1.stack = (VMState.ndiscard (VMState.discardAR env
        (s.ndiscard (s.frames f).func.numSlotsInFrame))
        (numInOut (s.frames f).func (s.frames f).numArgs)).stack := by
    cases e with
    | none =>
      exact ⟨_, by simp only [tearDownKind, emit_frames, hres]; rfl, by
        simp [VMState.ndiscard, VMState.discardAR, setLocalsDecRefd_frames_self]⟩
    | some exc =>
      have hc : ((s.frames f).func.isAsyncFunction &&
          (!(s.frames f).isAsyncEagerReturn || (s.frames f).func.isMemoizeImpl)) = false := by
        simpa using hpath
      exact ⟨_, by
        simp only [tearDownKind, emit_frames, hres, decRefLocals_frames,
          setLocalsDecRefd_frames_self, hc]
        rfl, by
        simp [VMState.ndiscard, VMState.discardAR, setLocalsDecRefd_frames_self]⟩
  obtain ⟨s1, hs1, hstack⟩ := hkind
  rw [hk] at hstack
  have htop : s1.stack.top = s.stack.top + (s.frames f).func.numSlotsInFrame +
      env.kNumActRecCells +
      ((List.range (s.frames f).numArgs).filter (s.frames f).func.isInOut).length := by
    rw [hstack]; simp [VMState.ndiscard, VMState.discardAR]
  have hmem : s1.stack.mem = s.stack.mem := by
    rw [hstack]; simp [VMState.ndiscard, VMState.discardAR]
  cases hsfp : (s.frames f).sfp with
  | none =>
    exact ⟨{ s1 with pc := none, fp := none }, _,
      by simp only [tearDownFrame, hfp, hs1, hsfp], rfl, hk0, hstack, htop, hmem⟩
  | some prev =>
    exact ⟨{ s1 with pc := some ((s1.frames prev).func.unit.at
        ((s.frames f).callOffset + (s1.frames prev).func.base)), fp := some prev }, _,
      by simp only [tearDownFrame, hfp, hs1, hsfp], rfl, hk0, hstack, htop, hmem⟩

/-- A frame at 50 with two slots, called with three arguments of which the
parameters 0 and 2 are inout: the stack top moves from 48 by 2 + 2 + 2 cells
to 54. -/
theorem tearDownFrame_stack_arithmetic_witness :
    stateInOut.fp = some 50 ∧ (stateInOut.frames 50).resumed = false ∧
    ∃ s2 k, tearDownFrame exEnv stateInOut (some 7) = some (s2, some 7) ∧
      k = 2 ∧ s2.stack.top = 54 ∧ s2.stack.mem = stateInOut.stack.mem := by
  obtain ⟨s2, k, h, hk, _, _, htop, hmem⟩ :=
    tearDownFrame_stack_arithmetic exEnv stateInOut 50 (some 7) rfl rfl (by decide)
      (fun ht => absurd ht (by decide))
  have hk2 : k = 2 := by rw [hk]; decide
  refine ⟨rfl, rfl, s2, k, h, hk2, ?_, hmem⟩
  rw [htop, hk2]
  decide

/-!
The unwind driver in general: every run of the loop.
-/

theorem sameFrames_refl (s : VMState) : SameFrames s s := fun _ => Or.inl rfl

theorem sameFrames_trans {s t u : VMState} (h₁ : SameFrames s t) (h₂ : SameFrames t u) :
    SameFrames s u := by
  intro a
  rcases h₂ a with hb | hb <;> rcases h₁ a with ha | ha
  · exact Or.inl (hb.trans ha)
  · exact Or.inr (hb.trans ha)
  · exact Or.inr (by rw [hb, ha])
  · exact Or.inr (by rw [hb, ha])

theorem sameFrames_sfp {s t : VMState} (h : SameFrames s t) (a : Int) :
    (t.frames a).sfp = (s.frames a).sfp := by
  rcases h a with hf | hf <;> rw [hf]

theorem SameFrames.func {s t : VMState} (h : SameFrames s t) (a : Int) :
    (t.frames a).func = (s.frames a).func := by
  rcases h a with hf | hf <;> rw [hf]

theorem SameFrames.resumed {s t : VMState} (h : SameFrames s t) (a : Int) :
    (t.frames a).resumed = (s.frames a).resumed := by
  rcases h a with hf | hf <;> rw [hf]

theorem SameFrames.linked {s t : VMState} (h : SameFrames s t) (target : Option Int)
    (fs : List Int) : linked t target fs = linked s target fs := by
  induction fs with
  | nil => rfl
  | cons f rest ih =>
    cases rest with
    | nil => simp only [HPHP.linked, sameFrames_sfp h]
    | cons g rest => simp only [HPHP.linked, sameFrames_sfp h, ih]

theorem sameFrames_of_eq {s t : VMState} (h : t.frames = s.frames) : SameFrames s t :=
  fun a => Or.inl (by rw [h])

theorem discardStackTemps_sameFrames (s : VMState) (f : Int) :
    SameFrames s (discardStackTemps s f) := sameFrames_of_eq (by simp)

theorem lockObjectWhileUnwinding_sameFrames (env : Env) (s : VMState) (pc : Int) :
    SameFrames s (lockObjectWhileUnwinding env s pc) := sameFrames_of_eq (by simp)

theorem discardStackTemps_tornDown (s : VMState) (f : Int) :
    tornDown (discardStackTemps s f).log = tornDown s.log := by
  simp [discardStackTemps, popTVs_tornDown]

theorem unwindFinish_tornDown (s : VMState) (exception : Fault) (e : Option ObjId) :
    tornDown (unwindFinish s exception e).1.log = tornDown s.log := by
  unfold unwindFinish
  cases s.fp <;> cases e <;> cases exception <;>
    simp [tornDown_append, tornDown_cons, tornDown_nil]

theorem handlerAt_none (s : VMState) (f pc : Int) : handlerAt s f pc none = none := by
  simp [handlerAt]

/-- An iteration of the loop of `unwindVM` that finds a handler. -/
theorem unwindLoop_handler (env : Env) (exception : Fault) (target : Option Int)
    (fuel : Nat) (s : VMState) (f pc : Int) (exc : ObjId) (eh : EHEnt)
    (hfp : s.fp = some f) (hpc : s.pc = some pc)
    (hh : handlerAt s f pc (some exc) = some eh) :
    unwindLoop env exception target (fuel + 1) s (some exc) =
      some (enterHandler s f exc eh, .returned UnwindNone) := by
  rw [unwindLoop]
  simp only [hfp, hpc, discardStackTemps_pendingException, discardStackTemps_frames]
  unfold handlerAt at hh
  rw [hh]
  rfl

/-- An iteration of the loop of `unwindVM` that finds no handler: the stack
temporaries are discarded and the frame is torn down. -/
theorem unwindLoop_teardown (env : Env) (exception : Fault) (target : Option Int)
    (fuel : Nat) (s : VMState) (f pc : Int) (e : Option ObjId)
    (hfp : s.fp = some f) (hpc : s.pc = some pc) (hh : handlerAt s f pc e = none) :
    unwindLoop env exception target (fuel + 1) s e =
      match tearDownFrame env (discardStackTemps s f) e with
      | none => some (discardStackTemps s f, .undefined)
      | some (s2, e2) => afterTearDown env exception target fuel s2 e2 := by
  rw [unwindLoop]
  simp only [hfp, hpc, discardStackTemps_pendingException, discardStackTemps_frames]
  unfold handlerAt at hh
  rw [hh]
  cases e <;> rfl

/-- Every run of the loop of `unwindVM` only adds to the frames torn down. -/
theorem unwindLoop_tornDown_prefix (env : Env) (exception : Fault) (target : Option Int)
    (fuel : Nat) : ∀ (s : VMState) (e : Option ObjId) (t : VMState) (out : UnwindOutcome),
      unwindLoop env exception target fuel s e = some (t, out) →
      ∃ l, tornDown t.log = tornDown s.log ++ l := by
  induction fuel with
  | zero => intro s e t out h; simp [unwindLoop] at h
  | succ fuel ih =>
    intro s e t out h
    cases hfp : s.fp with
    | none =>
      rw [unwindLoop] at h
      simp only [hfp, Option.some.injEq, Prod.mk.injEq] at h
      exact ⟨[], by rw [← h.1]; simp⟩
    | some f =>
      cases hpc : s.pc with
      | none =>
        rw [unwindLoop] at h
        simp only [hfp, hpc, Option.some.injEq, Prod.mk.injEq] at h
        exact ⟨[], by rw [← h.1]; simp⟩
      | some pc =>
        cases hh : handlerAt s f pc e with
        | some eh =>
          cases e with
          | none => rw [handlerAt_none] at hh; cases hh
          | some exc =>
            rw [unwindLoop_handler env exception target fuel s f pc exc eh hfp hpc hh] at h
            simp only [Option.some.injEq, Prod.mk.injEq] at h
            refine ⟨[], ?_⟩
            rw [← h.1]
            unfold enterHandler
            simp only []
            split <;>
              simp [tornDown_append, tornDown_cons, tornDown_nil, discardStackTemps_tornDown]
        | none =>
          rw [unwindLoop_teardown env exception target fuel s f pc e hfp hpc hh] at h
          cases htd : tearDownFrame env (discardStackTemps s f) e with
          | none =>
            simp only [htd, Option.some.injEq, Prod.mk.injEq] at h
            exact ⟨[], by rw [← h.1]; simp [discardStackTemps_tornDown]⟩
          | some q =>
            obtain ⟨s3, e3⟩ := q
            simp only [htd] at h
            obtain ⟨f2, hf2, hvalid⟩ := tearDownFrame_some env _ e s3 e3 htd
            obtain ⟨s4, r4, htd4, _, _, _, _, hlog4, _⟩ :=
              tearDownFrame_effects env _ f2 e hf2 hvalid
            rw [htd] at htd4
            obtain ⟨h41, _⟩ := Prod.mk.inj (Option.some.inj htd4)
            subst h41
            rw [discardStackTemps_tornDown] at hlog4
            unfold afterTearDown at h
            by_cases hleft : exception.left ≠ e3
            · rw [if_pos hleft] at h
              cases hf3 : s3.fp with
              | none =>
                simp only [hf3, Option.some.injEq, Prod.mk.injEq] at h
                exact ⟨[f2], by rw [← h.1]; exact hlog4⟩
              | some g =>
                simp only [hf3, Option.some.injEq, Prod.mk.injEq] at h
                refine ⟨[f2], ?_⟩
                rw [← h.1]
                split <;> exact hlog4
            · rw [if_neg hleft] at h
              split at h
              · simp only [Option.some.injEq] at h
                refine ⟨[f2], ?_⟩
                have := unwindFinish_tornDown s3 exception e3
                rw [h] at this
                rw [this, hlog4]
              · cases hp3 : s3.pc with
                | none =>
                  simp only [hp3, Option.some.injEq, Prod.mk.injEq] at h
                  exact ⟨[f2], by rw [← h.1]; exact hlog4⟩
                | some pc3 =>
                  simp only [hp3] at h
                  obtain ⟨l, hl⟩ := ih _ _ _ _ h
                  rw [lockObjectWhileUnwinding_tornDown, hlog4] at hl
                  exact ⟨f2 :: l, by rw [hl]; simp⟩


theorem unwindFinish_returned (s : VMState) (exception : Fault) (e : Option ObjId)
    (t : VMState) (r : Nat) (h : unwindFinish s exception e = (t, .returned r)) :
    r = UnwindReachedGoal ∧ s.fp.isSome = true ∧ ∃ o, e = some o ∧ t = s.decRefCount o := by
  unfold unwindFinish at h
  cases hfp : s.fp <;> cases e <;> cases exception <;> simp only [hfp] at h <;>
    first
    | (obtain ⟨h1, h2⟩ := Prod.mk.inj h
       cases h2
       exact ⟨rfl, rfl, _, rfl, h1.symm⟩)
    | (obtain ⟨_, h2⟩ := Prod.mk.inj h
       cases h2)

theorem absorbsFault_not_passes (ar : ActRec) (h : absorbsFault ar = true) :
    passesFault ar = false := by
  unfold absorbsFault at h
  unfold passesFault
  cases hres : ar.resumed <;> cases hk : ar.func.kind <;>
    cases h1 : ar.isAsyncEagerReturn <;> cases h2 : ar.func.isMemoizeImpl <;>
    simp_all [Func.isAsyncFunction, Func.isAsyncGenerator, Func.isNonAsyncGenerator]

theorem absorbsFault_valid (ar : ActRec) (h : absorbsFault ar = true) :
    ar.resumed = true → ar.func.kind ≠ FuncKind.plain := by
  intro hres hk
  simp [absorbsFault, hres, hk, Func.isAsyncFunction, Func.isAsyncGenerator] at h

theorem passes_or_absorbs (ar : ActRec)
    (hvalid : ar.resumed = true → ar.func.kind ≠ FuncKind.plain) :
    passesFault ar = true ∨ absorbsFault ar = true := by
  unfold absorbsFault passesFault
  cases hres : ar.resumed <;> cases hk : ar.func.kind <;>
    cases h1 : ar.isAsyncEagerReturn <;> cases h2 : ar.func.isMemoizeImpl <;>
    simp_all [Func.isAsyncFunction, Func.isAsyncGenerator, Func.isNonAsyncGenerator]

/-- When `tearDownFrame` returns an exception object, the frame is one that
passes the fault on. -/
theorem tearDownFrame_returns_passes (env : Env) (s : VMState) (f : Int) (exc e2 : ObjId)
    (s2 : VMState) (hfp : s.fp = some f)
    (h : tearDownFrame env s (some exc) = some (s2, some e2)) :
    passesFault (s.frames f) = true := by
  simp only [tearDownFrame, hfp] at h
  cases hkk : tearDownKind env (s.emit (.tearDownFrame f)) f (some exc) with
  | none => simp [hkk] at h
  | some r =>
    obtain ⟨s1, r1⟩ := r
    simp only [hkk] at h
    have hr1 : r1 = some e2 := by
      cases hsfp : (s.frames f).sfp <;> simp only [hsfp] at h <;>
        exact (Prod.mk.inj (Option.some.inj h)).2
    rw [hr1] at hkk
    simpa using tearDownKind_returns_fault env _ f exc e2 s1 hkk

/-- The function `tearDownFrame` on a frame that absorbs the fault: it
returns null. -/
theorem tearDownFrame_absorbs (env : Env) (s : VMState) (f : Int) (exc : ObjId)
    (hfp : s.fp = some f) (habs : absorbsFault (s.frames f) = true) :
    ∃ s2, tearDownFrame env s (some exc) = some (s2, none) ∧
      s2.fp = (s.frames f).sfp ∧
      s2.pc = (s.frames f).sfp.map (callerPc s f) ∧
      SameFrames s s2 ∧
      s2.pendingException = s.pendingException ∧
      tornDown s2.log = tornDown s.log ++ [f] := by
  obtain ⟨s2, r, h, hfp2, hpc2, hfr, hpe, hlog, hr⟩ :=
    tearDownFrame_effects env s f (some exc) hfp (absorbsFault_valid _ habs)
  cases r with
  | none => exact ⟨s2, h, hfp2, hpc2, hfr, hpe, hlog⟩
  | some e2 =>
    have hp := tearDownFrame_returns_passes env s f exc e2 s2 hfp h
    rw [absorbsFault_not_passes _ habs] at hp
    cases hp

/-- When `tearDownFrame` turns an exception object into null, the frame is
one that absorbs the fault. -/
theorem tearDownFrame_null_absorbs (env : Env) (s : VMState) (f : Int) (exc : ObjId)
    (s2 : VMState) (hfp : s.fp = some f)
    (h : tearDownFrame env s (some exc) = some (s2, none)) :
    absorbsFault (s.frames f) = true := by
  obtain ⟨f2, hf2, hvalid⟩ := tearDownFrame_some env s (some exc) s2 none h
  rw [hfp] at hf2
  cases hf2
  rcases passes_or_absorbs _ hvalid with hp | ha
  · obtain ⟨s3, h3, _⟩ := tearDownFrame_passes env s f exc hfp hp
    rw [h3] at h
    cases h
  · exact ha

/-- Every result of the loop of `unwindVM` is one of four values. -/
theorem unwindLoop_flags (env : Env) (exception : Fault) (target : Option Int)
    (fuel : Nat) : ∀ (s : VMState) (e : Option ObjId) (t : VMState) (r : Nat),
      unwindLoop env exception target fuel s e = some (t, .returned r) →
      r = UnwindNone ∨ r = UnwindReachedGoal ∨ r = UnwindNone ||| UnwindFSWH ∨
        r = UnwindSkipCall ||| UnwindFSWH := by
  induction fuel with
  | zero => intro s e t r h; simp [unwindLoop] at h
  | succ fuel ih =>
    intro s e t r h
    cases hfp : s.fp with
    | none =>
      rw [unwindLoop] at h
      simp [hfp] at h
    | some f =>
      cases hpc : s.pc with
      | none =>
        rw [unwindLoop] at h
        simp [hfp, hpc] at h
      | some pc =>
        cases hh : handlerAt s f pc e with
        | some eh =>
          cases e with
          | none => rw [handlerAt_none] at hh; cases hh
          | some exc =>
            rw [unwindLoop_handler env exception target fuel s f pc exc eh hfp hpc hh] at h
            simp only [Option.some.injEq, Prod.mk.injEq, UnwindOutcome.returned.injEq] at h
            exact Or.inl h.2.symm
        | none =>
          rw [unwindLoop_teardown env exception target fuel s f pc e hfp hpc hh] at h
          cases htd : tearDownFrame env (discardStackTemps s f) e with
          | none => simp [htd] at h
          | some q =>
            obtain ⟨s3, e3⟩ := q
            simp only [htd] at h
            unfold afterTearDown at h
            by_cases hleft : exception.left ≠ e3
            · rw [if_pos hleft] at h
              cases hf3 : s3.fp with
              | none =>
                simp only [hf3, Option.some.injEq, Prod.mk.injEq,
                  UnwindOutcome.returned.injEq] at h
                exact Or.inr (Or.inr (Or.inl h.2.symm))
              | some g =>
                simp only [hf3, Option.some.injEq, Prod.mk.injEq,
                  UnwindOutcome.returned.injEq] at h
                exact Or.inr (Or.inr (Or.inr h.2.symm))
            · rw [if_neg hleft] at h
              split at h
              · exact Or.inr (Or.inl
                  (unwindFinish_returned s3 exception e3 t r (Option.some.inj h)).1)
              · cases hp3 : s3.pc with
                | none => simp [hp3] at h
                | some pc3 =>
                  simp only [hp3] at h
                  exact ih _ _ _ _ h


theorem handlerAt_eq_none_iff (s : VMState) (f pc : Int) (exc : ObjId) :
    handlerAt s f pc (some exc) = none ↔ noHandlerAt s f pc = true := by
  unfold handlerAt noHandlerAt
  cases hp : s.pendingException <;> cases hl : (s.frames f).localsDecRefd <;>
    cases hf : (s.frames f).func.findEH ((s.frames f).func.unit.offsetOf pc) <;> simp

/-- The function `unwindVM` is its loop, entered after the reference count of
the exception object is incremented and the member-instruction registers are
released. -/
theorem unwindVM_eq_loop (env : Env) (fuel : Nat) (s : VMState) (exception : Fault)
    (target : Option Int) (pc : Int) (hpc : s.pc = some pc) :
    unwindVM env fuel s exception target =
      unwindLoop env exception target fuel
        (discardMemberTVRefs env
          (match exception.left with
            | some o => s.incRefCount o
            | none => s) pc) exception.left := by
  unfold unwindVM
  cases exception <;> simp [Fault.left, hpc]

/-- An iteration of the loop of `unwindVM` in which the teardown of the frame
turns the exception object into null. -/
theorem unwindLoop_absorbs (env : Env) (exc : ObjId) (target : Option Int) (fuel : Nat)
    (s : VMState) (f pc : Int) (s2 : VMState) (hfp : s.fp = some f) (hpc : s.pc = some pc)
    (hno : noHandlerAt s f pc = true)
    (htd : tearDownFrame env (discardStackTemps s f) (some exc) = some (s2, none)) :
    unwindLoop env (.php exc) target (fuel + 1) s (some exc) =
        some ((if s2.fp.isSome && target.isNone then
            { s2 with pc := s2.pc.map (skipCall env) } else s2),
          .returned ((if s2.fp.isSome then UnwindSkipCall else UnwindNone) ||| UnwindFSWH)) ∧
      s2.fp = (s.frames f).sfp ∧
      s2.pc = (s.frames f).sfp.map (callerPc s f) ∧
      tornDown s2.log = tornDown s.log ++ [f] ∧
      absorbsFault (s.frames f) = true := by
  have hfp1 : (discardStackTemps s f).fp = some f := by simpa using hfp
  obtain ⟨f2, hf2, hvalid⟩ := tearDownFrame_some env _ (some exc) s2 none htd
  rw [hfp1] at hf2
  cases hf2
  obtain ⟨s3, r3, h3, hfp3, hpc3, _, _, hlog3, _⟩ :=
    tearDownFrame_effects env (discardStackTemps s f) f (some exc) hfp1 hvalid
  rw [htd] at h3
  obtain ⟨h31, _⟩ := Prod.mk.inj (Option.some.inj h3)
  subst h31
  have habs := tearDownFrame_null_absorbs env _ f exc s2 hfp1 htd
  simp only [discardStackTemps_frames] at hfp3 hpc3 habs
  rw [discardStackTemps_tornDown] at hlog3
  have hcp : callerPc (discardStackTemps s f) f = callerPc s f := by
    funext g
    simp [callerPc]
  rw [hcp] at hpc3
  refine ⟨?_, hfp3, hpc3, hlog3, habs⟩
  rw [unwindLoop_step env (.php exc) target fuel s f pc exc hfp hpc hno, htd]
  have hne : (Fault.php exc).left ≠ none := by simp [Fault.left]
  simp only []
  rw [if_pos hne]
  cases hf : s2.fp <;> cases ht : target <;> simp

/-- Claim C13. Absorption stops the unwind: in every iteration of the loop of
`unwindVM` that enters no handler and whose teardown turns the exception
object into null, the loop returns at once: the frames torn down are those
torn down before and the current frame, the result has `UnwindFSWH` set, it
has `UnwindSkipCall` set exactly when a caller frame remains, and the program
counter is the one teardown set, advanced past the call instruction exactly
when a caller frame remains and no target frame was supplied. The frame is
then one that absorbs the fault. -/
theorem unwindLoop_absorbed (env : Env) (exc : ObjId) (target : Option Int) (fuel : Nat)
    (s : VMState) (f pc : Int) (hfp : s.fp = some f) (hpc : s.pc = some pc)
    (hno : noHandlerAt s f pc = true)
    (htd : (tearDownFrame env (discardStackTemps s f) (some exc)).map Prod.snd = some none) :
    ∃ s2 t r, tearDownFrame env (discardStackTemps s f) (some exc) = some (s2, none) ∧
      unwindLoop env (.php exc) target (fuel + 1) s (some exc) = some (t, .returned r) ∧
      tornDown t.log = tornDown s.log ++ [f] ∧
      r &&& UnwindFSWH = UnwindFSWH ∧
      (r &&& UnwindSkipCall = UnwindSkipCall ↔ t.fp ≠ none) ∧
      r = (if t.fp = none then UnwindNone else UnwindSkipCall) ||| UnwindFSWH ∧
      t.fp = (s.frames f).sfp ∧
      s2.pc = (s.frames f).sfp.map (callerPc s f) ∧
      t.pc = (if t.fp ≠ none ∧ target = none then s2.pc.map (skipCall env) else s2.pc) ∧
      t.stack = s2.stack ∧
      absorbsFault (s.frames f) = true := by
  cases hq : tearDownFrame env (discardStackTemps s f) (some exc) with
  | none => simp [hq] at htd
  | some q =>
    obtain ⟨s2, r2⟩ := q
    simp only [hq, Option.map_some', Option.some.injEq] at htd
    subst htd
    obtain ⟨hloop, hfp2, hpc2, hlog, habs⟩ :=
      unwindLoop_absorbs env exc target fuel s f pc s2 hfp hpc hno hq
    refine ⟨s2, _, _, rfl, hloop, ?_, ?_, ?_, ?_, ?_, hpc2, ?_, ?_, habs⟩
    · split <;> exact hlog
    · split <;> decide
    · cases hf : s2.fp <;> cases ht : target <;>
        simp [hf, UnwindSkipCall, UnwindNone, UnwindFSWH] <;> decide
    · cases hf : s2.fp <;> cases ht : target <;> simp [hf]
    · rw [← hfp2]
      split <;> rfl
    · cases hf : s2.fp <;> cases ht : target <;> simp [hf]
    · split <;> rfl

/-- The eagerly executed async function of `stateEagerAsync` absorbs the
fault 7: the loop returns `UnwindSkipCall | UnwindFSWH` after tearing down
the frame at 50 only, with the caller at 60 as current frame and the program
counter past the call at 1005. -/
theorem unwindLoop_absorbed_witness :
    stateEagerAsync.fp = some 50 ∧ stateEagerAsync.pc = some 1003 ∧
    ∃ s2 t r, tearDownFrame exEnv (discardStackTemps stateEagerAsync 50) (some 7) =
        some (s2, none) ∧
      unwindLoop exEnv (.php 7) none 1 stateEagerAsync (some 7) = some (t, .returned r) ∧
      tornDown t.log = [50] ∧ r = 6 ∧ t.fp = some 60 ∧ t.pc = some 1006 := by
  obtain ⟨s2, t, r, h1, h2, h3, _, _, h6, h7, h8, h9, _⟩ :=
    unwindLoop_absorbed exEnv 7 none 0 stateEagerAsync 50 1003 rfl rfl (by decide) (by decide)
  have hfp : t.fp = some 60 := h7
  refine ⟨rfl, rfl, s2, t, r, h1, h2, h3, ?_, hfp, ?_⟩
  · rw [h6, hfp]; decide
  · rw [h9, h8, hfp]
    decide


/-- Every result of `unwindVM` is one of four values. -/
theorem unwindVM_flags (env : Env) (fuel : Nat) (s : VMState) (exception : Fault)
    (target : Option Int) (t : VMState) (r : Nat)
    (h : unwindVM env fuel s exception target = some (t, .returned r)) :
    r = UnwindNone ∨ r = UnwindReachedGoal ∨ r = UnwindNone ||| UnwindFSWH ∨
      r = UnwindSkipCall ||| UnwindFSWH := by
  cases hpc : s.pc with
  | none =>
    cases exception <;> simp [unwindVM, Fault.left, hpc] at h
  | some pc =>
    rw [unwindVM_eq_loop env fuel s exception target pc hpc] at h
    exact unwindLoop_flags env exception target fuel _ _ t r h

/-- Claim C17. Goal-reached and absorbed never co-occur: every result
`unwindVM` returns is `UnwindNone`, `UnwindReachedGoal`, `UnwindFSWH` or
`UnwindSkipCall | UnwindFSWH`, so the flag `UnwindReachedGoal` is never
combined with `UnwindFSWH` or `UnwindSkipCall`. In particular, when the
current frame has no handler to enter, absorbs the fault, and its caller is
the target frame, `unwindVM` returns `UnwindSkipCall | UnwindFSWH`, with the
target frame as current frame, and not `UnwindReachedGoal`. -/
theorem unwindVM_goal_not_absorbed (env : Env) (fuel : Nat) (s : VMState)
    (exception : Fault) (target : Option Int) :
    (∀ t r, unwindVM env fuel s exception target = some (t, .returned r) →
      (r = UnwindNone ∨ r = UnwindReachedGoal ∨ r = UnwindNone ||| UnwindFSWH ∨
        r = UnwindSkipCall ||| UnwindFSWH) ∧
      ¬ (r &&& UnwindReachedGoal ≠ 0 ∧ r &&& (UnwindFSWH ||| UnwindSkipCall) ≠ 0)) ∧
    (∀ f pc g exc, exception = .php exc → target = some g → s.fp = some f →
      s.pc = some pc → (s.frames f).sfp = some g → noHandlerAt s f pc = true →
      absorbsFault (s.frames f) = true → 0 < fuel →
      ∃ t, unwindVM env fuel s exception target =
          some (t, .returned (UnwindSkipCall ||| UnwindFSWH)) ∧
        UnwindSkipCall ||| UnwindFSWH ≠ UnwindReachedGoal ∧
        t.fp = target ∧ tornDown t.log = tornDown s.log ++ [f]) := by
  constructor
  · intro t r h
    have hr := unwindVM_flags env fuel s exception target t r h
    refine ⟨hr, ?_⟩
    rcases hr with hr | hr | hr | hr <;> rw [hr] <;> decide
  · intro f pc g exc hex htarget hfp hpc hsfp hno habs hfuel
    subst hex
    subst htarget
    obtain ⟨fuel, rfl⟩ : ∃ k, fuel = k + 1 := ⟨fuel - 1, by omega⟩
    have hext : Extends s (discardMemberTVRefs env (s.incRefCount exc) pc) :=
      Extends.trans ⟨rfl, rfl, Or.inl rfl, Or.inl rfl, fun _ => Or.inl rfl⟩
        (discardMemberTVRefs_extends env (s.incRefCount exc) pc)
    obtain ⟨s2, htd, _⟩ := tearDownFrame_absorbs env
      (discardStackTemps (discardMemberTVRefs env (s.incRefCount exc) pc) f) f exc
      (by simpa using hfp) (by simpa using habs)
    obtain ⟨hloop, hfp2, _, hlog, _⟩ :=
      unwindLoop_absorbs env exc (some g) fuel
        (discardMemberTVRefs env (s.incRefCount exc) pc) f pc s2
        (by simpa using hfp) (by simpa using hpc) (hext.noHandlerAt f pc hno) htd
    simp only [discardMemberTVRefs_frames, incRefCount_frames, hsfp] at hfp2
    refine ⟨s2, ?_, by decide, hfp2, ?_⟩
    · rw [unwindVM_eq_loop env (fuel + 1) s (.php exc) (some g) pc hpc]
      simp only [Fault.left]
      rw [hloop]
      simp [hfp2]
    · rw [hlog]
      simp [tornDown_append, tornDown_cons, tornDown_nil]

/-- The eagerly executed async function of `stateEagerAsync` at 50 absorbs the
fault 7 and its caller 60 is the target frame: the result is
`UnwindSkipCall | UnwindFSWH`, with the frame register at 60. -/
theorem unwindVM_goal_not_absorbed_witness :
    ∃ t, unwindVM exEnv 1 stateEagerAsync (.php 7) (some 60) =
        some (t, .returned (UnwindSkipCall ||| UnwindFSWH)) ∧
      UnwindSkipCall ||| UnwindFSWH ≠ UnwindReachedGoal ∧
      t.fp = some 60 ∧ tornDown t.log = tornDown stateEagerAsync.log ++ [50] :=
  (unwindVM_goal_not_absorbed exEnv 1 stateEagerAsync (.php 7) (some 60)).2
    50 1003 60 7 rfl rfl rfl rfl rfl (by decide) (by decide) (by decide)

/-- An iteration of the loop of `unwindVM` that enters no handler and returns
a result has torn down the current frame. -/
theorem unwindLoop_teardown_prefix (env : Env) (exception : Fault) (target : Option Int)
    (fuel : Nat) (s : VMState) (f pc : Int) (e : Option ObjId) (t : VMState) (r : Nat)
    (hfp : s.fp = some f) (hpc : s.pc = some pc) (hh : handlerAt s f pc e = none)
    (h : unwindLoop env exception target (fuel + 1) s e = some (t, .returned r)) :
    ∃ l, tornDown t.log = tornDown s.log ++ f :: l := by
  rw [unwindLoop_teardown env exception target fuel s f pc e hfp hpc hh] at h
  cases htd : tearDownFrame env (discardStackTemps s f) e with
  | none => simp [htd] at h
  | some q =>
    obtain ⟨s3, e3⟩ := q
    simp only [htd] at h
    have hfp1 : (discardStackTemps s f).fp = some f := by simpa using hfp
    obtain ⟨f2, hf2, hvalid⟩ := tearDownFrame_some env _ e s3 e3 htd
    rw [hfp1] at hf2
    cases hf2
    obtain ⟨s4, r4, htd4, _, _, _, _, hlog4, _⟩ :=
      tearDownFrame_effects env _ f e hfp1 hvalid
    rw [htd] at htd4
    obtain ⟨h41, _⟩ := Prod.mk.inj (Option.some.inj htd4)
    subst h41
    rw [discardStackTemps_tornDown] at hlog4
    unfold afterTearDown at h
    by_cases hleft : exception.left ≠ e3
    · rw [if_pos hleft] at h
      cases hf3 : s3.fp with
      | none =>
        simp only [hf3, Option.some.injEq, Prod.mk.injEq] at h
        exact ⟨[], by rw [← h.1]; exact hlog4⟩
      | some g =>
        simp only [hf3, Option.some.injEq, Prod.mk.injEq] at h
        refine ⟨[], ?_⟩
        rw [← h.1]
        split <;> exact hlog4
    · rw [if_neg hleft] at h
      split at h
      · simp only [Option.some.injEq] at h
        refine ⟨[], ?_⟩
        have := unwindFinish_tornDown s3 exception e3
        rw [h] at this
        rw [this, hlog4]
      · cases hp3 : s3.pc with
        | none => simp [hp3] at h
        | some pc3 =>
          simp only [hp3] at h
          obtain ⟨l, hl⟩ := unwindLoop_tornDown_prefix env exception target fuel _ _ _ _ h
          rw [lockObjectWhileUnwinding_tornDown, hlog4] at hl
          exact ⟨l, by rw [hl]; simp⟩


/-- The lookup `Func::findEH` finds an entry exactly when an entry of the
exception table contains the offset. -/
theorem findEH_isSome_iff (func : Func) (o : Offset) :
    (∃ eh, func.findEH o = some eh) ↔ ∃ e ∈ func.ehtab, e.covers o = true := by
  unfold Func.findEH findEH
  rcases foldl_findEHStep_none o func.ehtab with ⟨hn, hall⟩ | ⟨r, hr, hrm, hrc⟩
  · rw [hn]
    constructor
    · rintro ⟨eh, h⟩; cases h
    · rintro ⟨e, he, hc⟩
      rw [hall e he] at hc
      cases hc
  · rw [hr]
    exact ⟨fun _ => ⟨r, hrm, hrc⟩, fun _ => ⟨r, rfl⟩⟩

theorem popTVs_stack_top (k : Nat) : ∀ s : VMState,
    (VMState.popTVs k s).stack.top = s.stack.top + k := by
  induction k with
  | zero => intro s; simp [VMState.popTVs]
  | succ k ih =>
    intro s
    simp only [VMState.popTVs]
    rw [ih, popTV_stack_top]
    push_cast
    ring

/-- After `discardStackTemps` the top of the stack is the base of the
frame. -/
theorem discardStackTemps_stack_top (s : VMState) (f : Int)
    (h : s.stack.top ≤ s.frameStackBase f) :
    (discardStackTemps s f).stack.top = s.frameStackBase f := by
  unfold discardStackTemps
  rw [popTVs_stack_top, Int.toNat_of_nonneg (by linarith)]
  ring

/-- The state in which a handler is entered. -/
theorem enterHandler_effects (s : VMState) (f : Int) (exc : ObjId) (eh : EHEnt) :
    (enterHandler s f exc eh).fp = s.fp ∧
    (enterHandler s f exc eh).pc = some ((s.frames f).func.unit.at eh.m_handler) ∧
    (enterHandler s f exc eh).stack.top = (discardStackTemps s f).stack.top - 1 ∧
    ((enterHandler s f exc eh).stack.mem (enterHandler s f exc eh).stack.top).val =
      .obj exc ∧
    (∀ a, a ≠ (enterHandler s f exc eh).stack.top →
      (enterHandler s f exc eh).stack.mem a = s.stack.mem a) ∧
    (enterHandler s f exc eh).refCount = (discardStackTemps s f).refCount ∧
    refOps exc (enterHandler s f exc eh).log = refOps exc s.log ∧
    tornDown (enterHandler s f exc eh).log = tornDown s.log := by
  have hmem : (discardStackTemps s f).stack.mem = s.stack.mem := by
    simp [discardStackTemps, popTVs_stack_mem]
  have hro : refOps exc (discardStackTemps s f).log = refOps exc s.log := by
    simp [discardStackTemps, popTVs_refOps]
  unfold enterHandler
  simp only []
  split
  · refine ⟨by simp, rfl, rfl, ?_, ?_, by simp, ?_, ?_⟩
    · simp [VMState.emit, VMState.pushObjectNoRc]
    · intro a ha
      simp only [VMState.emit, VMState.pushObjectNoRc] at ha ⊢
      rw [if_neg ha, hmem]
    · simp only [VMState.emit, VMState.pushObjectNoRc, refOps_append, hro]
      simp [refOps]
    · simp [tornDown_append, tornDown_cons, tornDown_nil, discardStackTemps_tornDown]
  · refine ⟨by simp, rfl, rfl, ?_, ?_, by simp, ?_, ?_⟩
    · simp [VMState.pushObjectNoRc]
    · intro a ha
      simp only [VMState.pushObjectNoRc] at ha ⊢
      rw [if_neg ha, hmem]
    · simpa using hro
    · simp [discardStackTemps_tornDown]

/-- Claim C12. Handler entry: in an iteration of the loop of `unwindVM` with
the current frame `f` and the program counter `pc`, the loop stops at a
handler of the current frame (it returns `UnwindNone` without tearing down a
frame) if and only if no exception is pending for the request, the fault is
an exception object, the flag `localsDecRefd` of the frame is clear and an
entry of the exception table contains the offset of `pc`. In that case the
frame register is unchanged, the program counter is the handler of the entry
`findEH` returns, the stack temporaries of the frame are discarded and the
exception object is pushed (the stack top is one cell below the base of the
frame, that cell holds the exception object and no other cell is written),
and the unwinder performs no reference count operation on the exception
object: pushing takes no reference. -/
theorem unwindLoop_handler_entry (env : Env) (exception : Fault) (target : Option Int)
    (fuel : Nat) (s : VMState) (f pc : Int) (hfp : s.fp = some f) (hpc : s.pc = some pc) :
    ((∃ t, unwindLoop env exception target (fuel + 1) s exception.left =
          some (t, .returned UnwindNone) ∧ tornDown t.log = tornDown s.log) ↔
      (s.pendingException = false ∧ (∃ exc, exception = .php exc) ∧
        (s.frames f).localsDecRefd = false ∧
        ∃ e ∈ (s.frames f).func.ehtab,
          e.covers ((s.frames f).func.unit.offsetOf pc) = true)) ∧
    (∀ exc, exception = .php exc → s.pendingException = false →
      (s.frames f).localsDecRefd = false →
      (∃ e ∈ (s.frames f).func.ehtab,
        e.covers ((s.frames f).func.unit.offsetOf pc) = true) →
      ∃ t eh, (s.frames f).func.findEH ((s.frames f).func.unit.offsetOf pc) = some eh ∧
        unwindLoop env exception target (fuel + 1) s exception.left =
          some (t, .returned UnwindNone) ∧
        t.fp = some f ∧
        t.pc = some ((s.frames f).func.unit.at eh.m_handler) ∧
        (s.stack.top ≤ s.frameStackBase f → t.stack.top = s.frameStackBase f - 1) ∧
        (t.stack.mem t.stack.top).val = .obj exc ∧
        (∀ a, a ≠ t.stack.top → t.stack.mem a = s.stack.mem a) ∧
        t.refCount = (discardStackTemps s f).refCount ∧
        refOps exc t.log = refOps exc s.log ∧
        tornDown t.log = tornDown s.log) := by
  have hentry : ∀ exc, exception = .php exc → s.pendingException = false →
      (s.frames f).localsDecRefd = false →
      (∃ e ∈ (s.frames f).func.ehtab,
        e.covers ((s.frames f).func.unit.offsetOf pc) = true) →
      ∃ eh, (s.frames f).func.findEH ((s.frames f).func.unit.offsetOf pc) = some eh ∧
        unwindLoop env exception target (fuel + 1) s exception.left =
          some (enterHandler s f exc eh, .returned UnwindNone) := by
    intro exc hex hpe hflag hcov
    obtain ⟨eh, heh⟩ := (findEH_isSome_iff _ _).mpr hcov
    subst hex
    refine ⟨eh, heh, ?_⟩
    exact unwindLoop_handler env (.php exc) target fuel s f pc exc eh hfp hpc
      (by simp [handlerAt, hpe, hflag, heh])
  constructor
  · constructor
    · rintro ⟨t, hrun, hlog⟩
      cases hh : handlerAt s f pc exception.left with
      | none =>
        obtain ⟨l, hl⟩ := unwindLoop_teardown_prefix env exception target fuel s f pc
          exception.left t UnwindNone hfp hpc hh hrun
        rw [hlog] at hl
        have := congrArg List.length hl
        simp at this
      | some eh =>
        unfold handlerAt at hh
        cases hp : s.pendingException <;> cases hl : (s.frames f).localsDecRefd <;>
          cases exception <;> simp [hp, hl, Fault.left] at hh
        exact ⟨rfl, ⟨_, rfl⟩, rfl, (findEH_isSome_iff _ _).mp ⟨eh, hh⟩⟩
    · rintro ⟨hpe, ⟨exc, hex⟩, hflag, hcov⟩
      obtain ⟨eh, _, hrun⟩ := hentry exc hex hpe hflag hcov
      exact ⟨_, hrun, (enterHandler_effects s f exc eh).2.2.2.2.2.2.2⟩
  · intro exc hex hpe hflag hcov
    obtain ⟨eh, heh, hrun⟩ := hentry exc hex hpe hflag hcov
    obtain ⟨h1, h2, h3, h4, h5, h6, h7, h8⟩ := enterHandler_effects s f exc eh
    refine ⟨_, eh, heh, hrun, by rw [h1, hfp], h2, ?_, h4, h5, h6, h7, h8⟩
    intro hle
    rw [h3, discardStackTemps_stack_top s f hle]

/-- The frame of `stateWithHandler` has a handler for the program counter
1003: the loop returns `UnwindNone` with the frame register still at 50, the
program counter at the handler 1020, the two temporaries discarded and the
fault 7 in the cell 49, one below the base 50 of the frame. -/
theorem unwindLoop_handler_entry_witness :
    stateWithHandler.fp = some 50 ∧ stateWithHandler.pc = some 1003 ∧
    ∃ (t : VMState) (eh : EHEnt),
      unwindLoop exEnv (.php 7) none 1 stateWithHandler (some 7) =
        some (t, .returned UnwindNone) ∧
      eh.m_handler = 20 ∧
      t.fp = some 50 ∧ t.pc = some (1000 + eh.m_handler) ∧ t.stack.top = 49 ∧
      (t.stack.mem t.stack.top).val = .obj 7 ∧
      refOps 7 t.log = [] ∧ tornDown t.log = [] := by
  obtain ⟨t, eh, heh, hrun, hfp, hpc, htop, hmem, _, _, hro, hlog⟩ :=
    (unwindLoop_handler_entry exEnv (.php 7) none 0 stateWithHandler 50 1003 rfl rfl).2
      7 rfl rfl rfl ⟨⟨0, 10, 20⟩, by decide, by decide⟩
  have heh2 : eh = ⟨0, 10, 20⟩ := by
    have : (stateWithHandler.frames 50).func.findEH
        ((stateWithHandler.frames 50).func.unit.offsetOf 1003) = some ⟨0, 10, 20⟩ := by
      decide
    rw [this] at heh
    exact (Option.some.inj heh).symm
  exact ⟨rfl, rfl, t, eh, hrun, by rw [heh2], hfp, hpc, htop (by decide), hmem, hro, hlog⟩


/-- Without an exception object, `tearDownFrame` returns none. -/
theorem tearDownFrame_host (env : Env) (s : VMState) (s2 : VMState) (r : Option ObjId)
    (h : tearDownFrame env s none = some (s2, r)) : r = none := by
  obtain ⟨f, hf, hvalid⟩ := tearDownFrame_some env s none s2 r h
  obtain ⟨s3, r3, h3, _, _, _, _, _, hr⟩ := tearDownFrame_effects env s f none hf hvalid
  rw [h] at h3
  obtain ⟨_, h32⟩ := Prod.mk.inj (Option.some.inj h3)
  rw [h32]
  rcases hr with hr | hr <;> exact hr

/-- The loop of `unwindVM` on a host-level fault returns no result: it ends
by rethrowing the fault, or its behaviour is undefined. -/
theorem unwindLoop_host_outcome (env : Env) (e : Nat) (target : Option Int) (fuel : Nat) :
    ∀ (s t : VMState) (out : UnwindOutcome),
      unwindLoop env (.cpp e) target fuel s none = some (t, out) →
      out = .undefined ∨ out = .throwException e := by
  induction fuel with
  | zero => intro s t out h; simp [unwindLoop] at h
  | succ fuel ih =>
    intro s t out h
    cases hfp : s.fp with
    | none =>
      rw [unwindLoop] at h
      simp only [hfp, Option.some.injEq, Prod.mk.injEq] at h
      exact Or.inl h.2.symm
    | some f =>
      cases hpc : s.pc with
      | none =>
        rw [unwindLoop] at h
        simp only [hfp, hpc, Option.some.injEq, Prod.mk.injEq] at h
        exact Or.inl h.2.symm
      | some pc =>
        rw [unwindLoop_teardown env (.cpp e) target fuel s f pc none hfp hpc
          (handlerAt_none s f pc)] at h
        cases htd : tearDownFrame env (discardStackTemps s f) none with
        | none =>
          simp only [htd, Option.some.injEq, Prod.mk.injEq] at h
          exact Or.inl h.2.symm
        | some q =>
          obtain ⟨s3, e3⟩ := q
          have he3 := tearDownFrame_host env _ s3 e3 htd
          subst he3
          simp only [htd] at h
          unfold afterTearDown at h
          rw [if_neg (by simp [Fault.left])] at h
          split at h
          · have hfin := Option.some.inj h
            unfold unwindFinish at hfin
            cases hf3 : s3.fp <;> simp only [hf3, Prod.mk.injEq] at hfin
            · exact Or.inr hfin.2.symm
            · exact Or.inl hfin.2.symm
          · cases hp3 : s3.pc with
            | none =>
              simp only [hp3, Option.some.injEq, Prod.mk.injEq] at h
              exact Or.inl h.2.symm
            | some pc3 =>
              simp only [hp3] at h
              exact ih _ _ _ h

/-- The loop of `unwindVM` on a host-level fault, with the frames `fs` from
the current frame up to the outermost frame of the nesting level, none of
which above the current frame is the target: every frame is torn down and
the fault is rethrown. -/
theorem unwindLoop_host_propagates (env : Env) (e : Nat) (target : Option Int) :
    ∀ (fs : List Int) (s : VMState) (pc : Int) (fuel : Nat),
      s.fp = fs.head? → s.pc = some pc → linked s none fs = true →
      (∀ f ∈ fs, (s.frames f).resumed = true → (s.frames f).func.kind ≠ FuncKind.plain) →
      (∀ g ∈ fs.tail, target ≠ some g) → fs.length ≤ fuel →
      ∃ t, unwindLoop env (.cpp e) target fuel s none = some (t, .throwException e) ∧
        t.fp = none ∧ t.pc = none ∧ tornDown t.log = tornDown s.log ++ fs := by
  intro fs
  induction fs with
  | nil => intro s pc fuel _ _ hl; simp [linked] at hl
  | cons f rest ih =>
    intro s pc fuel hfp hpc hl hvalid hnt hfuel
    have hfp2 : s.fp = some f := by simpa using hfp
    obtain ⟨fuel, rfl⟩ : ∃ k, fuel = k + 1 :=
      ⟨fuel - 1, by simp only [List.length_cons] at hfuel; omega⟩
    have hfp1 : (discardStackTemps s f).fp = some f := by simpa using hfp2
    obtain ⟨s2, r, htd, hfps, hpcs, hfr, _, hlog, hr⟩ :=
      tearDownFrame_effects env (discardStackTemps s f) f none hfp1
        (by simpa using hvalid f (List.mem_cons_self _ _))
    have hr2 : r = none := by rcases hr with hr | hr <;> exact hr
    subst hr2
    simp only [discardStackTemps_frames] at hfps hpcs
    rw [discardStackTemps_tornDown] at hlog
    rw [unwindLoop_teardown env (.cpp e) target fuel s f pc none hfp2 hpc
      (handlerAt_none s f pc), htd]
    simp only []
    unfold afterTearDown
    rw [if_neg (by simp [Fault.left])]
    cases rest with
    | nil =>
      have hsfp : (s.frames f).sfp = none := by simpa [linked] using hl
      rw [hsfp] at hfps hpcs
      refine ⟨s2, ?_, hfps, by simpa using hpcs, hlog⟩
      simp [hfps, unwindFinish]
    | cons g rest =>
      simp only [linked, Bool.and_eq_true, beq_iff_eq] at hl
      obtain ⟨⟨hsfp, _⟩, hl2⟩ := hl
      rw [hsfp] at hfps hpcs
      have hng : target ≠ some g := hnt g (by simp)
      have hsame : SameFrames s s2 :=
        sameFrames_trans (discardStackTemps_sameFrames s f) hfr
      simp only [Option.map_some'] at hpcs
      have hcond : (s2.fp.isNone || (target.isSome && s2.fp == target)) = false := by
        rw [hfps]
        cases target with
        | none => rfl
        | some x =>
          have : g ≠ x := fun hx => hng (by rw [hx])
          simp [this]
      rw [hcond]
      simp only [Bool.false_eq_true, if_false, hpcs]
      have hsame2 : SameFrames s (lockObjectWhileUnwinding env s2
          (callerPc (discardStackTemps s f) f g)) :=
        sameFrames_trans hsame (lockObjectWhileUnwinding_sameFrames env s2 _)
      obtain ⟨t, hrun, hfpt, hpct, hlogt⟩ :=
        ih (lockObjectWhileUnwinding env s2 (callerPc (discardStackTemps s f) f g))
          (callerPc (discardStackTemps s f) f g) fuel
          (by simpa using hfps) (by simp [hpcs])
          (by rw [hsame2.linked]; exact hl2)
          (by
            intro a ha
            rw [hsame2.resumed, hsame2.func]
            exact hvalid a (List.mem_cons_of_mem _ ha))
          (by
            intro a ha
            exact hnt a (by simp only [List.tail_cons] at ha ⊢; exact List.mem_cons_of_mem _ ha))
          (by simp only [List.length_cons] at hfuel ⊢; omega)
      refine ⟨t, hrun, hfpt, hpct, ?_⟩
      rw [hlogt, lockObjectWhileUnwinding_tornDown, hlog]
      simp

/-- The unwind driver on a host-level fault, in the model: no result is
returned (no handler is entered and no teardown absorbs the fault), with or
without a target frame. When `fs` are the frames from the current frame up to
the outermost frame of the nesting level, none of them a resumed frame of a
plain function, and no frame above the current one is the target, then with
at least as much fuel as there are frames the fault propagates to the
outermost frame: every frame of `fs` is torn down, in order, the registers
are null and the fault is rethrown. -/
theorem unwindVM_host_fault (env : Env) (s : VMState) (e : Nat) (target : Option Int) :
    (∀ fuel t out, unwindVM env fuel s (.cpp e) target = some (t, out) →
      out = .undefined ∨ out = .throwException e) ∧
    (∀ (fs : List Int) (pc : Int) (fuel : Nat), s.fp = fs.head? → s.pc = some pc →
      linked s none fs = true →
      (∀ f ∈ fs, (s.frames f).resumed = true → (s.frames f).func.kind ≠ FuncKind.plain) →
      (∀ g ∈ fs.tail, target ≠ some g) → fs.length ≤ fuel →
      ∃ t, unwindVM env fuel s (.cpp e) target = some (t, .throwException e) ∧
        t.fp = none ∧ t.pc = none ∧ tornDown t.log = tornDown s.log ++ fs) := by
  constructor
  · intro fuel t out h
    cases hpc : s.pc with
    | none =>
      simp only [unwindVM, Fault.left, hpc, Option.some.injEq, Prod.mk.injEq] at h
      exact Or.inl h.2.symm
    | some pc =>
      rw [unwindVM_eq_loop env fuel s (.cpp e) target pc hpc] at h
      exact unwindLoop_host_outcome env e target fuel _ t out h
  · intro fs pc fuel hfp hpc hl hvalid hnt hfuel
    rw [unwindVM_eq_loop env fuel s (.cpp e) target pc hpc]
    simp only [Fault.left]
    have hsame : SameFrames s (discardMemberTVRefs env s pc) := sameFrames_of_eq (by simp)
    obtain ⟨t, hrun, hfpt, hpct, hlogt⟩ :=
      unwindLoop_host_propagates env e target fs (discardMemberTVRefs env s pc) pc fuel
        (by simpa using hfp) (by simpa using hpc)
        (by rw [hsame.linked]; exact hl)
        (by intro a ha; rw [hsame.resumed, hsame.func]; exact hvalid a ha)
        hnt hfuel
    exact ⟨t, hrun, hfpt, hpct, by rw [hlogt]; simp⟩

/-- A host-level fault in the three frames of `stateThreeFrames`, without
target frame: the frames 50, 60 and 70 are torn down and the fault is
rethrown. -/
theorem unwindVM_host_fault_witness :
    ∃ t, unwindVM exEnv 3 stateThreeFrames (.cpp 1) none = some (t, .throwException 1) ∧
      t.fp = none ∧ t.pc = none ∧
      tornDown t.log = tornDown stateThreeFrames.log ++ [50, 60, 70] :=
  (unwindVM_host_fault exEnv stateThreeFrames 1 none).2 [50, 60, 70] 1003 3 rfl rfl
    (by decide) (by decide) (by decide) (le_refl _)

/-- Claim C16. The target frame is the current frame at entry: `unwindVM` is
called in `stateThreeFrames` (frames 50, 60 and 70, current frame 50) with
the fault 7 and the target frame 50. The code tests the target only after a
teardown: it tears down the target frame 50, then the frames 60 and 70, and
ends by throwing the fault with the frame register null, where its
documentation has it return when the frame register equals the target. -/
theorem unwindVM_target_at_entry :
    stateThreeFrames.fp = some 50 ∧
    (unwindVM exEnv 3 stateThreeFrames (.php 7) (some 50)).map
        (fun r => (r.2, r.1.fp, tornDown r.1.log)) =
      some (.throw_object 7, none, [50, 60, 70]) := by
  decide

theorem decRefLocals_flag_set (s : VMState) (f : Int) (e : Option ObjId)
    (hflag : (s.frames f).localsDecRefd = true) : decRefLocals s f e = s := by
  simp [decRefLocals, hflag]

theorem clearLocalsDecRefd_frames_self (s : VMState) (f : Int) :
    (s.clearLocalsDecRefd f).frames f = { s.frames f with localsDecRefd := false } := by
  simp [VMState.clearLocalsDecRefd]

theorem clear_setLocalsDecRefd (s : VMState) (f : Int)
    (hflag : (s.frames f).localsDecRefd = true) :
    (s.clearLocalsDecRefd f).setLocalsDecRefd f = s := by
  cases s with
  | mk fp pc stack frames refCount pendingException tvRef tvRef2 debuggerAttached log =>
    simp only [VMState.clearLocalsDecRefd, VMState.setLocalsDecRefd, VMState.mk.injEq,
      true_and, and_true]
    funext a
    by_cases ha : a = f
    · subst ha
      simp only [if_true]
      cases hfa : frames a
      simp only [hfa] at hflag
      simp [hflag]
    · simp [ha]

theorem decRefLocals_flag_clear (s : VMState) (f : Int) (e : Option ObjId)
    (hflag : (s.frames f).localsDecRefd = true) :
    decRefLocals (s.clearLocalsDecRefd f) f e =
      frame_free_locals_unwind s f (s.frames f).func.numLocals e := by
  unfold decRefLocals
  rw [clear_setLocalsDecRefd s f hflag]
  simp [clearLocalsDecRefd_frames_self]


theorem otherEvents_append (l₁ l₂ : List Event) :
    otherEvents (l₁ ++ l₂) = otherEvents l₁ ++ otherEvents l₂ := by
  simp [otherEvents]

theorem otherEvents_cons (e : Event) (l : List Event) :
    otherEvents (e :: l) = (match e with
      | .frame_free_locals_unwind _ _ _ => []
      | _ => [e]) ++ otherEvents l := by
  cases e <;> rfl

theorem otherEvents_nil : otherEvents [] = [] := rfl

theorem clearLocalsDecRefd_fp (s : VMState) (f : Int) :
    (s.clearLocalsDecRefd f).fp = s.fp := rfl

theorem clearLocalsDecRefd_pc (s : VMState) (f : Int) :
    (s.clearLocalsDecRefd f).pc = s.pc := rfl

theorem clearLocalsDecRefd_stack (s : VMState) (f : Int) :
    (s.clearLocalsDecRefd f).stack = s.stack := rfl

theorem clearLocalsDecRefd_pendingException (s : VMState) (f : Int) :
    (s.clearLocalsDecRefd f).pendingException = s.pendingException := rfl

theorem clearLocalsDecRefd_log (s : VMState) (f : Int) :
    (s.clearLocalsDecRefd f).log = s.log := rfl

theorem clearLocalsDecRefd_func (s : VMState) (f a : Int) :
    ((s.clearLocalsDecRefd f).frames a).func = (s.frames a).func := by
  unfold VMState.clearLocalsDecRefd
  by_cases ha : a = f <;> simp [ha]

/-- The kind-specific part of `tearDownFrame` on a frame whose flag
`localsDecRefd` is set does what it does when the flag is clear, the release
of the locals apart. -/
theorem tearDownKind_flag_set (env : Env) (s : VMState) (f : Int) (e : Option ObjId)
    (hflag : (s.frames f).localsDecRefd = true) :
    (tearDownKind env s f e).map teardownResult =
      (tearDownKind env (s.clearLocalsDecRefd f) f e).map teardownResult := by
  unfold tearDownKind
  simp only [clearLocalsDecRefd_frames_self, decRefLocals_flag_set s f _ hflag,
    decRefLocals_flag_clear s f _ hflag, frame_free_locals_unwind_frames]
  cases hres : (s.frames f).resumed <;> cases e <;>
    cases hfr : (s.frames f).resumable.failResult <;>
    simp only [Bool.not_false, Bool.not_true, if_true, Bool.false_eq_true, if_false] <;>
    (try split_ifs) <;>
    simp [teardownResult, otherEvents_append, otherEvents_cons, otherEvents_nil,
      clearLocalsDecRefd_func, clearLocalsDecRefd_fp, clearLocalsDecRefd_pc,
      clearLocalsDecRefd_stack, clearLocalsDecRefd_pendingException, clearLocalsDecRefd_log,
      VMState.ndiscard, VMState.discardAR, VMState.ret,
      VMState.writeRetSlot, VMState.pushObjectNoRc]

/-- The function `tearDownFrame` on a frame whose flag `localsDecRefd` is set
does what it does when the flag is clear, the release of the locals apart. -/
theorem tearDownFrame_flag_map (env : Env) (s : VMState) (f : Int) (e : Option ObjId)
    (hfp : s.fp = some f) (hflag : (s.frames f).localsDecRefd = true) :
    (tearDownFrame env s e).map teardownResult =
      (tearDownFrame env (s.clearLocalsDecRefd f) e).map teardownResult := by
  have hk := tearDownKind_flag_set env (s.emit (.tearDownFrame f)) f e
    (by simpa using hflag)
  have hemit : (s.emit (.tearDownFrame f)).clearLocalsDecRefd f =
      (s.clearLocalsDecRefd f).emit (.tearDownFrame f) := rfl
  rw [hemit] at hk
  unfold tearDownFrame
  simp only [clearLocalsDecRefd_fp, hfp, clearLocalsDecRefd_frames_self]
  cases h1 : tearDownKind env (s.emit (.tearDownFrame f)) f e with
  | none =>
    cases h2 : tearDownKind env ((s.clearLocalsDecRefd f).emit (.tearDownFrame f)) f e with
    | none => rfl
    | some q2 => rw [h1, h2] at hk; cases hk
  | some q1 =>
    cases h2 : tearDownKind env ((s.clearLocalsDecRefd f).emit (.tearDownFrame f)) f e with
    | none => rw [h1, h2] at hk; cases hk
    | some q2 =>
      rw [h1, h2] at hk
      obtain ⟨s1, r1⟩ := q1
      obtain ⟨s2, r2⟩ := q2
      simp only [Option.map_some', Option.some.injEq, teardownResult, Prod.mk.injEq] at hk
      obtain ⟨hr, _, _, hst, hpe, hev, hfn⟩ := hk
      cases hsfp : (s.frames f).sfp with
      | none => simp [teardownResult, hr, hst, hpe, hev, hfn]
      | some prev =>
        have hprev := congrFun hfn prev
        simp only [] at hprev
        simp [teardownResult, hr, hst, hpe, hev, hfn, hprev]

/-- Claim C19, as the code has it. For every frame whose flag `localsDecRefd`
is set when `tearDownFrame` is entered (a resumed frame of a plain function
apart), only the release of the locals is skipped: the call logs no release
of locals, and the rest of what it does is what it does on the same frame
with the flag clear. Both calls return the same fault (null when the frame
absorbs an exception object, the fault it was given otherwise), the same
frame register (the caller of the frame), the same program counter and the
same stack, and they log the same events other than the release of locals:
the stack slots are discarded or pushed and the wait handle or generator is
failed as for a frame whose locals are not released. -/
theorem tearDownFrame_flag_set (env : Env) (s : VMState) (f : Int) (e : Option ObjId)
    (hfp : s.fp = some f) (hflag : (s.frames f).localsDecRefd = true)
    (hvalid : (s.frames f).resumed = true → (s.frames f).func.kind ≠ FuncKind.plain) :
    ∃ s2 s2' r, tearDownFrame env s e = some (s2, r) ∧
      tearDownFrame env (s.clearLocalsDecRefd f) e = some (s2', r) ∧
      releaseCount f s2.log = releaseCount f s.log ∧
      s2.fp = (s.frames f).sfp ∧ s2.fp = s2'.fp ∧ s2.pc = s2'.pc ∧ s2.stack = s2'.stack ∧
      otherEvents s2.log = otherEvents s2'.log ∧
      (∀ exc, e = some exc → absorbsFault (s.frames f) = true → r = none) ∧
      (∀ exc, e = some exc → absorbsFault (s.frames f) = false → r = e) := by
  obtain ⟨s2, r, h, hcount, _⟩ := tearDownFrame_release env s f e hfp hvalid
  obtain ⟨s3, r3, h3, hfp3, _⟩ := tearDownFrame_effects env s f e hfp hvalid
  rw [h] at h3
  obtain ⟨h31, _⟩ := Prod.mk.inj (Option.some.inj h3)
  subst h31
  have hmap := tearDownFrame_flag_map env s f e hfp hflag
  rw [h] at hmap
  cases h2 : tearDownFrame env (s.clearLocalsDecRefd f) e with
  | none => rw [h2] at hmap; cases hmap
  | some q =>
    obtain ⟨s2', r'⟩ := q
    rw [h2] at hmap
    simp only [Option.map_some', Option.some.injEq, teardownResult, Prod.mk.injEq] at hmap
    obtain ⟨hr, hfpe, hpce, hst, _, hev, _⟩ := hmap
    subst hr
    refine ⟨s2, s2', r, h, rfl, ?_, hfp3, hfpe, hpce, hst, hev, ?_, ?_⟩
    · rw [hcount]
      simp [hflag]
    · intro exc he habs
      subst he
      obtain ⟨s4, h4, _⟩ := tearDownFrame_absorbs env s f exc hfp habs
      rw [h] at h4
      exact (Prod.mk.inj (Option.some.inj h4)).2
    · intro exc he habs
      subst he
      rcases passes_or_absorbs _ hvalid with hp | ha
      · obtain ⟨s4, h4, _⟩ := tearDownFrame_passes env s f exc hfp hp
        rw [h] at h4
        exact (Prod.mk.inj (Option.some.inj h4)).2
      · rw [habs] at ha; cases ha

/-- The resumed async function of `stateResumedAsyncReleased`, whose flag is
set, is torn down with the fault 7: no locals are released, and the fault is
absorbed as it is when the flag is clear. -/
theorem tearDownFrame_flag_set_witness :
    stateResumedAsyncReleased.fp = some 50 ∧
    (stateResumedAsyncReleased.frames 50).localsDecRefd = true ∧
    ∃ s2 s2', tearDownFrame exEnv stateResumedAsyncReleased (some 7) = some (s2, none) ∧
      tearDownFrame exEnv (stateResumedAsyncReleased.clearLocalsDecRefd 50) (some 7) =
        some (s2', none) ∧
      releaseCount 50 s2.log = releaseCount 50 stateResumedAsyncReleased.log ∧
      s2.fp = s2'.fp ∧ s2.pc = s2'.pc ∧ s2.stack = s2'.stack ∧
      otherEvents s2.log = otherEvents s2'.log := by
  obtain ⟨s2, s2', r, h1, h2, h3, _, h5, h6, h7, h8, h9, _⟩ :=
    tearDownFrame_flag_set exEnv stateResumedAsyncReleased 50 (some 7) rfl rfl (by decide)
  have hr : r = none := h9 7 rfl (by decide)
  subst hr
  exact ⟨rfl, rfl, s2, s2', h1, h2, h3, h5, h6, h7, h8⟩

/-- Claim C19 as stated fails: the kind-specific step is not skipped when the
flag `localsDecRefd` is set. The frame of `stateInOutReleased`, on the stack
with the flag set, is torn down with the fault 7 and its two slots, its
activation record and two inout slots are discarded: the stack top moves
from 48 to 54. The resumed async function of `stateResumedAsyncReleased`,
with the flag set, is torn down with the fault 7: its wait handle is failed
and the fault is not returned but absorbed. -/
theorem tearDownFrame_flag_set_not_skipped :
    (stateInOutReleased.frames 50).localsDecRefd = true ∧
    stateInOutReleased.stack.top = 48 ∧
    (tearDownFrame exEnv stateInOutReleased (some 7)).map
        (fun r => (r.2, r.1.stack.top)) = some (some 7, 54) ∧
    (stateResumedAsyncReleased.frames 50).localsDecRefd = true ∧
    (tearDownFrame exEnv stateResumedAsyncReleased (some 7)).map
        (fun r => (r.2, otherEvents r.1.log)) =
      some (none, [.tearDownFrame 50, .afwhFail 9 7, .decRefObj 9]) := by
  decide

/-!
The release of the locals with destructors that re-enter the teardown.
-/

/-- Without destructors, the teardown with destructors is `tearDownFrame`. -/
theorem tearDownFrameDtor_id (env : Env) (s : VMState) (e : Option ObjId) :
    tearDownFrameDtor id env s e = tearDownFrame env s e := rfl

theorem frame_free_locals_unwind_dtor_log (dtor : VMState → VMState) (s : VMState)
    (fp : Int) (n : Nat) (e : Option ObjId) :
    (frame_free_locals_unwind_dtor dtor s fp n e).log =
      (dtor (s.emit (.frame_free_locals_unwind fp n e))).log := by
  simp [frame_free_locals_unwind_dtor]

/-- The kind-specific part of the teardown adds no release of locals to the
log but those of its call of `decRefLocals`. -/
theorem tearDownKindDtor_release (dtor : VMState → VMState) (env : Env) (s : VMState)
    (fp : Int) (e : Option ObjId)
    (hvalid : (s.frames fp).resumed = true → (s.frames fp).func.kind ≠ FuncKind.plain) :
    (tearDownKindDtor dtor env s fp e).map (fun q => releaseCount fp q.1.log) =
      some (if callsDecRefLocals (s.frames fp) e = true then
          releaseCount fp (decRefLocalsDtor dtor s fp e).log
        else releaseCount fp s.log) := by
  unfold tearDownKindDtor callsDecRefLocals
  cases hres : (s.frames fp).resumed <;> cases e <;>
    cases hfr : (s.frames fp).resumable.failResult <;>
    cases hk : (s.frames fp).func.kind <;>
    simp [Func.isAsyncFunction, Func.isAsyncGenerator, Func.isNonAsyncGenerator, hk, hres] <;>
    (try split_ifs) <;>
    simp_all [releaseCount_append, releaseCount]

/-- The teardown adds no release of locals to the log but those of its call
of `decRefLocals`. -/
theorem tearDownFrameDtor_release (dtor : VMState → VMState) (env : Env) (s : VMState)
    (fp : Int) (e : Option ObjId) (hfp : s.fp = some fp)
    (hvalid : (s.frames fp).resumed = true → (s.frames fp).func.kind ≠ FuncKind.plain) :
    (tearDownFrameDtor dtor env s e).map (fun q => releaseCount fp q.1.log) =
      some (if callsDecRefLocals (s.frames fp) e = true then
          releaseCount fp (decRefLocalsDtor dtor (s.emit (.tearDownFrame fp)) fp e).log
        else releaseCount fp s.log) := by
  have hk := tearDownKindDtor_release dtor env (s.emit (.tearDownFrame fp)) fp e
    (by simpa using hvalid)
  have hlog : releaseCount fp (s.emit (.tearDownFrame fp)).log = releaseCount fp s.log := by
    simp [releaseCount_append, releaseCount]
  simp only [emit_frames, hlog] at hk
  rw [← hk]
  unfold tearDownFrameDtor
  simp only [hfp]
  cases tearDownKindDtor dtor env (s.emit (.tearDownFrame fp)) fp e with
  | none => rfl
  | some q =>
    obtain ⟨s1, r1⟩ := q
    cases (s.frames fp).sfp <;> rfl

/-- The releases in the log after `decRefLocals`: those before when the flag
is set, those after the destructors otherwise. -/
theorem decRefLocalsDtor_release (dtor : VMState → VMState) (s : VMState) (fp : Int)
    (e : Option ObjId) :
    releaseCount fp (decRefLocalsDtor dtor s fp e).log =
      if (s.frames fp).localsDecRefd = true then releaseCount fp s.log
      else releaseCount fp (dtor ((s.setLocalsDecRefd fp).emit
        (.frame_free_locals_unwind fp (s.frames fp).func.numLocals e))).log := by
  unfold decRefLocalsDtor
  by_cases h : (s.frames fp).localsDecRefd = true <;>
    simp [h, frame_free_locals_unwind_dtor_log]

/-- A re-entrant teardown of a frame whose flag `localsDecRefd` is set
releases no locals, whatever its own destructors are. -/
theorem reenterTearDown_release (dtor : VMState → VMState) (env : Env) (fp : Int)
    (e : Option ObjId) (s : VMState) (hflag : (s.frames fp).localsDecRefd = true)
    (hvalid : (s.frames fp).resumed = true → (s.frames fp).func.kind ≠ FuncKind.plain) :
    releaseCount fp (reenterTearDown dtor env fp e s).log = releaseCount fp s.log := by
  have h := tearDownFrameDtor_release dtor env { s with fp := some fp } fp e rfl hvalid
  have hd : releaseCount fp (decRefLocalsDtor dtor
      (VMState.emit { s with fp := some fp } (.tearDownFrame fp)) fp e).log =
      releaseCount fp s.log := by
    rw [decRefLocalsDtor_release]
    have : ((VMState.emit { s with fp := some fp } (.tearDownFrame fp)).frames fp).localsDecRefd
        = true := hflag
    rw [if_pos this]
    simp [VMState.emit, releaseCount_append, releaseCount]
  rw [hd] at h
  simp only [ite_self] at h
  unfold reenterTearDown
  cases hq : tearDownFrameDtor dtor env { s with fp := some fp } e with
  | none => rfl
  | some q =>
    obtain ⟨s2, r2⟩ := q
    rw [hq] at h
    exact Option.some.inj h

/-- The teardown of a frame during which a destructor tears the frame down
again: the locals are released once when the flag is clear and the path
calls `decRefLocals`, and not otherwise. -/
theorem tearDownFrameDtor_reentrant (dtor : VMState → VMState) (env : Env) (s : VMState)
    (fp : Int) (e e2 : Option ObjId) (hfp : s.fp = some fp)
    (hvalid : (s.frames fp).resumed = true → (s.frames fp).func.kind ≠ FuncKind.plain) :
    ∃ s1 r1, tearDownFrameDtor (reenterTearDown dtor env fp e2) env s e = some (s1, r1) ∧
      releaseCount fp s1.log = releaseCount fp s.log +
        (if (s.frames fp).localsDecRefd = false ∧
            callsDecRefLocals (s.frames fp) e = true then 1 else 0) := by
  have h := tearDownFrameDtor_release (reenterTearDown dtor env fp e2) env s fp e hfp hvalid
  cases hq : tearDownFrameDtor (reenterTearDown dtor env fp e2) env s e with
  | none => rw [hq] at h; cases h
  | some q =>
    obtain ⟨s1, r1⟩ := q
    rw [hq] at h
    have h1 := Option.some.inj h
    simp only [] at h1
    refine ⟨s1, r1, rfl, ?_⟩
    rw [h1]
    by_cases hc : callsDecRefLocals (s.frames fp) e = true
    · rw [if_pos hc, decRefLocalsDtor_release]
      by_cases hflag : (s.frames fp).localsDecRefd = true
      · simp [hflag, releaseCount_append, releaseCount]
      · have hflag2 : ((s.emit (.tearDownFrame fp)).frames fp).localsDecRefd ≠ true := hflag
        rw [if_neg hflag2, reenterTearDown_release]
        · simp [hflag, hc, releaseCount_append, releaseCount]
        · simp [setLocalsDecRefd_frames_self]
        · simpa [setLocalsDecRefd_frames_self] using hvalid
    · simp [hc]

/-- Claim C8, as the code has it. Over two calls of `tearDownFrame` on the
same frame (the second after pointing the frame register at the frame again),
with the faults `e1` and `e2`: the first call runs `frame_free_locals_unwind`
once when the flag `localsDecRefd` is clear and its path calls `decRefLocals`,
and not otherwise; the second runs it once when the flag was clear, the first
call did not reach `decRefLocals` and the second does, and not otherwise. So
the release runs at most once, never when the flag is set on entry, and never
in the second call when both calls are given the same fault. The flag is set
before the release starts: when a destructor run by the release tears the
frame down again (with any fault `e3`, and whatever the destructors of that
teardown are), the re-entrant teardown does not release again, so that the
whole call still runs the release once when the flag is clear and its path
calls `decRefLocals`, and not otherwise. Without destructors the teardown
with destructors is `tearDownFrame`. -/
theorem tearDownFrame_twice (env : Env) (s : VMState) (fp : Int) (e1 e2 : Option ObjId)
    (hfp : s.fp = some fp)
    (hvalid : (s.frames fp).resumed = true → (s.frames fp).func.kind ≠ FuncKind.plain) :
    (∃ s1 r1 s2 r2, tearDownFrame env s e1 = some (s1, r1) ∧
      tearDownFrame env { s1 with fp := some fp } e2 = some (s2, r2) ∧
      releaseCount fp s1.log = releaseCount fp s.log +
        (if (s.frames fp).localsDecRefd = false ∧
            callsDecRefLocals (s.frames fp) e1 = true then 1 else 0) ∧
      releaseCount fp s2.log = releaseCount fp s1.log +
        (if (s.frames fp).localsDecRefd = false ∧
            callsDecRefLocals (s.frames fp) e1 = false ∧
            callsDecRefLocals (s.frames fp) e2 = true then 1 else 0) ∧
      releaseCount fp s2.log ≤ releaseCount fp s.log + 1 ∧
      ((s.frames fp).localsDecRefd = true → releaseCount fp s2.log = releaseCount fp s.log) ∧
      (e2 = e1 → releaseCount fp s2.log = releaseCount fp s1.log)) ∧
    (∀ (dtor : VMState → VMState) (e3 : Option ObjId),
      ∃ s1 r1, tearDownFrameDtor (reenterTearDown dtor env fp e3) env s e1 = some (s1, r1) ∧
        releaseCount fp s1.log = releaseCount fp s.log +
          (if (s.frames fp).localsDecRefd = false ∧
              callsDecRefLocals (s.frames fp) e1 = true then 1 else 0)) ∧
    tearDownFrameDtor id env s e1 = tearDownFrame env s e1 := by
  refine ⟨?_, fun dtor e3 => tearDownFrameDtor_reentrant dtor env s fp e1 e3 hfp hvalid, rfl⟩
  obtain ⟨s1, r1, h1, hc1, hf1⟩ := tearDownFrame_release env s fp e1 hfp hvalid
  have hframe : (s1.frames fp).func = (s.frames fp).func ∧
      (s1.frames fp).resumed = (s.frames fp).resumed ∧
      (s1.frames fp).resumable = (s.frames fp).resumable ∧
      (s1.frames fp).localsDecRefd =
        ((s.frames fp).localsDecRefd || callsDecRefLocals (s.frames fp) e1) := by
    rw [hf1]
    by_cases hc : callsDecRefLocals (s.frames fp) e1 = true
    · simp [hc, setLocalsDecRefd_frames_self]
    · simp [hc]
  obtain ⟨hfunc, hresd, hresum, hflag⟩ := hframe
  have hcalls : ∀ e, callsDecRefLocals (s1.frames fp) e = callsDecRefLocals (s.frames fp) e := by
    intro e
    simp only [callsDecRefLocals, hfunc, hresd, hresum]
  obtain ⟨s2, r2, h2, hc2, _⟩ :=
    tearDownFrame_release env { s1 with fp := some fp } fp e2 rfl
      (by
        show (s1.frames fp).resumed = true → (s1.frames fp).func.kind ≠ FuncKind.plain
        rw [hfunc, hresd]; exact hvalid)
  have hc2b : releaseCount fp s2.log = releaseCount fp s1.log +
      (if (s.frames fp).localsDecRefd = false ∧
          callsDecRefLocals (s.frames fp) e1 = false ∧
          callsDecRefLocals (s.frames fp) e2 = true then 1 else 0) := by
    rw [hc2]
    show releaseCount fp s1.log +
      (if (s1.frames fp).localsDecRefd = false ∧
          callsDecRefLocals (s1.frames fp) e2 = true then 1 else 0) = _
    rw [hflag, hcalls]
    by_cases ha : (s.frames fp).localsDecRefd = true <;>
      by_cases hb : callsDecRefLocals (s.frames fp) e1 = true <;>
      by_cases hd : callsDecRefLocals (s.frames fp) e2 = true <;>
      simp [ha, hb, hd]
  refine ⟨s1, r1, s2, r2, h1, h2, hc1, hc2b, ?_, ?_, ?_⟩
  · rw [hc2b, hc1]
    by_cases ha : (s.frames fp).localsDecRefd = true <;>
      by_cases hb : callsDecRefLocals (s.frames fp) e1 = true <;>
      by_cases hd : callsDecRefLocals (s.frames fp) e2 = true <;>
      simp [ha, hb, hd]
  · intro ha
    rw [hc2b, hc1]
    simp [ha]
  · intro he
    rw [hc2b, he]
    by_cases hb : callsDecRefLocals (s.frames fp) e1 = true <;> simp [hb]

/-- Two teardowns of a generator frame with unreleased locals: the release
runs in the first call only. When a destructor run by the release tears the
frame down again, the release still runs once. -/
theorem tearDownFrame_twice_witness :
    stateResumedGenerator.fp = some 50 ∧
    (∃ s1 r1 s2 r2, tearDownFrame exEnv stateResumedGenerator (some 7) = some (s1, r1) ∧
      tearDownFrame exEnv { s1 with fp := some 50 } (some 7) = some (s2, r2) ∧
      releaseCount 50 s1.log = releaseCount 50 stateResumedGenerator.log + 1 ∧
      releaseCount 50 s2.log = releaseCount 50 s1.log) ∧
    ∃ s1 r1, tearDownFrameDtor (reenterTearDown id exEnv 50 (some 7)) exEnv
        stateResumedGenerator (some 7) = some (s1, r1) ∧
      releaseCount 50 s1.log = releaseCount 50 stateResumedGenerator.log + 1 := by
  obtain ⟨⟨s1, r1, s2, r2, h1, h2, hc1, _, _, _, hsame⟩, hre, _⟩ :=
    tearDownFrame_twice exEnv stateResumedGenerator 50 (some 7) (some 7) rfl (by decide)
  exact ⟨rfl, ⟨s1, r1, s2, r2, h1, h2, hc1, hsame rfl⟩, hre id (some 7)⟩

/-- Claim C8 as stated fails: the frame of a resumed async function whose wait
handle is not running, its flag `localsDecRefd` clear, is torn down twice
with a host-level fault (no exception object); neither call releases the
locals, and the flag is still clear afterwards. When the second teardown is
given the exception object 7 instead, it is the second call that runs the
release. -/
theorem tearDownFrame_twice_no_release :
    (stateResumedAsync.frames 50).localsDecRefd = false ∧
    ((tearDownFrame exEnv stateResumedAsync none).bind
      (fun r => tearDownFrame exEnv { r.1 with fp := some 50 } none)).map
        (fun r => (releaseCount 50 r.1.log, (r.1.frames 50).localsDecRefd)) =
      some (0, false) ∧
    ((tearDownFrame exEnv stateResumedAsync none).bind
      (fun r => (tearDownFrame exEnv { r.1 with fp := some 50 } (some 7)).map
        (fun r2 => (releaseCount 50 r.1.log, releaseCount 50 r2.1.log)))) =
      some (0, 1) := by
  decide

end HPHP
